import Mathlib

/-!
# Minimap scrollbar: geometry, click mapping and pixel compositor

A shallow embedding of `minimapstyle.cpp` and `minimapsettings.cpp`.

Conventions of the embedding:

* C++ `int` is `Int`; the arithmetic is the mathematical one (no wrap-around:
  signed overflow is undefined in the source, all statements are about values
  inside the `int` range).
* `qreal` is `ℚ`: every `qreal` expression of the source is evaluated exactly.
* `int / int` is `Int.tdiv` (truncation towards zero), the implicit
  `qreal -> int` conversion is `toInt` (truncation towards zero).
* The host widgets (editor, viewport, scrollbar, document layout) are read
  through the record `Host`.
-/

namespace Minimap

/-! ## Qt numeric helpers -/

/-- Qt `qRound(qreal)`: `d >= 0 ? int(d + 0.5) : int(d - 0.5)`, that is
rounding to nearest with halves away from zero. -/
def qRound (d : ℚ) : Int := if 0 ≤ d then ⌊d + 1 / 2⌋ else ⌈d - 1 / 2⌉

/-- Qt `qFloor`. -/
def qFloor (d : ℚ) : Int := ⌊d⌋

/-- Qt `qCeil`. -/
def qCeil (d : ℚ) : Int := ⌈d⌉

/-- Implicit C++ conversion `qreal -> int`: truncation towards zero. -/
def toInt (d : ℚ) : Int := if 0 ≤ d then ⌊d⌋ else ⌈d⌉

/-- Qt `qBound(lo, v, hi)` = `qMax(lo, qMin(hi, v))`. -/
def qBound {α : Type} [LinearOrder α] (lo v hi : α) : α := max lo (min hi v)

/-! ## Data model -/

/-- The enumerators of the scoped enum `Minimap::EMinimapStyle`. -/
inductive EMinimapStyle where
  | eScaling
  | eScrolling
  deriving DecidableEq, Repr

/-- Modelled from the spec: the declaration of `EMinimapStyle`
(`minimapconstants.h`) is missing; `static_cast<int>` of its enumerators is
`0 = Scaling`, `1 = Scrolling`. -/
def EMinimapStyle.toInt : EMinimapStyle → Int
  | EMinimapStyle.eScaling => 0
  | EMinimapStyle.eScrolling => 1

/-- The member fields of `MinimapSettings`. The field `m_style` holds a value of
the scoped enum `EMinimapStyle` as its integer code: `fromMap` casts any `int`
of the record to the enum. -/
structure MinimapSettings where
  m_enabled : Bool
  m_width : Int
  m_lineCountThreshold : Int
  m_alpha : Int
  m_centerOnClick : Bool
  m_showLineTooltip : Bool
  m_pixelsPerLine : Int
  m_style : Int
  deriving DecidableEq, Repr

namespace MinimapSettings

/-- `MinimapSettings::enabled()`. -/
def enabled (s : MinimapSettings) : Bool := s.m_enabled

/-- `MinimapSettings::width()`. -/
def width (s : MinimapSettings) : Int := s.m_width

/-- `MinimapSettings::lineCountThreshold()`. -/
def lineCountThreshold (s : MinimapSettings) : Int := s.m_lineCountThreshold

/-- `MinimapSettings::alpha()`. -/
def alpha (s : MinimapSettings) : Int := s.m_alpha

/-- `MinimapSettings::centerOnClick()`. -/
def centerOnClick (s : MinimapSettings) : Bool := s.m_centerOnClick

/-- `MinimapSettings::showLineTooltip()`. -/
def showLineTooltip (s : MinimapSettings) : Bool := s.m_showLineTooltip

/-- `MinimapSettings::pixelsPerLine()`. -/
def pixelsPerLine (s : MinimapSettings) : Int := s.m_pixelsPerLine

/-- `MinimapSettings::style()`, the enum value as its integer code. -/
def style (s : MinimapSettings) : Int := s.m_style

end MinimapSettings

/-- `QRect(x, y, width, height)`. -/
structure QRect where
  x : Int
  y : Int
  width : Int
  height : Int
  deriving DecidableEq, Repr

namespace QRect

/-- The default constructed `QRect()`: the null rectangle at the origin. -/
def null : QRect := ⟨0, 0, 0, 0⟩

/-- `QRect::top()`. -/
def top (r : QRect) : Int := r.y

/-- `QRect::isValid()`: `left <= right && top <= bottom`. -/
def isValid (r : QRect) : Bool := decide (0 < r.width) && decide (0 < r.height)

/-- `QRect::contains(QPoint)` for a valid rectangle. -/
def contains (r : QRect) (px py : Int) : Bool :=
  decide (r.x ≤ px) && decide (px < r.x + r.width) &&
    decide (r.y ≤ py) && decide (py < r.y + r.height)

end QRect

/-- What the style object reads from the editor, its viewport, its document
layout and its vertical scrollbar. `MINIMAP_EXTRA_AREA_WIDTH` is the constant
of `minimapconstants.h`. -/
structure Host where
  /-- `document()->blockCount()` -/
  blockCount : Int
  /-- `m_editor->width()` -/
  editorWidth : Int
  /-- `editor()->size().height()` -/
  editorHeight : Int
  /-- `m_editor->extraArea()->width()` when there is an extra area -/
  extraArea : Option Int
  /-- `m_editor->viewport()->height()` -/
  viewportHeight : Int
  /-- `m_editor->fontMetrics().lineSpacing()` -/
  lineSpacing : Int
  /-- `documentLayout()->documentSize().height()` -/
  documentHeight : ℚ
  /-- `displaySettings().m_textWrapping` -/
  textWrapping : Bool
  /-- `scrollbar->width()` -/
  sbWidth : Int
  /-- `scrollbar->height()` -/
  sbHeight : Int
  /-- `scrollbar->value()` -/
  value : Int
  /-- `scrollbar->minimum()` -/
  minimum : Int
  /-- `scrollbar->maximum()` -/
  maximum : Int
  /-- `Constants::MINIMAP_EXTRA_AREA_WIDTH` -/
  MINIMAP_EXTRA_AREA_WIDTH : Int

/-- The member fields of `MinimapStyleObject` that the geometry uses; `strategy`
is the dynamic class of the object, `m_imageWidth`/`m_imageHeight` are the
dimensions of `m_image`. -/
structure MinimapStyleObject where
  strategy : EMinimapStyle
  m_factor : ℚ
  m_lineCount : Int
  m_groove : QRect
  m_addPage : QRect
  m_subPage : QRect
  m_slider : QRect
  m_update : Bool
  m_isDragging : Bool
  m_imageWidth : Int
  m_imageHeight : Int
  m_lastMousePos : Int × Int := (0, 0)

namespace MinimapStyleObject

/-- `MinimapStyleObject::width()`. -/
def width (cfg : MinimapSettings) (e : Host) : Int :=
  let w := match e.extraArea with
    | some a => a
    | none => 0
  min (e.editorWidth - w) (cfg.width + e.MINIMAP_EXTRA_AREA_WIDTH)

/-- `MinimapStyleObject::lineCount()`. -/
def lineCount (o : MinimapStyleObject) : Int := o.m_lineCount

/-- `MinimapStyleObject::factor()`. -/
def factor (o : MinimapStyleObject) : ℚ := o.m_factor

/-- `MinimapStyleObject::deferedUpdate()`; the result tells whether a deferred
call of `update` was scheduled with `QTimer::singleShot`. -/
def deferedUpdate (o : MinimapStyleObject) : MinimapStyleObject × Bool :=
  if o.m_update then (o, false) else ({ o with m_update := true }, true)

end MinimapStyleObject

/-- What `centerViewportOnMousePosition` does to the scrollbar: `undefined` is a
division by zero in the source, `unchanged` a return without `setValue`. -/
inductive Scroll where
  | undefined
  | unchanged
  | setValue (v : Int)
  deriving DecidableEq, Repr

/-- `QAbstractSlider::setValue` of Qt: the value is bounded to
`[minimum, maximum]` and stored. -/
def Host.setValue (e : Host) (v : Int) : Host :=
  { e with value := qBound e.minimum v e.maximum }

/-- The scrollbar after `centerViewportOnMousePosition`. -/
def Host.scrolled (e : Host) : Scroll → Host
  | Scroll.setValue v => e.setValue v
  | Scroll.unchanged => e
  | Scroll.undefined => e

/-! ## Scaling strategy -/

namespace Scaling

/-- The local `actualContentHeight` of
`MinimapStyleObjectScalingStrategy::updateSubControlRects`. -/
def actualContentHeight (e : Host) (o : MinimapStyleObject) : Int :=
  let a : Int := if o.m_factor < 1 then qRound (((o.m_lineCount - 1 : Int) : ℚ) * o.m_factor) + 1
    else o.m_lineCount
  min a e.sbHeight

/-- The local `viewPortLineCount` of
`MinimapStyleObjectScalingStrategy::updateSubControlRects`. -/
def viewPortLineCount (cfg : MinimapSettings) (e : Host) (o : MinimapStyleObject) : Int :=
  let actualLinesPerPage := max 1 (Int.tdiv e.viewportHeight e.lineSpacing) * cfg.pixelsPerLine
  let v := qRound (o.m_factor * (actualLinesPerPage : ℚ))
  max 1 (min v o.m_groove.height)

/-- The local `realValue` of
`MinimapStyleObjectScalingStrategy::updateSubControlRects`, the top of the
slider. -/
def realValue (cfg : MinimapSettings) (e : Host) (o : MinimapStyleObject) : Int :=
  let viewPortLineCount := viewPortLineCount cfg e o
  let value := e.value
  let min_ := e.minimum
  let max_ := e.maximum
  let actualContentHeight := actualContentHeight e o
  let realValue0 : Int :=
    if max_ > min_ ∧ actualContentHeight > viewPortLineCount then
      let scrollRatio : ℚ := ((value - min_ : Int) : ℚ) / ((max_ - min_ : Int) : ℚ)
      let maxSliderTop := actualContentHeight - viewPortLineCount
      let r := qRound (scrollRatio * (maxSliderTop : ℚ))
      max 0 (min r maxSliderTop)
    else 0
  let realValue1 : Int :=
    if realValue0 + viewPortLineCount > actualContentHeight then
      actualContentHeight - viewPortLineCount
    else realValue0
  max 0 realValue1

/-- `MinimapStyleObjectScalingStrategy::updateSubControlRects`. The source
divides by `lineSpacing`, which must not be zero. -/
def updateSubControlRects (cfg : MinimapSettings) (e : Host) (o : MinimapStyleObject) :
    MinimapStyleObject :=
  if o.m_lineCount ≤ 0 then
    { o with m_addPage := QRect.null, m_subPage := QRect.null, m_slider := QRect.null }
  else
    let viewPortLineCount := viewPortLineCount cfg e o
    let w := e.sbWidth
    let h := e.sbHeight
    let realValue := realValue cfg e o
    { o with
      m_addPage :=
        if realValue + viewPortLineCount < h then
          ⟨0, realValue + viewPortLineCount, w, h - realValue - viewPortLineCount⟩
        else QRect.null
      m_subPage := if realValue > 0 then ⟨0, 0, w, realValue⟩ else QRect.null
      m_slider := ⟨0, realValue, w, viewPortLineCount⟩ }

/-- `MinimapStyleObjectScalingStrategy::update`. -/
def update (cfg : MinimapSettings) (e : Host) (o : MinimapStyleObject) : MinimapStyleObject :=
  let lineCount := max e.blockCount 1 * cfg.pixelsPerLine
  let w := e.sbWidth
  let h := e.sbHeight
  let factor : ℚ := if lineCount ≤ h then 1 else (h : ℚ) / (lineCount : ℚ)
  let width := MinimapStyleObject.width cfg e
  let o1 := { o with
    m_lineCount := lineCount
    m_factor := factor
    m_groove := ⟨width, 0, w - width, min lineCount h⟩ }
  let o2 := updateSubControlRects cfg e o1
  { o2 with
    m_imageWidth := width
    m_imageHeight := h * cfg.pixelsPerLine
    m_update := false }

/-- The local `actualContentHeight` of
`MinimapStyleObjectScalingStrategy::centerViewportOnMousePosition`. -/
def clickContentHeight (e : Host) (o : MinimapStyleObject) : Int :=
  if o.m_factor < 1 then qRound ((o.m_lineCount : ℚ) * o.m_factor)
  else min o.m_lineCount e.sbHeight

/-- The local `targetLine` of
`MinimapStyleObjectScalingStrategy::centerViewportOnMousePosition`. The source
divides by `actualContentHeight` when the pointer is inside the content. -/
def targetLine (e : Host) (o : MinimapStyleObject) (mouseY : Int) : Int :=
  let actualContentHeight := clickContentHeight e o
  if mouseY ≤ actualContentHeight then
    let lineRatio : ℚ := (mouseY : ℚ) / (actualContentHeight : ℚ)
    max 1 (qRound (lineRatio * (o.m_lineCount : ℚ)))
  else o.m_lineCount

/-- `MinimapStyleObjectScalingStrategy::centerViewportOnMousePosition`: the
call of `scrollbar->setValue` it makes for a pointer at height `mouseY`. -/
def centerViewportOnMousePosition (e : Host) (o : MinimapStyleObject) (mouseY : Int) : Scroll :=
  let actualContentHeight := clickContentHeight e o
  if mouseY ≤ actualContentHeight ∧ actualContentHeight = 0 then Scroll.undefined
  else if e.lineSpacing = 0 then Scroll.undefined
  else
    let targetLine := targetLine e o mouseY
    let linesPerPage := Int.tdiv e.viewportHeight e.lineSpacing
    let centerLine0 := targetLine - Int.tdiv linesPerPage 2
    let centerLine := max 1 (min centerLine0 (max 1 (o.m_lineCount - linesPerPage + 1)))
    let maxScrollValue := e.maximum
    if maxScrollValue > 0 then
      let maxCenterLine := max 1 (o.m_lineCount - linesPerPage + 1)
      if maxCenterLine > 1 then
        let scrollRatio : ℚ := ((centerLine - 1 : Int) : ℚ) / ((maxCenterLine - 1 : Int) : ℚ)
        let targetScrollValue := qRound (scrollRatio * (maxScrollValue : ℚ))
        Scroll.setValue (max 0 (min targetScrollValue maxScrollValue))
      else Scroll.setValue 0
    else Scroll.unchanged

/-- The return value of `MinimapStyleObjectScalingStrategy::drawMinimap`:
`false` when nothing was drawn (text wrapping, or an empty strip), `true` after
the rendering loop. -/
def drawMinimap (cfg : MinimapSettings) (e : Host) (o : MinimapStyleObject) : Bool :=
  if e.textWrapping then false
  else
    let h := if o.m_factor < 1 then o.lineCount else e.editorHeight
    let w := MinimapStyleObject.width cfg e - e.MINIMAP_EXTRA_AREA_WIDTH
    if w ≤ 0 ∨ h ≤ 0 then false else true

/-- The round trip of the click mapping: the geometry is computed by `update`
on the host `e0`, a click at height `mouseY` is mapped to a scroll value by
`centerViewportOnMousePosition` on the host `e`, and the slider rectangle is
recomputed by `updateSubControlRects` for the scrolled scrollbar. -/
def clickRoundTrip (cfg : MinimapSettings) (e0 e : Host) (o0 : MinimapStyleObject)
    (mouseY : Int) : QRect :=
  let o := update cfg e0 o0
  (updateSubControlRects cfg (e.scrolled (centerViewportOnMousePosition e o mouseY)) o).m_slider

end Scaling

/-! ## Scrolling strategy -/

namespace Scrolling

/-- The local `viewPortHeightInMinimap` of
`MinimapStyleObjectScrollingStrategy::updateSubControlRects`. -/
def viewPortHeightInMinimap (cfg : MinimapSettings) (e : Host) : Int :=
  let ppl := cfg.pixelsPerLine
  let lineHeight := if e.lineSpacing ≤ 0 then 1 else e.lineSpacing
  let actualLinesInViewport := max 1 (Int.tdiv e.viewportHeight lineHeight)
  actualLinesInViewport * ppl

/-- The local `effectiveMinimapHeight` of
`MinimapStyleObjectScrollingStrategy::updateSubControlRects`. -/
def effectiveMinimapHeight (cfg : MinimapSettings) (e : Host) : Int :=
  let actualContentHeight := qRound (e.documentHeight * (cfg.pixelsPerLine : ℚ))
  min actualContentHeight e.sbHeight

/-- The local `realValue` (a `qreal`) of
`MinimapStyleObjectScrollingStrategy::updateSubControlRects`. -/
def realValue (cfg : MinimapSettings) (e : Host) : ℚ :=
  let ppl := cfg.pixelsPerLine
  let viewPortHeightInMinimap := viewPortHeightInMinimap cfg e
  let effectiveMinimapHeight := effectiveMinimapHeight cfg e
  if e.maximum > e.minimum ∧ effectiveMinimapHeight > viewPortHeightInMinimap then
    let scrollRatio : ℚ :=
      ((e.value - e.minimum : Int) : ℚ) / ((e.maximum - e.minimum : Int) : ℚ)
    let maxSliderTop : ℚ := ((effectiveMinimapHeight - viewPortHeightInMinimap : Int) : ℚ)
    let rawPosition := scrollRatio * maxSliderTop
    let snapped : ℚ := ((qRound (rawPosition / (ppl : ℚ)) * ppl : Int) : ℚ)
    qBound 0 snapped maxSliderTop
  else 0

/-- `MinimapStyleObjectScrollingStrategy::updateSubControlRects`. -/
def updateSubControlRects (cfg : MinimapSettings) (e : Host) (o : MinimapStyleObject) :
    MinimapStyleObject :=
  if o.m_lineCount ≤ 0 then
    { o with m_addPage := QRect.null, m_subPage := QRect.null, m_slider := QRect.null }
  else
    let viewPortHeightInMinimap := viewPortHeightInMinimap cfg e
    let w := e.sbWidth
    let h := e.sbHeight
    let realValue := realValue cfg e
    let addPageTop := qCeil (realValue + (viewPortHeightInMinimap : ℚ))
    { o with
      m_subPage := if realValue > 0 then ⟨0, 0, w, qFloor realValue⟩ else QRect.null
      m_slider := ⟨0, toInt realValue, w, viewPortHeightInMinimap⟩
      m_addPage := if addPageTop < h then ⟨0, addPageTop, w, h - addPageTop⟩ else QRect.null }

/-- `MinimapStyleObjectScrollingStrategy::update`. -/
def update (cfg : MinimapSettings) (e : Host) (o : MinimapStyleObject) : MinimapStyleObject :=
  let lineCount := max e.blockCount 1
  let docHeight := lineCount * cfg.pixelsPerLine
  let w := e.sbWidth
  let h := e.sbHeight
  let width := MinimapStyleObject.width cfg e
  let o1 := { o with
    m_lineCount := lineCount
    m_groove := ⟨width, 0, w - width, min docHeight h⟩ }
  let o2 := updateSubControlRects cfg e o1
  { o2 with
    m_imageWidth := width
    m_imageHeight := e.editorHeight
    m_update := false }

/-- The local `minimapRange` of
`MinimapStyleObjectScrollingStrategy::centerViewportOnMousePosition`, the
divisor of `relativePosition`. -/
def minimapRange (cfg : MinimapSettings) (e : Host) (o : MinimapStyleObject) : Int :=
  let iNofVisibleLines := toInt e.documentHeight
  let iMinimapHeight := iNofVisibleLines * cfg.pixelsPerLine
  min e.sbHeight iMinimapHeight - o.m_slider.height

/-- `MinimapStyleObjectScrollingStrategy::centerViewportOnMousePosition`: the
call of `scrollbar->setValue` it makes for a pointer at height `mousePosY`;
`undefined` when the divisor `minimapRange` is zero. -/
def centerViewportOnMousePosition (cfg : MinimapSettings) (e : Host) (o : MinimapStyleObject)
    (mousePosY : Int) : Scroll :=
  let mouseY := max 0 (mousePosY - Int.tdiv o.m_slider.height 2)
  let minimapRange := minimapRange cfg e o
  if minimapRange = 0 then Scroll.undefined
  else
    let relativePosition : ℚ := (mouseY : ℚ) / (minimapRange : ℚ)
    let iMax := e.maximum
    let iMin := e.minimum
    let iValue := toInt ((iMin : ℚ) + ((iMax - iMin : Int) : ℚ) * relativePosition)
    Scroll.setValue iValue

/-- The return value of `MinimapStyleObjectScrollingStrategy::drawMinimap`:
`false` when nothing was drawn (an empty strip), `true` after the rendering
loop. -/
def drawMinimap (cfg : MinimapSettings) (e : Host) : Bool :=
  let h := e.editorHeight
  let w := MinimapStyleObject.width cfg e - e.MINIMAP_EXTRA_AREA_WIDTH
  if w ≤ 0 ∨ h ≤ 0 then false else true

end Scrolling

/-! ## The proxy style -/

/-- The virtual `MinimapStyleObject::drawMinimap`, dispatched on the class of
the object. -/
def MinimapStyleObject.drawMinimap (cfg : MinimapSettings) (e : Host) (o : MinimapStyleObject) :
    Bool :=
  match o.strategy with
  | EMinimapStyle.eScaling => Scaling.drawMinimap cfg e o
  | EMinimapStyle.eScrolling => Scrolling.drawMinimap cfg e

/-- The virtual `MinimapStyleObject::update`, dispatched on the class of the
object. -/
def MinimapStyleObject.update (cfg : MinimapSettings) (e : Host) (o : MinimapStyleObject) :
    MinimapStyleObject :=
  match o.strategy with
  | EMinimapStyle.eScaling => Scaling.update cfg e o
  | EMinimapStyle.eScrolling => Scrolling.update cfg e o

/-- The constructor of the two strategy classes: nothing computed yet, no
update pending, no drag. -/
def MinimapStyleObject.construct (strategy : EMinimapStyle) : MinimapStyleObject :=
  { strategy := strategy
    m_factor := 0
    m_lineCount := 0
    m_groove := QRect.null
    m_addPage := QRect.null
    m_subPage := QRect.null
    m_slider := QRect.null
    m_update := false
    m_isDragging := false
    m_imageWidth := 0
    m_imageHeight := 0 }

/-- `MinimapStyle::createMinimapStyleObject`: the object of the strategy class
of the configured style, `none` (a null pointer) for any other style value. -/
def createMinimapStyleObject (cfg : MinimapSettings) : Option MinimapStyleObject :=
  if cfg.style = EMinimapStyle.eScaling.toInt then
    some (MinimapStyleObject.construct EMinimapStyle.eScaling)
  else if cfg.style = EMinimapStyle.eScrolling.toInt then
    some (MinimapStyleObject.construct EMinimapStyle.eScrolling)
  else none

/-- The observable steps of painting a scrollbar. -/
inductive PaintOp where
  /-- `o->drawMinimap(scrollbar)` was called and returned `drawn` -/
  | strategyRender (drawn : Bool)
  /-- `painter->fillRect(option->rect, o->background())` -/
  | fillRect
  /-- `painter->drawImage(option->rect, o->minimapImage(), option->rect)` -/
  | drawImage
  /-- `painter->drawRect(rect)` with the overlay brush -/
  | drawOverlay
  /-- `painter->drawLine(...)` with the splitter pen -/
  | drawSplitter
  /-- `QProxyStyle::drawComplexControl(...)`, the default scrollbar -/
  | defaultScrollBar
  deriving DecidableEq, Repr

/-- The argument `control` of `drawComplexControl`. -/
inductive ComplexControl where
  | CC_ScrollBar
  | CC_Other
  deriving DecidableEq, Repr

/-- The argument `widget` of the style functions: whether it is a `QScrollBar`
and the style object stored in its property
`MINIMAP_STYLE_OBJECT_PROPERTY`, if any. -/
structure Widget where
  isScrollBar : Bool
  styleObject : Option MinimapStyleObject

namespace MinimapStyle

/-- `MinimapStyle::drawMinimap`: the return value and the paint steps. -/
def drawMinimap (cfg : MinimapSettings) (e : Host) (widget : Widget) (o : MinimapStyleObject) :
    Bool × List PaintOp :=
  if !widget.isScrollBar then (false, [])
  else
    let drawn := o.drawMinimap cfg e
    (true, [PaintOp.strategyRender drawn, PaintOp.fillRect, PaintOp.drawImage,
      PaintOp.drawOverlay, PaintOp.drawSplitter])

/-- `MinimapStyle::drawComplexControl`: the paint steps. -/
def drawComplexControl (cfg : MinimapSettings) (e : Host) (control : ComplexControl)
    (widget : Option Widget) : List PaintOp :=
  match widget with
  | none => [PaintOp.defaultScrollBar]
  | some wd =>
    if control = ComplexControl.CC_ScrollBar ∧ cfg.enabled = true then
      match wd.styleObject with
      | none => [PaintOp.defaultScrollBar]
      | some o =>
        let lineCount := o.lineCount
        if lineCount > 0 ∧ lineCount ≤ cfg.lineCountThreshold then
          let r := drawMinimap cfg e wd o
          if r.1 then r.2 else r.2 ++ [PaintOp.defaultScrollBar]
        else [PaintOp.defaultScrollBar]
    else [PaintOp.defaultScrollBar]

end MinimapStyle

/-- Whether the paint steps contain a call of the strategy render. -/
def rendersMinimap (ops : List PaintOp) : Bool :=
  ops.any fun op => match op with
    | PaintOp.strategyRender _ => true
    | _ => false

/-! ## Pixel compositor -/

/-- A pixel value, `QRgb`. -/
abbrev QRgb := Nat

/-- A scanline of the image, addressed by column. -/
abbrev ScanLine := Int → QRgb

/-- The four components of a colour in the CMYK model, as `QColor::cyan()`,
`magenta()`, `yellow()` and `black()` return them. -/
structure Cmyk where
  cyan : Int
  magenta : Int
  yellow : Int
  black : Int
  deriving DecidableEq, Repr

/-- The colour conversions of `QColor` that `updatePixel` goes through when it
blends: `QColor(rgb).toCmyk()` and `QColor::fromCmyk(c, m, y, k).toRgb().rgb()`. -/
structure QColorModel where
  toCmyk : QRgb → Cmyk
  fromCmyk : Cmyk → QRgb

/-- `blendColors`. -/
def blendColors (a b : Cmyk) : Cmyk :=
  { cyan := min 255 (a.cyan + b.cyan)
    magenta := min 255 (a.magenta + b.magenta)
    yellow := min 255 (a.yellow + b.yellow)
    black := min 255 (a.black + b.black) }

/-- `QChar::Tabulation`. -/
def Tabulation : Char := Char.ofNat 9

/-- `QChar::isSpace()`: U+0020, U+0009..U+000D, U+0085, U+00A0 and the
characters of the Unicode separator categories. -/
def isSpace (c : Char) : Bool :=
  let u := c.toNat
  u == 0x20 || (decide (u ≤ 0x0d) && decide (0x09 ≤ u)) ||
    (decide (127 < u) && (u == 0x85 || u == 0xa0 || u == 0x1680 ||
      (decide (0x2000 ≤ u) && decide (u ≤ 0x200a)) || u == 0x2028 || u == 0x2029 ||
      u == 0x202f || u == 0x205f || u == 0x3000))

/-- The state of the writer: the scanline and the cursor `x`. -/
structure Pen where
  scanLine : ScanLine
  x : Int

/-- The loop `for (int i = 0; i < tab; ++i)` of `updatePixel` with `n`
iterations left; the result is `false` when the loop returned `false`. -/
def tabLoop (blend : Bool) (w : Int) (bg : QRgb) : Nat → Pen → Bool × Pen
  | 0, p => (true, p)
  | n + 1, p =>
    let p1 : Pen := if !blend then ⟨Function.update p.scanLine p.x bg, p.x + 1⟩ else p
    if p1.x ≥ w then (false, p1) else tabLoop blend w bg n p1

/-- `updatePixel`: the returned flag and the scanline and cursor afterwards. -/
def updatePixel (qc : QColorModel) (p : Pen) (blend : Bool) (c : Char) (w tab : Int)
    (bg fg : QRgb) : Bool × Pen :=
  if c = Tabulation then
    tabLoop blend w bg tab.toNat p
  else
    let space := isSpace c
    let p1 : Pen :=
      if blend ∧ !space then
        let result := qc.fromCmyk (blendColors (qc.toCmyk fg) (qc.toCmyk (p.scanLine p.x)))
        ⟨Function.update p.scanLine p.x result, p.x + 1⟩
      else
        ⟨Function.update p.scanLine p.x (if space then bg else fg), p.x + 1⟩
    if p1.x ≥ w then (false, p1) else (true, p1)

/-- Feeding the characters of a text to `updatePixel` one after the other with
fixed colours, stopping as the callers do when it returns `false`. -/
def writeText (qc : QColorModel) (blend : Bool) (w tab : Int) (bg fg : QRgb) :
    List Char → Pen → Bool × Pen
  | [], p => (true, p)
  | c :: cs, p =>
    let r := updatePixel qc p blend c w tab bg fg
    if r.1 then writeText qc blend w tab bg fg cs r.2 else r

/-! ## Settings store: setters and persistence -/

/-- The change signals of `MinimapSettings`, each with its argument. -/
inductive Signal where
  | enabledChanged (v : Bool)
  | widthChanged (v : Int)
  | lineCountThresholdChanged (v : Int)
  | alphaChanged (v : Int)
  | centerOnClickChanged (v : Bool)
  | showLineTooltipChanged (v : Bool)
  | pixelsPerLineChanged (v : Int)
  | styleChanged (v : Int)
  deriving DecidableEq, Repr

namespace MinimapSettings

/-- `MinimapSettings::setEnabled`: the settings afterwards and the signals
emitted. -/
def setEnabled (s : MinimapSettings) (enabled : Bool) : MinimapSettings × List Signal :=
  if s.m_enabled ≠ enabled then
    ({ s with m_enabled := enabled }, [Signal.enabledChanged enabled])
  else (s, [])

/-- `MinimapSettings::setWidth`. -/
def setWidth (s : MinimapSettings) (width : Int) : MinimapSettings × List Signal :=
  if s.m_width ≠ width then
    ({ s with m_width := width }, [Signal.widthChanged width])
  else (s, [])

/-- `MinimapSettings::setLineCountThreshold`. -/
def setLineCountThreshold (s : MinimapSettings) (lineCountThreshold : Int) :
    MinimapSettings × List Signal :=
  if s.m_lineCountThreshold ≠ lineCountThreshold then
    ({ s with m_lineCountThreshold := lineCountThreshold },
      [Signal.lineCountThresholdChanged lineCountThreshold])
  else (s, [])

/-- `MinimapSettings::setAlpha`. -/
def setAlpha (s : MinimapSettings) (alpha : Int) : MinimapSettings × List Signal :=
  if s.m_alpha ≠ alpha then
    ({ s with m_alpha := alpha }, [Signal.alphaChanged alpha])
  else (s, [])

/-- `MinimapSettings::setCenterOnClick`. -/
def setCenterOnClick (s : MinimapSettings) (centerOnClick : Bool) :
    MinimapSettings × List Signal :=
  if s.m_centerOnClick ≠ centerOnClick then
    ({ s with m_centerOnClick := centerOnClick }, [Signal.centerOnClickChanged centerOnClick])
  else (s, [])

/-- `MinimapSettings::setShowLineTooltip`. -/
def setShowLineTooltip (s : MinimapSettings) (showLineTooltip : Bool) :
    MinimapSettings × List Signal :=
  if s.m_showLineTooltip ≠ showLineTooltip then
    ({ s with m_showLineTooltip := showLineTooltip },
      [Signal.showLineTooltipChanged showLineTooltip])
  else (s, [])

/-- `MinimapSettings::setPixelsPerLine`. -/
def setPixelsPerLine (s : MinimapSettings) (pixelsPerLine : Int) :
    MinimapSettings × List Signal :=
  if s.m_pixelsPerLine ≠ pixelsPerLine then
    ({ s with m_pixelsPerLine := pixelsPerLine }, [Signal.pixelsPerLineChanged pixelsPerLine])
  else (s, [])

/-- `MinimapSettings::setStyle`. -/
def setStyle (s : MinimapSettings) (style : Int) : MinimapSettings × List Signal :=
  if s.m_style ≠ style then
    ({ s with m_style := style }, [Signal.styleChanged style])
  else (s, [])

end MinimapSettings

/-- `QString::toInt()` of Qt on the characters of a string: an optional sign
and a non-empty run of decimal digits, surrounded by optional white space,
inside the range of `int`; `none` when the conversion fails. -/
def qStringToInt (s : String) : Option Int :=
  let trimmed := ((s.data.dropWhile Char.isWhitespace).reverse.dropWhile
    Char.isWhitespace).reverse
  let digits (ds : List Char) : Option Nat :=
    if ds ≠ [] ∧ ds.all Char.isDigit then
      some (ds.foldl (fun n c => n * 10 + (c.toNat - 48)) 0)
    else none
  let r : Option Int :=
    match trimmed with
    | '-' :: ds => (digits ds).map fun n => -(n : Int)
    | '+' :: ds => (digits ds).map fun n => (n : Int)
    | ds => (digits ds).map fun n => (n : Int)
  match r with
  | some i => if -2147483648 ≤ i ∧ i ≤ 2147483647 then some i else none
  | none => none

/-- The values of `QVariant` that a settings record holds: a `bool`, an `int`,
a string, or a value of a type that converts to neither (`other`, as a list). -/
inductive QVariant where
  | bool (b : Bool)
  | int (i : Int)
  | string (s : String)
  | other
  deriving DecidableEq, Repr

namespace QVariant

/-- `QVariant::toInt()` of Qt: the number itself, 0 or 1 for a `bool`, the
number a string spells, and 0 when there is no conversion. -/
def toInt : QVariant → Int
  | QVariant.bool b => if b then 1 else 0
  | QVariant.int i => i
  | QVariant.string s => (qStringToInt s).getD 0
  | QVariant.other => 0

/-- `QVariant::toBool()` of Qt: the `bool` itself, whether a number is not zero,
whether the lower-case content of a string is none of the empty string, `0` and
`false`, and `false` when there is no conversion. -/
def toBool : QVariant → Bool
  | QVariant.bool b => b
  | QVariant.int i => decide (i ≠ 0)
  | QVariant.string s =>
    let l := s.data.map Char.toLower
    !(l == [] || l == ['0'] || l == ['f', 'a', 'l', 's', 'e'])
  | QVariant.other => false

end QVariant

/-- `Utils::Store`, a map from keys to `QVariant`: the bindings as a list, the
first binding of a key is the one that counts. -/
abbrev Store := List (String × QVariant)

namespace Store

/-- `QMap::value(key, defaultValue)`. -/
def value (m : Store) (key : String) (defaultValue : QVariant) : QVariant :=
  match m.lookup key with
  | some v => v
  | none => defaultValue

/-- `QMap::insert(key, value)`: the binding replaces a binding of the same
key. -/
def insert (m : Store) (key : String) (v : QVariant) : Store :=
  (key, v) :: m.filter fun p => p.1 != key

/-- `QMap::contains(key)`. -/
def contains (m : Store) (key : String) : Bool := (m.lookup key).isSome

end Store

/-- The key `enabledKey`. -/
def enabledKey : String := "Enabled"

/-- The key `widthKey`. -/
def widthKey : String := "Width"

/-- The key `lineCountThresholdKey`. -/
def lineCountThresholdKey : String := "LineCountThresHold"

/-- The key `alphaKey`. -/
def alphaKey : String := "Alpha"

/-- The key `centerOnClickKey`. -/
def centerOnClickKey : String := "CenterOnClick"

/-- The key `showLineTooltipKey`. -/
def showLineTooltipKey : String := "ShowLineTooltip"

/-- The key `pixelsPerLineKey`. -/
def pixelsPerLineKey : String := "PixelsPerLine"

/-- The key `styleKey`. -/
def styleKey : String := "DisplayStyle"

/-- The eight keys that `toMap` writes and `fromMap` reads. -/
def settingsKeys : List String :=
  [enabledKey, widthKey, lineCountThresholdKey, alphaKey, centerOnClickKey,
    showLineTooltipKey, pixelsPerLineKey, styleKey]

namespace MinimapSettings

/-- `MinimapSettings::toMap`. -/
def toMap (s : MinimapSettings) : Store :=
  let map : Store := []
  let map := map.insert enabledKey (QVariant.bool s.m_enabled)
  let map := map.insert widthKey (QVariant.int s.m_width)
  let map := map.insert lineCountThresholdKey (QVariant.int s.m_lineCountThreshold)
  let map := map.insert alphaKey (QVariant.int s.m_alpha)
  let map := map.insert centerOnClickKey (QVariant.bool s.m_centerOnClick)
  let map := map.insert showLineTooltipKey (QVariant.bool s.m_showLineTooltip)
  let map := map.insert pixelsPerLineKey (QVariant.int s.m_pixelsPerLine)
  let map := map.insert styleKey (QVariant.int s.m_style)
  map

/-- `MinimapSettings::fromMap`. -/
def fromMap (s : MinimapSettings) (map : Store) : MinimapSettings :=
  { m_enabled := (map.value enabledKey (QVariant.bool s.m_enabled)).toBool
    m_width := (map.value widthKey (QVariant.int s.m_width)).toInt
    m_lineCountThreshold :=
      (map.value lineCountThresholdKey (QVariant.int s.m_lineCountThreshold)).toInt
    m_alpha := (map.value alphaKey (QVariant.int s.m_alpha)).toInt
    m_centerOnClick := (map.value centerOnClickKey (QVariant.bool s.m_centerOnClick)).toBool
    m_showLineTooltip :=
      (map.value showLineTooltipKey (QVariant.bool s.m_showLineTooltip)).toBool
    m_pixelsPerLine := (map.value pixelsPerLineKey (QVariant.int s.m_pixelsPerLine)).toInt
    m_style := (map.value styleKey (QVariant.int s.m_style)).toInt }

end MinimapSettings

/-- The documented bounds of the numeric settings, on the values that the
getters return: `width >= 1`, `lineCountThreshold >= 1`, `0 <= alpha <= 255`
and `pixelsPerLine >= 1`. -/
def MinimapSettings.InBounds (s : MinimapSettings) : Prop :=
  1 ≤ s.width ∧ 1 ≤ s.lineCountThreshold ∧ 0 ≤ s.alpha ∧ s.alpha ≤ 255 ∧ 1 ≤ s.pixelsPerLine

/-- A call of one of the eight setters with its argument. -/
inductive SetterCall where
  | setEnabled (v : Bool)
  | setWidth (v : Int)
  | setLineCountThreshold (v : Int)
  | setAlpha (v : Int)
  | setCenterOnClick (v : Bool)
  | setShowLineTooltip (v : Bool)
  | setPixelsPerLine (v : Int)
  | setStyle (v : Int)
  deriving DecidableEq, Repr

/-- Whether the argument of a setter call is within the documented bounds of
its field, as the ranges of the spin boxes of the options page make it. -/
def SetterCall.InRange : SetterCall → Prop
  | SetterCall.setWidth v => 1 ≤ v
  | SetterCall.setLineCountThreshold v => 1 ≤ v
  | SetterCall.setAlpha v => 0 ≤ v ∧ v ≤ 255
  | SetterCall.setPixelsPerLine v => 1 ≤ v
  | _ => True

namespace MinimapSettings

/-- The settings after a setter call. -/
def call (s : MinimapSettings) : SetterCall → MinimapSettings
  | SetterCall.setEnabled v => (s.setEnabled v).1
  | SetterCall.setWidth v => (s.setWidth v).1
  | SetterCall.setLineCountThreshold v => (s.setLineCountThreshold v).1
  | SetterCall.setAlpha v => (s.setAlpha v).1
  | SetterCall.setCenterOnClick v => (s.setCenterOnClick v).1
  | SetterCall.setShowLineTooltip v => (s.setShowLineTooltip v).1
  | SetterCall.setPixelsPerLine v => (s.setPixelsPerLine v).1
  | SetterCall.setStyle v => (s.setStyle v).1

/-- The settings after a sequence of setter calls, from the first to the
last. -/
def callAll (s : MinimapSettings) : List SetterCall → MinimapSettings
  | [] => s
  | c :: cs => callAll (s.call c) cs

end MinimapSettings

/-! ## Sub-control rectangles and hit testing -/

/-- `QStyle::SubControl` of Qt, as its flag value. -/
abbrev SubControl := Nat

/-- `QStyle::SC_None`. -/
def SC_None : SubControl := 0x00

/-- `QStyle::SC_ScrollBarAddLine`. -/
def SC_ScrollBarAddLine : SubControl := 0x01

/-- `QStyle::SC_ScrollBarSubLine`. -/
def SC_ScrollBarSubLine : SubControl := 0x02

/-- `QStyle::SC_ScrollBarAddPage`. -/
def SC_ScrollBarAddPage : SubControl := 0x04

/-- `QStyle::SC_ScrollBarSubPage`. -/
def SC_ScrollBarSubPage : SubControl := 0x08

/-- `QStyle::SC_ScrollBarFirst`. -/
def SC_ScrollBarFirst : SubControl := 0x10

/-- `QStyle::SC_ScrollBarLast`. -/
def SC_ScrollBarLast : SubControl := 0x20

/-- `QStyle::SC_ScrollBarSlider`. -/
def SC_ScrollBarSlider : SubControl := 0x40

/-- `QStyle::SC_ScrollBarGroove`. -/
def SC_ScrollBarGroove : SubControl := 0x80

namespace MinimapStyle

/-- `MinimapStyle::subControlRect`; `base` is what
`QProxyStyle::subControlRect` returns. -/
def subControlRect (cfg : MinimapSettings) (base : SubControl → QRect)
    (cc : ComplexControl) (sc : SubControl) (widget : Option Widget) : QRect :=
  match widget with
  | none => base sc
  | some wd =>
    if cc = ComplexControl.CC_ScrollBar ∧ cfg.enabled = true then
      match wd.styleObject with
      | none => base sc
      | some o =>
        let lineCount := o.lineCount
        if lineCount > 0 ∧ lineCount ≤ cfg.lineCountThreshold then
          if sc = SC_ScrollBarGroove then o.m_groove
          else if sc = SC_ScrollBarAddPage then o.m_addPage
          else if sc = SC_ScrollBarSubPage then o.m_subPage
          else if sc = SC_ScrollBarSlider then o.m_slider
          else QRect.null
        else base sc
    else base sc

/-- The loop `while (ctrl <= SC_ScrollBarGroove)` of
`MinimapStyle::hitTestComplexControl` with `fuel` iterations allowed, entered
with the flag `ctrl`: the sub-control `sc` after the loop. -/
def hitTestLoop (cfg : MinimapSettings) (base : SubControl → QRect) (control : ComplexControl)
    (px py : Int) (widget : Option Widget) : Nat → Nat → SubControl
  | 0, _ => SC_None
  | fuel + 1, ctrl =>
    if ctrl ≤ SC_ScrollBarGroove then
      let r := subControlRect cfg base control ctrl widget
      if r.isValid ∧ r.contains px py then ctrl
      else hitTestLoop cfg base control px py widget fuel (ctrl <<< 1)
    else SC_None

/-- `MinimapStyle::hitTestComplexControl` for the position `(px, py)`; `none`
stands for the call of `QProxyStyle::hitTestComplexControl`, `optionIsSlider`
tells whether `option` is a `QStyleOptionSlider`. The loop runs with flags
1, 2, 4, ..., 128, nine iterations are enough to leave it. -/
def hitTestComplexControl (cfg : MinimapSettings) (base : SubControl → QRect)
    (control : ComplexControl) (optionIsSlider : Bool) (px py : Int)
    (widget : Option Widget) : Option SubControl :=
  match widget with
  | none => none
  | some wd =>
    if control = ComplexControl.CC_ScrollBar ∧ cfg.enabled = true then
      match wd.styleObject with
      | none => none
      | some o =>
        let lineCount := o.lineCount
        if lineCount > 0 ∧ lineCount ≤ cfg.lineCountThreshold then
          if cfg.centerOnClick then some SC_ScrollBarGroove
          else if optionIsSlider then
            some (hitTestLoop cfg base control px py widget 9 SC_ScrollBarAddLine)
          else some SC_None
        else none
    else none

end MinimapStyle

/-! ## The event filter and the drag state -/

/-- `Qt::MouseButton`. -/
inductive MouseButton where
  | LeftButton
  | RightButton
  | MiddleButton
  deriving DecidableEq, Repr

/-- The object `watched` of `eventFilter`. -/
inductive Watched where
  | editor
  | verticalScrollBar
  | other
  deriving DecidableEq, Repr

/-- The events that `eventFilter` tells apart: for a mouse event the button and
the position, for a move also whether `buttons()` has the left button. -/
inductive QEvent where
  | Resize
  | MouseButtonPress (button : MouseButton) (pos : Int × Int)
  | MouseButtonRelease (button : MouseButton)
  | MouseMove (pos : Int × Int) (leftDown : Bool)
  | Other
  deriving DecidableEq, Repr

/-- What the style object does to its surroundings. -/
inductive Effect where
  /-- `QTimer::singleShot(0, this, &MinimapStyleObject::update)` -/
  | scheduleUpdate
  /-- `centerViewportOnMousePosition(pos)`, the pointer-driven scroll update -/
  | centerViewport (pos : Int × Int)
  /-- `scrollbar->setMouseTracking(b)` -/
  | setMouseTracking (b : Bool)
  /-- `showLineRangeTooltip(...)` -/
  | showLineRangeTooltip
  /-- `QToolTip::hideText()` -/
  | hideText
  deriving DecidableEq, Repr

namespace MinimapStyleObject

/-- `MinimapStyleObject::eventFilter`: the object afterwards, the returned flag
(the event was handled) and the effects in order. -/
def eventFilter (cfg : MinimapSettings) (o : MinimapStyleObject) (watched : Watched)
    (event : QEvent) : MinimapStyleObject × Bool × List Effect :=
  if watched = Watched.editor ∧ event = QEvent.Resize then
    let r := o.deferedUpdate
    (r.1, false, if r.2 then [Effect.scheduleUpdate] else [])
  else if watched = Watched.verticalScrollBar then
    match event with
    | QEvent.MouseButtonPress button pos =>
      if button = MouseButton.LeftButton then
        let centerOnClick := cfg.centerOnClick
        let showTooltip := cfg.showLineTooltip
        let r1 : MinimapStyleObject × List Effect :=
          if centerOnClick then
            ({ o with m_isDragging := true, m_lastMousePos := pos },
              [Effect.centerViewport pos, Effect.setMouseTracking true])
          else (o, [])
        let e2 : List Effect := if showTooltip then [Effect.showLineRangeTooltip] else []
        (r1.1, centerOnClick, r1.2 ++ e2)
      else (o, false, [])
    | QEvent.MouseButtonRelease button =>
      if button = MouseButton.LeftButton then
        let r1 : MinimapStyleObject × Bool × List Effect :=
          if o.m_isDragging ∧ cfg.centerOnClick then
            ({ o with m_isDragging := false }, true, [Effect.setMouseTracking false])
          else (o, false, [])
        let e2 : List Effect := if cfg.showLineTooltip then [Effect.hideText] else []
        (r1.1, r1.2.1, r1.2.2 ++ e2)
      else (o, false, [])
    | QEvent.MouseMove pos leftDown =>
      let r1 : MinimapStyleObject × Bool × List Effect :=
        if o.m_isDragging ∧ cfg.centerOnClick then
          ({ o with m_lastMousePos := pos }, true, [Effect.centerViewport pos])
        else (o, false, [])
      let e2 : List Effect :=
        if cfg.showLineTooltip ∧ (r1.1.m_isDragging ∨ leftDown) then
          [Effect.showLineRangeTooltip]
        else []
      (r1.1, r1.2.1, r1.2.2 ++ e2)
    | _ => (o, false, [])
  else (o, false, [])

/-- The slot `MinimapStyleObject::centerOnClickChanged`. -/
def centerOnClickChanged (cfg : MinimapSettings) (o : MinimapStyleObject) :
    MinimapStyleObject × List Effect :=
  if !cfg.centerOnClick then
    ({ o with m_isDragging := false },
      [Effect.setMouseTracking false] ++ (if !cfg.showLineTooltip then [Effect.hideText] else []))
  else (o, [])

/-- The slot `MinimapStyleObject::showLineTooltipChanged`. -/
def showLineTooltipChanged (cfg : MinimapSettings) (_o : MinimapStyleObject) : List Effect :=
  if !cfg.showLineTooltip then [Effect.hideText] else []

end MinimapStyleObject

/-- The settings together with an initialised style object, whose slots are
connected to the signals of the settings and whose event filter is installed
on the scrollbar. -/
structure DragSystem where
  cfg : MinimapSettings
  obj : MinimapStyleObject

/-- The events of the drag state machine: a mouse event delivered to the
scrollbar, or a change of the center-on-click setting through its setter. -/
inductive DragEvent where
  | mouse (event : QEvent)
  | setCenterOnClick (v : Bool)
  deriving DecidableEq, Repr

namespace DragSystem

/-- One step of the drag state machine: the state afterwards, whether the event
was handled, and the effects. A `centerOnClickChanged` signal runs the slot of
the object at once. -/
def step (s : DragSystem) : DragEvent → DragSystem × Bool × List Effect
  | DragEvent.mouse event =>
    let r := s.obj.eventFilter s.cfg Watched.verticalScrollBar event
    ({ s with obj := r.1 }, r.2.1, r.2.2)
  | DragEvent.setCenterOnClick v =>
    let r := s.cfg.setCenterOnClick v
    if r.2.any (fun sig => sig == Signal.centerOnClickChanged v) then
      let q := MinimapStyleObject.centerOnClickChanged r.1 s.obj
      ({ cfg := r.1, obj := q.1 }, false, q.2)
    else ({ s with cfg := r.1 }, false, [])

/-- The state after a list of events, from the first to the last. -/
def run (s : DragSystem) : List DragEvent → DragSystem
  | [] => s
  | ev :: evs => run (s.step ev).1 evs

/-- Whether the effects contain a pointer-driven scroll update. -/
def scrolls (effects : List Effect) : Bool :=
  effects.any fun eff => match eff with
    | Effect.centerViewport _ => true
    | _ => false

end DragSystem

/-! ## Deferred updates -/

/-- A style object together with the number of zero-delay timers that
`deferedUpdate` has started with `QTimer::singleShot` and that have not fired
yet. -/
structure UpdateQueue where
  obj : MinimapStyleObject
  pending : Nat

/-- The steps of the update queue: a call of `deferedUpdate`, or the event loop
firing a pending timer, which runs `update()` with the settings and the host as
they are then. -/
inductive UpdateEvent where
  | deferedUpdate
  | timeout (cfg : MinimapSettings) (e : Host)

namespace UpdateQueue

/-- One step of the update queue. A timeout without a pending timer does not
happen. -/
def step (q : UpdateQueue) : UpdateEvent → UpdateQueue
  | UpdateEvent.deferedUpdate =>
    let r := q.obj.deferedUpdate
    { obj := r.1, pending := if r.2 then q.pending + 1 else q.pending }
  | UpdateEvent.timeout cfg e =>
    if q.pending = 0 then q
    else { obj := q.obj.update cfg e, pending := q.pending - 1 }

/-- The queue after a list of steps, from the first to the last. -/
def run (q : UpdateQueue) : List UpdateEvent → UpdateQueue
  | [] => q
  | ev :: evs => run (q.step ev) evs

end UpdateQueue

/-! ## Documents -/

/-- The two brushes of a `QTextCharFormat` that `merge` reads: the colour of
the background and of the foreground brush, `none` for `Qt::NoBrush`. -/
structure QTextCharFormat where
  background : Option QRgb
  foreground : Option QRgb
  deriving DecidableEq, Repr

/-- `merge`: the colours `bg` and `fg` after the call. -/
def merge (bg fg : QRgb) (f : QTextCharFormat) : QRgb × QRgb :=
  (match f.background with
    | some c => c
    | none => bg,
   match f.foreground with
    | some c => c
    | none => fg)

/-- `QTextLayout::FormatRange`. -/
structure FormatRange where
  start : Int
  length : Int
  format : QTextCharFormat
  deriving DecidableEq, Repr

/-- What the render loops read from a `QTextFragment`. -/
structure QTextFragment where
  isValid : Bool
  position : Int
  charFormat : QTextCharFormat
  text : List Char
  deriving DecidableEq, Repr

/-- What the render loops read from a `QTextBlock`: `isFolded` is
`TextBlockUserData::isFolded(b)`, `fragments` are the fragments that the block
iterator visits and `formats` is `b.layout()->formats()`. -/
structure QTextBlock where
  isVisible : Bool
  isFolded : Bool
  revision : Int
  position : Int
  charFormat : QTextCharFormat
  fragments : List QTextFragment
  formats : List FormatRange
  deriving DecidableEq, Repr

/-- What the render loops read from the document and the editor: the blocks from
`doc->begin()` on, `documentLayout->lastSaveRevision`, the tab size, the two
visibility switches of the editor and the pixel values of `background()` and
`foreground()`. -/
structure Document where
  blocks : List QTextBlock
  lastSaveRevision : Int
  m_tabSize : Int
  codeFoldingVisible : Bool
  revisionsVisible : Bool
  background : QRgb
  foreground : QRgb

/-- `QColor(Qt::black).rgb()`. -/
def black : QRgb := 0xff000000

/-- `QColor(Qt::red).rgb()`. -/
def red : QRgb := 0xffff0000

/-- `QColor(Qt::darkGreen).rgb()`. -/
def green : QRgb := 0xff008000

/-- The pixels of `m_image`, addressed by scanline and column. The model has no
bounds: a scanline index outside of the image is addressed like any other, and
the render loop records the indices it passes to `QImage::scanLine`. -/
abbrev Image := Int → ScanLine

/-- `QImage::fill` with a pixel value. -/
def fill (pixel : QRgb) : Image := fun _ _ => pixel

/-- `memcpy(target, scanLine, m_image.bytesPerLine())` for an image of `width`
pixels of format `RGB32`: the target scanline afterwards. -/
def memcpy (target scanLine : ScanLine) (width : Int) : ScanLine :=
  fun x => if 0 ≤ x ∧ x < width then scanLine x else target x

/-- The state of the inner loops over the fragments and characters of a line:
the writer on `&scanLine[MINIMAP_EXTRA_AREA_WIDTH]`, the iterator into the
sorted format ranges (the ranges from the iterator to the end) and the flag
`cont`. `applied` is the record of the loop: for every character passed to
`updatePixel`, the position that was tested against the ranges and the range
whose format was merged. -/
structure LineState where
  pen : Pen
  it2 : List FormatRange
  cont : Bool
  applied : List (Int × Option FormatRange)

/-- The colours after `merge` with the format of the range at the iterator, when
the iterator is not at the end. -/
def mergeAt (bg fg : QRgb) : Option FormatRange → QRgb × QRgb
  | some r => merge bg fg r.format
  | none => (bg, fg)

/-- One step of the scaling render loop for a visible block, as recorded by the
loop: the index `i` of the visible line, whether the line was kept (`updateY`),
the output row `y` of its scanline `y * pixelsPerLine`, the values of the
accumulators `revision` and `folded` after the line, and the visible lines
since the last kept row, this one included. -/
structure LineEvent where
  index : Int
  updateY : Bool
  y : Int
  revision : Int
  folded : Bool
  group : List QTextBlock

/-- The local variables of the scaling render loop and the image. `group` and
`log` are the record of the loop: the visible lines since the last kept row and
the steps so far. -/
structure RenderState where
  image : Image
  y : Int
  i : Int
  r : ℚ
  folded : Bool
  revision : Int
  group : List QTextBlock
  log : List LineEvent

namespace Scaling

/-- The comparator of `std::sort` in the scaling `drawMinimap`. -/
def lessThan (r1 r2 : FormatRange) : Bool :=
  if r1.start < r2.start then true
  else if r1.start > r2.start then false
  else decide (r1.length < r2.length)

/-- `std::sort(formats.begin(), formats.end(), ...)`: ranges that the
comparator does not order keep their order. -/
def sortFormats (formats : List FormatRange) : List FormatRange :=
  formats.insertionSort (fun r1 r2 => lessThan r2 r1 = false)

/-- `std::find_if(it2, formats.end(), ...)` with the predicate
`x >= r.start && x < r.start + r.length`. -/
def findIf (x : Int) (it2 : List FormatRange) : List FormatRange :=
  it2.dropWhile (fun r => !(decide (x ≥ r.start) && decide (x < r.start + r.length)))

/-- The loop over the characters of a fragment in the scaling `drawMinimap`. -/
def charLoop (qc : QColorModel) (blend : Bool) (w tab : Int) (fBg fFg : QRgb) :
    List Char → LineState → LineState
  | [], s => s
  | c :: cs, s =>
    let it2 := findIf s.pen.x s.it2
    let colours := mergeAt fBg fFg it2.head?
    let res := updatePixel qc s.pen blend c w tab colours.1 colours.2
    let s1 : LineState :=
      { pen := res.2, it2 := it2, cont := res.1
        applied := s.applied ++ [(s.pen.x, it2.head?)] }
    if !res.1 then s1 else charLoop qc blend w tab fBg fFg cs s1

/-- The loop over the fragments of a block in the scaling `drawMinimap`. -/
def fragmentLoop (qc : QColorModel) (blend : Bool) (w tab : Int) (bBg bFg : QRgb) :
    List QTextFragment → LineState → LineState
  | [], s => s
  | f :: fs, s =>
    if f.isValid then
      let colours := merge bBg bFg f.charFormat
      let s1 := charLoop qc blend w tab colours.1 colours.2 f.text s
      if !s1.cont then s1 else fragmentLoop qc blend w tab bBg bFg fs s1
    else { s with cont := false }

/-- The text of a block written to its scanline: the state of the inner loops
after the sort, the merge with the format of the block and the loop over the
fragments. The writer starts at `&scanLine[extra]`. -/
def drawText (qc : QColorModel) (doc : Document) (extra w : Int) (blend : Bool)
    (b : QTextBlock) (scanLine : ScanLine) : LineState :=
  let formats := sortFormats b.formats
  let colours := merge doc.background doc.foreground b.charFormat
  fragmentLoop qc blend w doc.m_tabSize colours.1 colours.2 b.fragments
    { pen := ⟨fun x => scanLine (x + extra), 0⟩, it2 := formats, cont := true, applied := [] }

/-- The accumulator `folded` after a visible block. -/
def nextFolded (doc : Document) (folded : Bool) (b : QTextBlock) : Bool :=
  if doc.codeFoldingVisible ∧ !folded then b.isFolded else folded

/-- The accumulator `revision` after a visible block. -/
def nextRevision (doc : Document) (revision : Int) (b : QTextBlock) : Int :=
  if doc.revisionsVisible then
    if b.revision ≠ doc.lastSaveRevision then
      if revision < 1 ∧ b.revision < 0 then 1
      else if revision < 2 then 2
      else revision
    else revision
  else revision

/-- The markers written to the scanline of a kept line. -/
def drawMarkers (revision : Int) (folded : Bool) (scanLine : ScanLine) : ScanLine :=
  let s1 :=
    if revision = 1 then Function.update (Function.update scanLine 1 green) 2 green
    else if revision = 2 then Function.update (Function.update scanLine 1 red) 2 red
    else scanLine
  if folded then Function.update (Function.update s1 4 black) 5 black else s1

/-- The loop that repeats the scanline on the scanlines
`originalY * pixelsPerLine + duplicationLineY` for
`1 <= duplicationLineY < pixelsPerLine - 1`. -/
def duplicate (ppl width originalY : Int) (scanLine : ScanLine) (image : Image) : Image :=
  (List.range (ppl - 2).toNat).foldl
    (fun (img : Image) (j : Nat) =>
      let duplicationLineY : Int := (j : Int) + 1
      let target := originalY * ppl + duplicationLineY
      Function.update img target (memcpy (img target) scanLine width))
    image

/-- The body of the render loop of the scaling `drawMinimap` for one block. -/
def drawBlock (qc : QColorModel) (cfg : MinimapSettings) (e : Host) (o : MinimapStyleObject)
    (doc : Document) (step : ℚ) (w : Int) (st : RenderState) (b : QTextBlock) : RenderState :=
  if b.isVisible then
    let updateY : Bool := decide (qRound st.r = st.i)
    let i := st.i + 1
    let r := if updateY then st.r + step else st.r
    let folded := nextFolded doc st.folded b
    let revision := nextRevision doc st.revision b
    let line := st.y * cfg.pixelsPerLine
    let text := drawText qc doc e.MINIMAP_EXTRA_AREA_WIDTH w (!updateY) b (st.image line)
    let scanLine0 : ScanLine := fun x => text.pen.scanLine (x - e.MINIMAP_EXTRA_AREA_WIDTH)
    let originalY := st.y
    let scanLine := if updateY then drawMarkers revision folded scanLine0 else scanLine0
    let image := Function.update st.image line scanLine
    { image := duplicate cfg.pixelsPerLine o.m_imageWidth originalY scanLine image
      y := if updateY then st.y + 1 else st.y
      i := i
      r := r
      folded := if updateY then false else folded
      revision := if updateY then 0 else revision
      group := if updateY then [] else st.group ++ [b]
      log := st.log ++
        [{ index := st.i, updateY := updateY, y := originalY, revision := revision
           folded := folded, group := st.group ++ [b] }] }
  else st

/-- The render loop of the scaling `drawMinimap` over the blocks that are left,
`b.isValid() && y < h`. -/
def drawLoop (qc : QColorModel) (cfg : MinimapSettings) (e : Host) (o : MinimapStyleObject)
    (doc : Document) (h : Int) (step : ℚ) (w : Int) : List QTextBlock → RenderState → RenderState
  | [], st => st
  | b :: bs, st =>
    if st.y < h then drawLoop qc cfg e o doc h step w bs (drawBlock qc cfg e o doc step w st b)
    else st

/-- `MinimapStyleObjectScalingStrategy::drawMinimap` with the image: `none`
when it returns `false` before the loop, and else the state after the loop. -/
def drawMinimapImage (qc : QColorModel) (cfg : MinimapSettings) (e : Host)
    (o : MinimapStyleObject) (doc : Document) : Option RenderState :=
  if e.textWrapping then none
  else
    let h := if o.m_factor < 1 then o.lineCount else e.editorHeight
    let step : ℚ := 1 / o.m_factor
    let w := MinimapStyleObject.width cfg e - e.MINIMAP_EXTRA_AREA_WIDTH
    if w ≤ 0 ∨ h ≤ 0 then none
    else
      some (drawLoop qc cfg e o doc h step w doc.blocks
        { image := fill doc.background, y := 0, i := 0, r := 0, folded := false
          revision := 0, group := [], log := [] })

end Scaling

namespace Scrolling

/-- The comparator of `std::sort` in the scrolling `drawMinimap`. -/
def lessThan (r1 r2 : FormatRange) : Bool := decide (r1.start < r2.start)

/-- `std::sort(formats.begin(), formats.end(), ...)`: ranges that the
comparator does not order keep their order. -/
def sortFormats (formats : List FormatRange) : List FormatRange :=
  formats.insertionSort (fun r1 r2 => lessThan r2 r1 = false)

/-- The loop `while (itFormat != formats.end() && itFormat->start +
itFormat->length <= fragPos) ++itFormat`. -/
def advance (fragPos : Int) (itFormat : List FormatRange) : List FormatRange :=
  itFormat.dropWhile (fun r => decide (r.start + r.length ≤ fragPos))

/-- The range whose format is merged:
`itFormat != formats.end() && fragPos >= itFormat->start`. -/
def rangeAt (fragPos : Int) : List FormatRange → Option FormatRange
  | [] => none
  | r :: _ => if fragPos ≥ r.start then some r else none

/-- The loop `for (int i = 0; i < text.length(); ++i)` over the characters of a
fragment in the scrolling `drawMinimap`, from the index `i` on; `offset` is
`f.position() - b.position()`. -/
def charLoop (qc : QColorModel) (w tab : Int) (fBg fFg : QRgb) (offset : Int) :
    List Char → Int → LineState → LineState
  | [], _, s => s
  | c :: cs, i, s =>
    let fragPos := offset + i
    let itFormat := advance fragPos s.it2
    let applied := rangeAt fragPos itFormat
    let colours := mergeAt fBg fFg applied
    let res := updatePixel qc s.pen false c w tab colours.1 colours.2
    let s1 : LineState :=
      { pen := res.2, it2 := itFormat, cont := res.1
        applied := s.applied ++ [(fragPos, applied)] }
    if !res.1 then s1 else charLoop qc w tab fBg fFg offset cs (i + 1) s1

/-- The loop over the fragments of a block in the scrolling `drawMinimap`,
`!it.atEnd() && lineCont`. -/
def fragmentLoop (qc : QColorModel) (w tab : Int) (bBg bFg : QRgb) (b : QTextBlock) :
    List QTextFragment → LineState → LineState
  | [], s => s
  | f :: fs, s =>
    if s.cont then
      if !f.isValid then fragmentLoop qc w tab bBg bFg b fs s
      else
        let colours := merge bBg bFg f.charFormat
        let s1 := charLoop qc w tab colours.1 colours.2 (f.position - b.position) f.text 0 s
        fragmentLoop qc w tab bBg bFg b fs s1
    else s

/-- The text of a block written to its scanline by the scrolling
`drawMinimap`: the state of the inner loops after the sort, the merge with the
format of the block and the loop over the fragments. -/
def drawText (qc : QColorModel) (doc : Document) (extra w : Int) (b : QTextBlock)
    (scanLine : ScanLine) : LineState :=
  let formats := sortFormats b.formats
  let colours := merge doc.background doc.foreground b.charFormat
  fragmentLoop qc w doc.m_tabSize colours.1 colours.2 b b.fragments
    { pen := ⟨fun x => scanLine (x + extra), 0⟩, it2 := formats, cont := true, applied := [] }

end Scrolling

/-! ## The record of the scaling render loop -/

/-- The kept lines of a log, in the order of the loop: the index of the visible
line and its output row. -/
def keptLines (log : List LineEvent) : List (Int × Int) :=
  (log.filter (fun ev => ev.updateY)).map (fun ev => (ev.index, ev.y))

/-- The number of visible blocks of a list of blocks. -/
def visibleCount (blocks : List QTextBlock) : Nat :=
  (blocks.filter (fun b => b.isVisible)).length

/-- The invariant of the decimation after `n` visible lines: the output row is
a natural number `Y`, the accumulator `r` is `Y * step`, the counter `i` is
`n`, the kept lines so far are the lines `qRound (k * step)` for `k < Y`, each
in row `k`, all of them below `i`, and `i` has not passed `qRound (Y * step)`. -/
def Scaling.Decimated (step : ℚ) (n : Nat) (st : RenderState) : Prop :=
  ∃ Y : Nat, st.y = (Y : Int) ∧ st.r = (Y : ℚ) * step ∧ st.i = (n : Int) ∧
    keptLines st.log
      = (List.range Y).map (fun k : Nat => (qRound ((k : ℚ) * step), (k : Int))) ∧
    (∀ k : Nat, k < Y → qRound ((k : ℚ) * step) < st.i) ∧
    st.i ≤ qRound ((Y : ℚ) * step)

/-- Following the specification of the format-range resolution: the first range
of the list, in its order, whose interval `[start, start + length)` contains
the offset, if there is one. -/
def firstContaining (formats : List FormatRange) (offset : Int) : Option FormatRange :=
  formats.find? (fun r => decide (r.start ≤ offset) && decide (offset < r.start + r.length))

/-! ## Fixtures: concrete hosts and configurations -/

/-- A configuration with the minimap enabled, a strip of 20 pixels and
alpha 128, for a given threshold, row height and style. -/
def cfgOf (threshold ppl : Int) (style : EMinimapStyle) : MinimapSettings :=
  { m_enabled := true
    m_width := 20
    m_lineCountThreshold := threshold
    m_alpha := 128
    m_centerOnClick := true
    m_showLineTooltip := false
    m_pixelsPerLine := ppl
    m_style := style.toInt }

/-- An editor 800 pixels wide and `height` pixels high showing a document of
`blocks` unwrapped lines with a line spacing of `spacing` pixels, the scrollbar
at `value` in `[lo, hi]`; the constant `MINIMAP_EXTRA_AREA_WIDTH` is 7. -/
def hostOf (blocks height spacing value lo hi : Int) : Host :=
  { blockCount := blocks
    editorWidth := 800
    editorHeight := height
    extraArea := some 30
    viewportHeight := height
    lineSpacing := spacing
    documentHeight := (blocks : ℚ)
    textWrapping := false
    sbWidth := 40
    sbHeight := height
    value := value
    minimum := lo
    maximum := hi
    MINIMAP_EXTRA_AREA_WIDTH := 7 }

/-- A colour model for the examples: cyan, magenta and yellow are the
complements of the three colour bytes and black is 0. -/
def qcOf : QColorModel :=
  { toCmyk := fun p =>
      { cyan := 255 - ((p / 65536 % 256 : Nat) : Int)
        magenta := 255 - ((p / 256 % 256 : Nat) : Int)
        yellow := 255 - ((p % 256 : Nat) : Int)
        black := 0 }
    fromCmyk := fun c =>
      0xff000000 + (255 - c.cyan).toNat * 65536 + (255 - c.magenta).toNat * 256
        + (255 - c.yellow).toNat }

/-- A format without brushes. -/
def plainFormat : QTextCharFormat := { background := none, foreground := none }

/-- A visible block with one valid fragment of plain text at position 0, with
the given revision, fold state and format ranges. -/
def blockOf (text : List Char) (revision : Int) (isFolded : Bool)
    (formats : List FormatRange) : QTextBlock :=
  { isVisible := true
    isFolded := isFolded
    revision := revision
    position := 0
    charFormat := plainFormat
    fragments := [{ isValid := true, position := 0, charFormat := plainFormat, text := text }]
    formats := formats }

/-- A document of the given blocks, saved at revision 0, with a tab size of 4,
fold and revision markers shown, a white background and a black foreground. -/
def documentOf (blocks : List QTextBlock) : Document :=
  { blocks := blocks
    lastSaveRevision := 0
    m_tabSize := 4
    codeFoldingVisible := true
    revisionsVisible := true
    background := 0xffffffff
    foreground := 0xff000000 }

end Minimap

/-! # Theorems -/

namespace Minimap

/-! ## Rounding -/

theorem qRound_of_nonneg {d : ℚ} (h : 0 ≤ d) : qRound d = ⌊d + 1 / 2⌋ := by
  simp [qRound, h]

theorem qRound_le_add_half {d : ℚ} (h : 0 ≤ d) : ((qRound d : Int) : ℚ) ≤ d + 1 / 2 := by
  rw [qRound_of_nonneg h]
  exact Int.floor_le _

theorem sub_half_lt_qRound {d : ℚ} (h : 0 ≤ d) : d - 1 / 2 < ((qRound d : Int) : ℚ) := by
  rw [qRound_of_nonneg h]
  have := Int.lt_floor_add_one (d + 1 / 2)
  linarith

theorem qRound_nonneg {d : ℚ} (h : 0 ≤ d) : 0 ≤ qRound d := by
  rw [qRound_of_nonneg h]
  exact Int.floor_nonneg.mpr (by linarith)

theorem qRound_nonpos {d : ℚ} (h : d ≤ 0) : qRound d ≤ 0 := by
  rcases eq_or_lt_of_le h with h0 | hlt
  · subst h0
    simp [qRound]
    norm_num
  · have hn : ¬ (0 ≤ d) := not_le.mpr hlt
    simp only [qRound, hn, if_false]
    exact Int.ceil_le.mpr (by simp only [Int.cast_zero]; linarith)

theorem qRound_le_of_le_intCast {d : ℚ} {n : Int} (h0 : 0 ≤ d) (h : d ≤ (n : ℚ)) :
    qRound d ≤ n := by
  rw [qRound_of_nonneg h0]
  have h1 : ⌊d + 1 / 2⌋ < n + 1 := by
    rw [Int.floor_lt]
    push_cast
    linarith
  omega

theorem intCast_le_qRound {d : ℚ} {n : Int} (h0 : 0 ≤ d) (h : (n : ℚ) ≤ d) :
    n ≤ qRound d := by
  rw [qRound_of_nonneg h0]
  exact Int.le_floor.mpr (by linarith)

theorem qRound_intCast (n : Int) : qRound (n : ℚ) = n := by
  rcases le_or_lt 0 n with h | h
  · have h0 : (0 : ℚ) ≤ (n : ℚ) := by exact_mod_cast h
    apply le_antisymm
    · exact qRound_le_of_le_intCast h0 le_rfl
    · exact intCast_le_qRound h0 le_rfl
  · have hn : ¬ ((0 : ℚ) ≤ (n : ℚ)) := by
      push_neg
      exact_mod_cast h
    simp only [qRound, hn, if_false]
    rw [Int.ceil_eq_iff]
    constructor <;> linarith

/-! ## What `update` stores -/

theorem scaling_updateSubControlRects_lineCount (cfg : MinimapSettings) (e : Host)
    (o : MinimapStyleObject) :
    (Scaling.updateSubControlRects cfg e o).m_lineCount = o.m_lineCount := by
  unfold Scaling.updateSubControlRects
  split <;> rfl

theorem scaling_updateSubControlRects_factor (cfg : MinimapSettings) (e : Host)
    (o : MinimapStyleObject) :
    (Scaling.updateSubControlRects cfg e o).m_factor = o.m_factor := by
  unfold Scaling.updateSubControlRects
  split <;> rfl

theorem scaling_updateSubControlRects_groove (cfg : MinimapSettings) (e : Host)
    (o : MinimapStyleObject) :
    (Scaling.updateSubControlRects cfg e o).m_groove = o.m_groove := by
  unfold Scaling.updateSubControlRects
  split <;> rfl

theorem scaling_update_lineCount (cfg : MinimapSettings) (e : Host) (o : MinimapStyleObject) :
    (Scaling.update cfg e o).m_lineCount = max e.blockCount 1 * cfg.m_pixelsPerLine := by
  simp only [Scaling.update, scaling_updateSubControlRects_lineCount,
    MinimapSettings.pixelsPerLine]

theorem scaling_update_factor (cfg : MinimapSettings) (e : Host) (o : MinimapStyleObject) :
    (Scaling.update cfg e o).m_factor =
      if max e.blockCount 1 * cfg.m_pixelsPerLine ≤ e.sbHeight then 1
      else (e.sbHeight : ℚ) / ((max e.blockCount 1 * cfg.m_pixelsPerLine : Int) : ℚ) := by
  simp only [Scaling.update, scaling_updateSubControlRects_factor,
    MinimapSettings.pixelsPerLine]

theorem scaling_update_groove_height (cfg : MinimapSettings) (e : Host)
    (o : MinimapStyleObject) :
    (Scaling.update cfg e o).m_groove.height =
      min (max e.blockCount 1 * cfg.m_pixelsPerLine) e.sbHeight := by
  simp only [Scaling.update, scaling_updateSubControlRects_groove,
    MinimapSettings.pixelsPerLine]

theorem scrolling_updateSubControlRects_lineCount (cfg : MinimapSettings) (e : Host)
    (o : MinimapStyleObject) :
    (Scrolling.updateSubControlRects cfg e o).m_lineCount = o.m_lineCount := by
  unfold Scrolling.updateSubControlRects
  split <;> rfl

theorem scrolling_update_lineCount (cfg : MinimapSettings) (e : Host)
    (o : MinimapStyleObject) :
    (Scrolling.update cfg e o).m_lineCount = max e.blockCount 1 := by
  simp only [Scrolling.update, scrolling_updateSubControlRects_lineCount]

/-! ## The threshold gate -/

/-- With the minimap enabled and a style object attached to a scrollbar, the
strategy render is called exactly when `0 < lineCount() <= threshold`. -/
theorem style_renders_iff_gate (cfg : MinimapSettings) (e : Host)
    (o : MinimapStyleObject) (hen : cfg.m_enabled = true) :
    rendersMinimap (MinimapStyle.drawComplexControl cfg e ComplexControl.CC_ScrollBar
        (some ⟨true, some o⟩)) = true ↔
      (0 < o.m_lineCount ∧ o.m_lineCount ≤ cfg.m_lineCountThreshold) := by
  simp only [MinimapStyle.drawComplexControl, MinimapSettings.enabled, hen,
    MinimapStyleObject.lineCount, MinimapSettings.lineCountThreshold, true_and, gt_iff_lt]
  by_cases hg : 0 < o.m_lineCount ∧ o.m_lineCount ≤ cfg.m_lineCountThreshold
  · simp [hg, MinimapStyle.drawMinimap, rendersMinimap]
  · simp [hg, rendersMinimap]

/-- In the scrolling strategy `lineCount()` is the number of document lines, so
a document of exactly `T` lines is rendered and one of `T + 1` lines is not,
whatever the row height. -/
theorem scrolling_threshold_gate (T ppl : Int) (e : Host) (hT : 1 ≤ T) :
    (e.blockCount = T →
      rendersMinimap (MinimapStyle.drawComplexControl (cfgOf T ppl EMinimapStyle.eScrolling) e
        ComplexControl.CC_ScrollBar
        (some ⟨true, some (Scrolling.update (cfgOf T ppl EMinimapStyle.eScrolling) e
          (MinimapStyleObject.construct EMinimapStyle.eScrolling))⟩)) = true) ∧
    (e.blockCount = T + 1 →
      rendersMinimap (MinimapStyle.drawComplexControl (cfgOf T ppl EMinimapStyle.eScrolling) e
        ComplexControl.CC_ScrollBar
        (some ⟨true, some (Scrolling.update (cfgOf T ppl EMinimapStyle.eScrolling) e
          (MinimapStyleObject.construct EMinimapStyle.eScrolling))⟩)) = false) := by
  constructor
  · intro hb
    rw [style_renders_iff_gate _ _ _ rfl, scrolling_update_lineCount, hb]
    simp only [cfgOf]
    omega
  · intro hb
    rw [Bool.eq_false_iff, Ne, style_renders_iff_gate _ _ _ rfl,
      scrolling_update_lineCount, hb]
    simp only [cfgOf]
    omega

/-- In the scaling strategy `lineCount()` is the number of document lines times
the row height: a document of `T + 1` lines is never rendered, and one of
exactly `T` lines is rendered only when the row height is one pixel. -/
theorem scaling_threshold_gate (T ppl : Int) (e : Host) (hT : 1 ≤ T) (hp : 1 ≤ ppl) :
    (e.blockCount = T →
      (rendersMinimap (MinimapStyle.drawComplexControl (cfgOf T ppl EMinimapStyle.eScaling) e
        ComplexControl.CC_ScrollBar
        (some ⟨true, some (Scaling.update (cfgOf T ppl EMinimapStyle.eScaling) e
          (MinimapStyleObject.construct EMinimapStyle.eScaling))⟩)) = true
        ↔ ppl = 1)) ∧
    (e.blockCount = T + 1 →
      rendersMinimap (MinimapStyle.drawComplexControl (cfgOf T ppl EMinimapStyle.eScaling) e
        ComplexControl.CC_ScrollBar
        (some ⟨true, some (Scaling.update (cfgOf T ppl EMinimapStyle.eScaling) e
          (MinimapStyleObject.construct EMinimapStyle.eScaling))⟩)) = false) := by
  constructor
  · intro hb
    rw [style_renders_iff_gate _ _ _ rfl, scaling_update_lineCount, hb]
    simp only [cfgOf]
    rw [max_eq_left hT]
    constructor
    · rintro ⟨_, h2⟩
      nlinarith
    · rintro rfl
      omega
  · intro hb
    rw [Bool.eq_false_iff, Ne, style_renders_iff_gate _ _ _ rfl,
      scaling_update_lineCount, hb]
    simp only [cfgOf]
    rw [max_eq_left (by omega)]
    rintro ⟨_, h2⟩
    nlinarith

/-- C1: the threshold gate compares the threshold with `lineCount()`, which the
scaling strategy sets to lines times row height. With threshold 10 and a row
height of 2 pixels a document of exactly 10 lines has `lineCount() = 20`, the
strategy render is not called and the default scrollbar is painted. -/
theorem C1_scaling_threshold_document_not_rendered :
    (MinimapStyleObject.update (cfgOf 10 2 EMinimapStyle.eScaling) (hostOf 10 400 16 0 0 0)
        (MinimapStyleObject.construct EMinimapStyle.eScaling)).lineCount = 20 ∧
    MinimapStyle.drawComplexControl (cfgOf 10 2 EMinimapStyle.eScaling)
        (hostOf 10 400 16 0 0 0) ComplexControl.CC_ScrollBar
        (some ⟨true, some (MinimapStyleObject.update (cfgOf 10 2 EMinimapStyle.eScaling)
          (hostOf 10 400 16 0 0 0)
          (MinimapStyleObject.construct EMinimapStyle.eScaling))⟩)
      = [PaintOp.defaultScrollBar] := by
  have hl : (MinimapStyleObject.update (cfgOf 10 2 EMinimapStyle.eScaling)
      (hostOf 10 400 16 0 0 0)
      (MinimapStyleObject.construct EMinimapStyle.eScaling)).m_lineCount = 20 := by
    show (Scaling.update _ _ _).m_lineCount = 20
    rw [scaling_update_lineCount]
    decide
  refine ⟨hl, ?_⟩
  simp only [MinimapStyle.drawComplexControl, MinimapStyleObject.lineCount, hl]
  decide

/-! ## The result of the strategy render is not propagated -/

/-- Whenever the widget is a scrollbar, `MinimapStyle::drawMinimap` returns
`true` and paints the image and the overlay, whatever the strategy render
returned. -/
theorem style_drawMinimap_of_scrollBar (cfg : MinimapSettings) (e : Host)
    (o : MinimapStyleObject) (so : Option MinimapStyleObject) :
    MinimapStyle.drawMinimap cfg e ⟨true, so⟩ o =
      (true, [PaintOp.strategyRender (o.drawMinimap cfg e), PaintOp.fillRect,
        PaintOp.drawImage, PaintOp.drawOverlay, PaintOp.drawSplitter]) := by
  simp [MinimapStyle.drawMinimap]

/-- C2: in an editor narrowed to 45 pixels with a 40 pixel extra area the strip
width is `w = 5 - 7 = -2 <= 0` and the render of either strategy returns
`false`, but
`MinimapStyle::drawMinimap` discards that result and returns `true`, and
`drawComplexControl` paints the image and the overlay and does not fall back to
the default scrollbar. -/
theorem C2_not_drawn_result_discarded :
    (∀ st : EMinimapStyle,
      (MinimapStyleObject.update (cfgOf 1000 1 st)
          { hostOf 100 400 16 0 0 75 with editorWidth := 45, extraArea := some 40 }
          (MinimapStyleObject.construct st)).drawMinimap (cfgOf 1000 1 st)
          { hostOf 100 400 16 0 0 75 with editorWidth := 45, extraArea := some 40 } = false ∧
      (MinimapStyle.drawMinimap (cfgOf 1000 1 st)
          { hostOf 100 400 16 0 0 75 with editorWidth := 45, extraArea := some 40 }
          ⟨true, none⟩
          (MinimapStyleObject.update (cfgOf 1000 1 st)
            { hostOf 100 400 16 0 0 75 with editorWidth := 45, extraArea := some 40 }
            (MinimapStyleObject.construct st))).1 = true ∧
      MinimapStyle.drawComplexControl (cfgOf 1000 1 st)
          { hostOf 100 400 16 0 0 75 with editorWidth := 45, extraArea := some 40 }
          ComplexControl.CC_ScrollBar
          (some ⟨true, some (MinimapStyleObject.update (cfgOf 1000 1 st)
            { hostOf 100 400 16 0 0 75 with editorWidth := 45, extraArea := some 40 }
            (MinimapStyleObject.construct st))⟩)
        = [PaintOp.strategyRender false, PaintOp.fillRect, PaintOp.drawImage,
            PaintOp.drawOverlay, PaintOp.drawSplitter]) := by
  intro st
  cases st <;> decide!

/-! ## The scale factor of the scaling strategy -/

/-- C3: for a document of `L >= 1` lines, a row height `ppl >= 1` and a track
height `H` (in particular `H >= 0`), after `update()` the factor is exactly 1 when `L * ppl <= H`,
and otherwise it is `H / (L * ppl)` and strictly less than 1. -/
theorem C3_scaling_factor (cfg : MinimapSettings) (e : Host) (o : MinimapStyleObject)
    (hL : 1 ≤ e.blockCount) (hp : 1 ≤ cfg.pixelsPerLine) :
    (e.blockCount * cfg.pixelsPerLine ≤ e.sbHeight →
      (Scaling.update cfg e o).factor = 1) ∧
    (e.sbHeight < e.blockCount * cfg.pixelsPerLine →
      (Scaling.update cfg e o).factor =
          (e.sbHeight : ℚ) / ((e.blockCount : ℚ) * (cfg.pixelsPerLine : ℚ)) ∧
        (Scaling.update cfg e o).factor < 1) := by
  have hmax : max e.blockCount 1 = e.blockCount := max_eq_left hL
  simp only [MinimapSettings.pixelsPerLine] at hp ⊢
  simp only [MinimapStyleObject.factor, scaling_update_factor, hmax]
  constructor
  · intro h
    rw [if_pos h]
  · intro h
    rw [if_neg (not_le.mpr h)]
    have hpos : (0 : ℚ) < ((e.blockCount * cfg.m_pixelsPerLine : Int) : ℚ) := by
      have : 0 < e.blockCount * cfg.m_pixelsPerLine := by positivity
      exact_mod_cast this
    constructor
    · push_cast
      rfl
    · rw [div_lt_one hpos]
      exact_mod_cast h

/-- C3 at a document of 1000 lines, 2 pixels per line and a track of 400
pixels: the factor is `400 / 2000`. -/
theorem C3_scaling_factor_witness :
    (Scaling.update (cfgOf 5000 2 EMinimapStyle.eScaling) (hostOf 1000 400 16 0 0 975)
        (MinimapStyleObject.construct EMinimapStyle.eScaling)).factor
      = (400 : ℚ) / ((1000 : ℚ) * (2 : ℚ)) :=
  ((C3_scaling_factor (cfgOf 5000 2 EMinimapStyle.eScaling) (hostOf 1000 400 16 0 0 975)
    (MinimapStyleObject.construct EMinimapStyle.eScaling)
    (by decide) (by decide)).2 (by decide)).1

end Minimap

namespace Minimap

theorem scaling_actualContentHeight_eq (e : Host) (o : MinimapStyleObject)
    (hN : 1 ≤ o.m_lineCount)
    (hf : o.m_factor = if o.m_lineCount ≤ e.sbHeight then 1
      else (e.sbHeight : ℚ) / (o.m_lineCount : ℚ)) (hH : 1 ≤ e.sbHeight) :
    Scaling.actualContentHeight e o = min o.m_lineCount e.sbHeight := by
  unfold Scaling.actualContentHeight
  have hNq : (0 : ℚ) < (o.m_lineCount : ℚ) := by exact_mod_cast (by omega : 0 < o.m_lineCount)
  by_cases hle : o.m_lineCount ≤ e.sbHeight
  · rw [if_pos hle] at hf
    simp only [hf, lt_self_iff_false, if_false]
  · rw [if_neg hle] at hf
    have hlt : e.sbHeight < o.m_lineCount := not_le.mp hle
    have hltq : (e.sbHeight : ℚ) < (o.m_lineCount : ℚ) := by exact_mod_cast hlt
    have hHq : (1 : ℚ) ≤ (e.sbHeight : ℚ) := by exact_mod_cast hH
    have hf1 : o.m_factor < 1 := by
      rw [hf, div_lt_one hNq]
      exact hltq
    simp only [hf1, if_true]
    have hx : ((o.m_lineCount - 1 : Int) : ℚ) * o.m_factor
        = (e.sbHeight : ℚ) - (e.sbHeight : ℚ) / (o.m_lineCount : ℚ) := by
      rw [hf]
      push_cast
      field_simp
      ring
    have hfrac : (e.sbHeight : ℚ) / (o.m_lineCount : ℚ) < 1 := by
      rw [div_lt_one hNq]
      exact hltq
    have hfrac0 : 0 ≤ (e.sbHeight : ℚ) / (o.m_lineCount : ℚ) := by positivity
    have h1 : e.sbHeight - 1 ≤ qRound (((o.m_lineCount - 1 : Int) : ℚ) * o.m_factor) := by
      apply intCast_le_qRound
      · rw [hx]; linarith
      · rw [hx]; push_cast; linarith
    rw [min_eq_right hlt.le]
    exact min_eq_right (by omega)

theorem scaling_viewPortLineCount_bounds (cfg : MinimapSettings) (e : Host)
    (o : MinimapStyleObject) (hg : 1 ≤ o.m_groove.height) :
    1 ≤ Scaling.viewPortLineCount cfg e o ∧
      Scaling.viewPortLineCount cfg e o ≤ o.m_groove.height := by
  unfold Scaling.viewPortLineCount
  constructor
  · exact le_max_left _ _
  · exact max_le hg (min_le_right _ _)

theorem scaling_updateSubControlRects_slider (cfg : MinimapSettings) (e : Host)
    (o : MinimapStyleObject) (hN : 1 ≤ o.m_lineCount) :
    (Scaling.updateSubControlRects cfg e o).m_slider =
      ⟨0, Scaling.realValue cfg e o, e.sbWidth, Scaling.viewPortLineCount cfg e o⟩ := by
  unfold Scaling.updateSubControlRects
  rw [if_neg (by omega)]

theorem scaling_slider_core (cfg : MinimapSettings) (e : Host) (o : MinimapStyleObject)
    (hN : 1 ≤ o.m_lineCount) (hg : o.m_groove.height = min o.m_lineCount e.sbHeight)
    (hf : o.m_factor = if o.m_lineCount ≤ e.sbHeight then 1
      else (e.sbHeight : ℚ) / (o.m_lineCount : ℚ)) (hH : 1 ≤ e.sbHeight) :
    0 ≤ (Scaling.updateSubControlRects cfg e o).m_slider.top ∧
    (Scaling.updateSubControlRects cfg e o).m_slider.top
        + (Scaling.updateSubControlRects cfg e o).m_slider.height
      ≤ Scaling.actualContentHeight e o ∧
    1 ≤ (Scaling.updateSubControlRects cfg e o).m_slider.height ∧
    (Scaling.updateSubControlRects cfg e o).m_slider.height ≤ o.m_groove.height := by
  have hach := scaling_actualContentHeight_eq e o hN hf hH
  have hg1 : 1 ≤ o.m_groove.height := by rw [hg]; exact le_min hN hH
  obtain ⟨hv1, hv2⟩ := scaling_viewPortLineCount_bounds cfg e o hg1
  have hva : Scaling.viewPortLineCount cfg e o ≤ Scaling.actualContentHeight e o := by
    rw [hach, ← hg]; exact hv2
  rw [scaling_updateSubControlRects_slider cfg e o hN]
  simp only [QRect.top]
  unfold Scaling.realValue
  simp only []
  generalize Scaling.viewPortLineCount cfg e o = v at *
  generalize Scaling.actualContentHeight e o = a at *
  generalize (if e.maximum > e.minimum ∧ a > v then _ else (0 : Int)) = r0
  refine ⟨le_max_left _ _, ?_, hv1, hv2⟩
  split <;> omega

/-! ## The slider rectangle of the scaling strategy -/

/-- C4: for the geometry computed by `update()` (row height `ppl >= 1`) and a
scrollbar of the same track height `>= 1`, with a positive line spacing,
`updateSubControlRects` yields, for every scroll range and every scroll value,
`sliderTop >= 0` and `sliderTop + sliderHeight <= contentHeight`, where
`contentHeight` is the `actualContentHeight` it computes, which is the minimum
of the row count and the track height; and `1 <= sliderHeight <= groove
height`. -/
theorem C4_scaling_slider_invariant (cfg : MinimapSettings) (e0 e : Host)
    (o0 : MinimapStyleObject) (hp : 1 ≤ cfg.pixelsPerLine) (hH : 1 ≤ e.sbHeight)
    (hsame : e.sbHeight = e0.sbHeight) (_hls : 0 < e.lineSpacing) :
    0 ≤ (Scaling.updateSubControlRects cfg e (Scaling.update cfg e0 o0)).m_slider.top ∧
    (Scaling.updateSubControlRects cfg e (Scaling.update cfg e0 o0)).m_slider.top
        + (Scaling.updateSubControlRects cfg e (Scaling.update cfg e0 o0)).m_slider.height
      ≤ Scaling.actualContentHeight e (Scaling.update cfg e0 o0) ∧
    Scaling.actualContentHeight e (Scaling.update cfg e0 o0)
      = min (Scaling.update cfg e0 o0).lineCount e.sbHeight ∧
    1 ≤ (Scaling.updateSubControlRects cfg e (Scaling.update cfg e0 o0)).m_slider.height ∧
    (Scaling.updateSubControlRects cfg e (Scaling.update cfg e0 o0)).m_slider.height
      ≤ (Scaling.updateSubControlRects cfg e (Scaling.update cfg e0 o0)).m_groove.height := by
  simp only [MinimapSettings.pixelsPerLine] at hp
  have hN : 1 ≤ (Scaling.update cfg e0 o0).m_lineCount := by
    rw [scaling_update_lineCount]
    have : 1 ≤ max e0.blockCount 1 := le_max_right _ _
    nlinarith
  have hg : (Scaling.update cfg e0 o0).m_groove.height
      = min (Scaling.update cfg e0 o0).m_lineCount e.sbHeight := by
    rw [scaling_update_groove_height, scaling_update_lineCount, hsame]
  have hf : (Scaling.update cfg e0 o0).m_factor
      = if (Scaling.update cfg e0 o0).m_lineCount ≤ e.sbHeight then 1
        else (e.sbHeight : ℚ) / ((Scaling.update cfg e0 o0).m_lineCount : ℚ) := by
    rw [scaling_update_factor, scaling_update_lineCount, hsame]
  obtain ⟨h1, h2, h3, h4⟩ := scaling_slider_core cfg e _ hN hg hf hH
  refine ⟨h1, h2, scaling_actualContentHeight_eq e _ hN hf hH, h3, ?_⟩
  rw [scaling_updateSubControlRects_groove]
  exact h4

/-- C4 at a document of 1000 lines, 2 pixels per line, a track of 400 pixels
and the scrollbar at 300 of `[0, 975]`. -/
theorem C4_scaling_slider_invariant_witness :
    0 ≤ (Scaling.updateSubControlRects (cfgOf 5000 2 EMinimapStyle.eScaling)
        (hostOf 1000 400 16 300 0 975)
        (Scaling.update (cfgOf 5000 2 EMinimapStyle.eScaling) (hostOf 1000 400 16 0 0 975)
          (MinimapStyleObject.construct EMinimapStyle.eScaling))).m_slider.top :=
  (C4_scaling_slider_invariant (cfgOf 5000 2 EMinimapStyle.eScaling)
    (hostOf 1000 400 16 0 0 975) (hostOf 1000 400 16 300 0 975)
    (MinimapStyleObject.construct EMinimapStyle.eScaling)
    (by decide) (by decide) (by decide) (by decide)).1


/-! ## The slider rectangle of the scrolling strategy -/

theorem toInt_intCast (n : Int) : toInt (n : ℚ) = n := by
  unfold toInt
  split <;> simp

theorem toInt_nonneg {d : ℚ} (h : 0 ≤ d) : 0 ≤ toInt d := by
  simp only [toInt, h, if_true]
  exact Int.floor_nonneg.mpr h

theorem toInt_le_of_le_intCast {d : ℚ} {n : Int} (h0 : 0 ≤ d) (h : d ≤ (n : ℚ)) :
    toInt d ≤ n := by
  simp only [toInt, h0, if_true]
  exact_mod_cast (Int.floor_le d).trans h

theorem scrolling_updateSubControlRects_slider (cfg : MinimapSettings) (e : Host)
    (o : MinimapStyleObject) (hN : 1 ≤ o.m_lineCount) :
    (Scrolling.updateSubControlRects cfg e o).m_slider =
      ⟨0, toInt (Scrolling.realValue cfg e), e.sbWidth, Scrolling.viewPortHeightInMinimap cfg e⟩ := by
  unfold Scrolling.updateSubControlRects
  rw [if_neg (by omega)]

/-- The `realValue` of the scrolling strategy is 0, the bound `maxSliderTop`, or
the snapped position, a multiple of the row height. -/
theorem scrolling_realValue_cases (cfg : MinimapSettings) (e : Host) :
    Scrolling.realValue cfg e = 0 ∨
    (Scrolling.viewPortHeightInMinimap cfg e < Scrolling.effectiveMinimapHeight cfg e ∧
      Scrolling.realValue cfg e =
        ((Scrolling.effectiveMinimapHeight cfg e - Scrolling.viewPortHeightInMinimap cfg e : Int)
          : ℚ)) ∨
    (Scrolling.viewPortHeightInMinimap cfg e < Scrolling.effectiveMinimapHeight cfg e ∧
      ∃ k : Int, 0 ≤ k * cfg.pixelsPerLine ∧
        k * cfg.pixelsPerLine
          ≤ Scrolling.effectiveMinimapHeight cfg e - Scrolling.viewPortHeightInMinimap cfg e ∧
        Scrolling.realValue cfg e = ((k * cfg.pixelsPerLine : Int) : ℚ)) := by
  unfold Scrolling.realValue
  simp only []
  split
  · rename_i hc
    obtain ⟨_, hlt⟩ := hc
    simp only [qBound]
    generalize qRound _ = k
    rcases le_total (((Scrolling.effectiveMinimapHeight cfg e
        - Scrolling.viewPortHeightInMinimap cfg e : Int) : ℚ))
        (((k * cfg.pixelsPerLine : Int) : ℚ)) with h1 | h1
    · right; left
      refine ⟨hlt, ?_⟩
      rw [min_eq_left h1, max_eq_right]
      have : (0 : Int) ≤ Scrolling.effectiveMinimapHeight cfg e
          - Scrolling.viewPortHeightInMinimap cfg e := by omega
      exact_mod_cast this
    · rw [min_eq_right h1]
      rcases le_total (0 : ℚ) (((k * cfg.pixelsPerLine : Int) : ℚ)) with h2 | h2
      · right; right
        refine ⟨hlt, k, by exact_mod_cast h2, by exact_mod_cast h1, ?_⟩
        rw [max_eq_right h2]
      · left
        rw [max_eq_left h2]
  · left; rfl


/-- The slider top of the scrolling strategy lies in `[0, maxSliderTop]` when
the content is higher than the slider and is 0 otherwise. -/
theorem scrolling_slider_top_bounds (cfg : MinimapSettings) (e : Host) :
    0 ≤ toInt (Scrolling.realValue cfg e) ∧
    (Scrolling.viewPortHeightInMinimap cfg e ≤ Scrolling.effectiveMinimapHeight cfg e →
      toInt (Scrolling.realValue cfg e) + Scrolling.viewPortHeightInMinimap cfg e
        ≤ Scrolling.effectiveMinimapHeight cfg e) ∧
    (Scrolling.effectiveMinimapHeight cfg e ≤ Scrolling.viewPortHeightInMinimap cfg e →
      toInt (Scrolling.realValue cfg e) = 0) := by
  rcases scrolling_realValue_cases cfg e with h | ⟨hlt, h⟩ | ⟨hlt, k, hk0, hk1, h⟩
  · rw [h]
    have h0 : toInt (0 : ℚ) = 0 := toInt_intCast 0
    rw [h0]
    refine ⟨le_rfl, fun hle => by omega, fun _ => rfl⟩
  · rw [h, toInt_intCast]
    refine ⟨by omega, fun _ => by omega, fun hle => by omega⟩
  · rw [h, toInt_intCast]
    refine ⟨hk0, fun _ => by omega, fun hle => by omega⟩

/-- C5, as the code has it: in a short document (3 lines of 2 pixels, a page
of 25 lines) the slider is 50 pixels high but the content only 6, so
`sliderTop + sliderHeight <= contentHeight` fails. -/
theorem C5_scrolling_slider_exceeds_content :
    ¬ (0 ≤ (Scrolling.update (cfgOf 5000 2 EMinimapStyle.eScrolling) (hostOf 3 400 16 0 0 0)
          (MinimapStyleObject.construct EMinimapStyle.eScrolling)).m_slider.top ∧
      (Scrolling.update (cfgOf 5000 2 EMinimapStyle.eScrolling) (hostOf 3 400 16 0 0 0)
          (MinimapStyleObject.construct EMinimapStyle.eScrolling)).m_slider.top
        + (Scrolling.update (cfgOf 5000 2 EMinimapStyle.eScrolling) (hostOf 3 400 16 0 0 0)
          (MinimapStyleObject.construct EMinimapStyle.eScrolling)).m_slider.height
        ≤ min (qRound ((hostOf 3 400 16 0 0 0).documentHeight * 2))
            (hostOf 3 400 16 0 0 0).sbHeight) := by
  decide!

/-- C5 amended: in the scrolling strategy, for every document size, page size,
row height `ppl >= 1`, track height, scroll range and scroll value,
`updateSubControlRects` yields `sliderTop >= 0` and a slider height of
`max(1, linesPerPage) * ppl`; `sliderTop + sliderHeight <= contentHeight`
holds whenever the slider height does not exceed
`contentHeight = min(round(visibleLines * ppl), trackHeight)`, and when the
slider is at least as high as the content its top is 0. -/
theorem C5_scrolling_slider_invariant (cfg : MinimapSettings) (e0 e : Host)
    (o0 : MinimapStyleObject) (_hp : 1 ≤ cfg.pixelsPerLine) :
    0 ≤ (Scrolling.updateSubControlRects cfg e (Scrolling.update cfg e0 o0)).m_slider.top ∧
    (Scrolling.updateSubControlRects cfg e (Scrolling.update cfg e0 o0)).m_slider.height
      = Scrolling.viewPortHeightInMinimap cfg e ∧
    ((Scrolling.updateSubControlRects cfg e (Scrolling.update cfg e0 o0)).m_slider.height
        ≤ min (qRound (e.documentHeight * (cfg.pixelsPerLine : ℚ))) e.sbHeight →
      (Scrolling.updateSubControlRects cfg e (Scrolling.update cfg e0 o0)).m_slider.top
        + (Scrolling.updateSubControlRects cfg e (Scrolling.update cfg e0 o0)).m_slider.height
        ≤ min (qRound (e.documentHeight * (cfg.pixelsPerLine : ℚ))) e.sbHeight) ∧
    (min (qRound (e.documentHeight * (cfg.pixelsPerLine : ℚ))) e.sbHeight
        ≤ (Scrolling.updateSubControlRects cfg e (Scrolling.update cfg e0 o0)).m_slider.height →
      (Scrolling.updateSubControlRects cfg e (Scrolling.update cfg e0 o0)).m_slider.top = 0) := by
  have hN : 1 ≤ (Scrolling.update cfg e0 o0).m_lineCount := by
    rw [scrolling_update_lineCount]
    exact le_max_right _ _
  rw [scrolling_updateSubControlRects_slider cfg e _ hN]
  simp only [QRect.top]
  obtain ⟨h1, h2, h3⟩ := scrolling_slider_top_bounds cfg e
  exact ⟨h1, trivial, h2, h3⟩

/-- C5 amended at a document of 1000 lines, 2 pixels per line, a track of 400
pixels and the scrollbar at 300 of `[0, 975]`. -/
theorem C5_scrolling_slider_invariant_witness :
    0 ≤ (Scrolling.updateSubControlRects (cfgOf 5000 2 EMinimapStyle.eScrolling)
        (hostOf 1000 400 16 300 0 975)
        (Scrolling.update (cfgOf 5000 2 EMinimapStyle.eScrolling) (hostOf 1000 400 16 0 0 975)
          (MinimapStyleObject.construct EMinimapStyle.eScrolling))).m_slider.top :=
  (C5_scrolling_slider_invariant (cfgOf 5000 2 EMinimapStyle.eScrolling)
    (hostOf 1000 400 16 0 0 975) (hostOf 1000 400 16 300 0 975)
    (MinimapStyleObject.construct EMinimapStyle.eScrolling) (by decide)).1

/-! ## The slider snap of the scrolling strategy -/

/-- C6, as the code has it: with 3 pixels per line, a track of 413 pixels, a
page of 10 lines and the scrollbar at its maximum, the snapped position 384
exceeds `maxSliderTop = 383` and is clamped to 383, which is not a multiple
of 3. -/
theorem C6_scrolling_slider_top_not_multiple :
    (Scrolling.update (cfgOf 5000 3 EMinimapStyle.eScrolling) (hostOf 1000 413 41 990 0 990)
        (MinimapStyleObject.construct EMinimapStyle.eScrolling)).m_slider.top = 383 ∧
    ¬ ((3 : Int) ∣ (Scrolling.update (cfgOf 5000 3 EMinimapStyle.eScrolling)
        (hostOf 1000 413 41 990 0 990)
        (MinimapStyleObject.construct EMinimapStyle.eScrolling)).m_slider.top) := by
  decide!

/-- C6 amended: in the scrolling strategy, for every row height `ppl >= 1`,
track height, content height, page size, scroll range and scroll value, the
`sliderTop` computed by `updateSubControlRects` is an exact multiple of `ppl`
or equals the clamp bound `maxSliderTop = contentHeight - sliderHeight`; so it
is a multiple of `ppl` whenever `maxSliderTop` is one. -/
theorem C6_scrolling_slider_snap (cfg : MinimapSettings) (e0 e : Host)
    (o0 : MinimapStyleObject) (_hp : 1 ≤ cfg.pixelsPerLine) :
    (cfg.pixelsPerLine ∣
        (Scrolling.updateSubControlRects cfg e (Scrolling.update cfg e0 o0)).m_slider.top ∨
      (Scrolling.updateSubControlRects cfg e (Scrolling.update cfg e0 o0)).m_slider.top
        = min (qRound (e.documentHeight * (cfg.pixelsPerLine : ℚ))) e.sbHeight
          - (Scrolling.updateSubControlRects cfg e (Scrolling.update cfg e0 o0)).m_slider.height) ∧
    (cfg.pixelsPerLine ∣ min (qRound (e.documentHeight * (cfg.pixelsPerLine : ℚ))) e.sbHeight
        - (Scrolling.updateSubControlRects cfg e (Scrolling.update cfg e0 o0)).m_slider.height →
      cfg.pixelsPerLine ∣
        (Scrolling.updateSubControlRects cfg e (Scrolling.update cfg e0 o0)).m_slider.top) := by
  have hN : 1 ≤ (Scrolling.update cfg e0 o0).m_lineCount := by
    rw [scrolling_update_lineCount]
    exact le_max_right _ _
  rw [scrolling_updateSubControlRects_slider cfg e _ hN]
  simp only [QRect.top]
  have key : cfg.pixelsPerLine ∣ toInt (Scrolling.realValue cfg e) ∨
      toInt (Scrolling.realValue cfg e)
        = Scrolling.effectiveMinimapHeight cfg e - Scrolling.viewPortHeightInMinimap cfg e := by
    rcases scrolling_realValue_cases cfg e with h | ⟨_, h⟩ | ⟨_, k, _, _, h⟩
    · left
      rw [h]
      have h0 : toInt (0 : ℚ) = 0 := toInt_intCast 0
      rw [h0]
      exact dvd_zero _
    · right
      rw [h, toInt_intCast]
    · left
      rw [h, toInt_intCast]
      exact dvd_mul_left _ _
  refine ⟨key, fun hd => ?_⟩
  rcases key with h | h
  · exact h
  · rw [h]
    exact hd

/-- C6 amended at a document of 1000 lines, 2 pixels per line, a track of 400
pixels and the scrollbar at 300 of `[0, 975]`. -/
theorem C6_scrolling_slider_snap_witness :
    (cfgOf 5000 2 EMinimapStyle.eScrolling).pixelsPerLine ∣
        (Scrolling.updateSubControlRects (cfgOf 5000 2 EMinimapStyle.eScrolling)
          (hostOf 1000 400 16 300 0 975)
          (Scrolling.update (cfgOf 5000 2 EMinimapStyle.eScrolling) (hostOf 1000 400 16 0 0 975)
            (MinimapStyleObject.construct EMinimapStyle.eScrolling))).m_slider.top :=
  (C6_scrolling_slider_snap (cfgOf 5000 2 EMinimapStyle.eScrolling)
    (hostOf 1000 400 16 0 0 975) (hostOf 1000 400 16 300 0 975)
    (MinimapStyleObject.construct EMinimapStyle.eScrolling) (by decide)).2 (by decide!)


/-! ## Click mapping of the scaling strategy -/

theorem scaling_factor_lt_one_iff (e : Host) (o : MinimapStyleObject) (hN : 1 ≤ o.m_lineCount)
    (hf : o.m_factor = if o.m_lineCount ≤ e.sbHeight then 1
      else (e.sbHeight : ℚ) / (o.m_lineCount : ℚ)) :
    o.m_factor < 1 ↔ e.sbHeight < o.m_lineCount := by
  have hNq : (0 : ℚ) < (o.m_lineCount : ℚ) := by exact_mod_cast (by omega : 0 < o.m_lineCount)
  by_cases hle : o.m_lineCount ≤ e.sbHeight
  · rw [if_pos hle] at hf
    rw [hf]
    constructor
    · intro h; exact absurd h (lt_irrefl _)
    · intro h; omega
  · rw [if_neg hle] at hf
    rw [hf, div_lt_one hNq]
    exact_mod_cast Iff.rfl

theorem scaling_clickContentHeight_eq (e : Host) (o : MinimapStyleObject)
    (hN : 1 ≤ o.m_lineCount)
    (hf : o.m_factor = if o.m_lineCount ≤ e.sbHeight then 1
      else (e.sbHeight : ℚ) / (o.m_lineCount : ℚ)) :
    Scaling.clickContentHeight e o = min o.m_lineCount e.sbHeight := by
  have hNq : (0 : ℚ) < (o.m_lineCount : ℚ) := by exact_mod_cast (by omega : 0 < o.m_lineCount)
  unfold Scaling.clickContentHeight
  by_cases hlt : e.sbHeight < o.m_lineCount
  · rw [if_pos ((scaling_factor_lt_one_iff e o hN hf).mpr hlt), min_eq_right hlt.le]
    rw [hf, if_neg (not_le.mpr hlt)]
    have : (o.m_lineCount : ℚ) * ((e.sbHeight : ℚ) / (o.m_lineCount : ℚ)) = (e.sbHeight : ℚ) := by
      field_simp
    rw [this, qRound_intCast]
  · rw [if_neg (fun h => hlt ((scaling_factor_lt_one_iff e o hN hf).mp h))]

theorem scaling_targetLine_bounds (e : Host) (o : MinimapStyleObject) (mouseY : Int)
    (hN : 1 ≤ o.m_lineCount) (hc : 1 ≤ Scaling.clickContentHeight e o) :
    1 ≤ Scaling.targetLine e o mouseY ∧ Scaling.targetLine e o mouseY ≤ o.m_lineCount := by
  unfold Scaling.targetLine
  simp only []
  split
  · rename_i hY
    refine ⟨le_max_left _ _, max_le hN ?_⟩
    have hcq : (0 : ℚ) < (Scaling.clickContentHeight e o : ℚ) := by
      exact_mod_cast (by omega : 0 < Scaling.clickContentHeight e o)
    have hNq : (0 : ℚ) ≤ (o.m_lineCount : ℚ) := by exact_mod_cast (by omega : 0 ≤ o.m_lineCount)
    have hr : (mouseY : ℚ) / (Scaling.clickContentHeight e o : ℚ) ≤ 1 := by
      rw [div_le_one hcq]
      exact_mod_cast hY
    rcases le_or_lt 0 ((mouseY : ℚ) / (Scaling.clickContentHeight e o : ℚ)
        * (o.m_lineCount : ℚ)) with h0 | h0
    · apply qRound_le_of_le_intCast h0
      calc (mouseY : ℚ) / (Scaling.clickContentHeight e o : ℚ) * (o.m_lineCount : ℚ)
          ≤ 1 * (o.m_lineCount : ℚ) := mul_le_mul_of_nonneg_right hr hNq
        _ = (o.m_lineCount : ℚ) := one_mul _
    · exact (qRound_nonpos h0.le).trans (by omega)
  · exact ⟨hN, le_rfl⟩

theorem scaling_center_setValue (e : Host) (o : MinimapStyleObject) (mouseY : Int)
    (hc : 1 ≤ Scaling.clickContentHeight e o) (hls : 0 < e.lineSpacing) :
    (0 < e.maximum →
      ∃ v, Scaling.centerViewportOnMousePosition e o mouseY = Scroll.setValue v ∧
        0 ≤ v ∧ v ≤ e.maximum) ∧
    (e.maximum ≤ 0 → Scaling.centerViewportOnMousePosition e o mouseY = Scroll.unchanged) := by
  unfold Scaling.centerViewportOnMousePosition
  simp only []
  rw [if_neg (by omega), if_neg (by omega)]
  constructor
  · intro hm
    rw [if_pos (by omega)]
    split
    · exact ⟨_, rfl, le_max_left _ _, max_le hm.le (min_le_right _ _)⟩
    · exact ⟨0, rfl, le_rfl, hm.le⟩
  · intro hm
    rw [if_neg (by omega)]

/-- C8, as the code has it: the scroll value is clamped to `[0, max]`, not to
`[min, max]`. With the scroll range `[5, 10]` a click at the top of the strip
passes 0 to `setValue`. -/
theorem C8_scaling_click_below_minimum :
    Scaling.centerViewportOnMousePosition (hostOf 1000 400 16 5 5 10)
        (Scaling.update (cfgOf 5000 1 EMinimapStyle.eScaling) (hostOf 1000 400 16 5 5 10)
          (MinimapStyleObject.construct EMinimapStyle.eScaling)) 0
      = Scroll.setValue 0 ∧
    ¬ ((hostOf 1000 400 16 5 5 10).minimum ≤ 0 ∧ 0 ≤ (hostOf 1000 400 16 5 5 10).maximum) := by
  decide!

/-- C8 amended: for the geometry computed by `update()` (row height
`ppl >= 1`) and a scrollbar of the same track height `>= 1`, with a positive
line spacing, for every pointer `Y` and every scroll range the target line of
`centerViewportOnMousePosition` lies in `[1, documentRowCount]`; when the
scroll maximum is positive the value passed to `setValue` lies in `[0, max]`,
and when it is not positive `setValue` is not called. -/
theorem C8_scaling_click_range (cfg : MinimapSettings) (e0 e : Host) (o0 : MinimapStyleObject)
    (mouseY : Int) (hp : 1 ≤ cfg.pixelsPerLine) (hH : 1 ≤ e.sbHeight)
    (hsame : e.sbHeight = e0.sbHeight) (hls : 0 < e.lineSpacing) :
    1 ≤ Scaling.targetLine e (Scaling.update cfg e0 o0) mouseY ∧
    Scaling.targetLine e (Scaling.update cfg e0 o0) mouseY
      ≤ (Scaling.update cfg e0 o0).lineCount ∧
    (0 < e.maximum →
      ∃ v, Scaling.centerViewportOnMousePosition e (Scaling.update cfg e0 o0) mouseY
          = Scroll.setValue v ∧ 0 ≤ v ∧ v ≤ e.maximum) ∧
    (e.maximum ≤ 0 →
      Scaling.centerViewportOnMousePosition e (Scaling.update cfg e0 o0) mouseY
        = Scroll.unchanged) := by
  simp only [MinimapSettings.pixelsPerLine] at hp
  have hN : 1 ≤ (Scaling.update cfg e0 o0).m_lineCount := by
    rw [scaling_update_lineCount]
    have : 1 ≤ max e0.blockCount 1 := le_max_right _ _
    nlinarith
  have hf : (Scaling.update cfg e0 o0).m_factor
      = if (Scaling.update cfg e0 o0).m_lineCount ≤ e.sbHeight then 1
        else (e.sbHeight : ℚ) / ((Scaling.update cfg e0 o0).m_lineCount : ℚ) := by
    rw [scaling_update_factor, scaling_update_lineCount, hsame]
  have hc : 1 ≤ Scaling.clickContentHeight e (Scaling.update cfg e0 o0) := by
    rw [scaling_clickContentHeight_eq e _ hN hf]
    exact le_min hN hH
  obtain ⟨h1, h2⟩ := scaling_targetLine_bounds e _ mouseY hN hc
  obtain ⟨h3, h4⟩ := scaling_center_setValue e (Scaling.update cfg e0 o0) mouseY hc hls
  exact ⟨h1, h2, h3, h4⟩

/-- C8 amended at a document of 1000 lines, 2 pixels per line, a track of 400
pixels and a click at `Y = 200`. -/
theorem C8_scaling_click_range_witness :
    1 ≤ Scaling.targetLine (hostOf 1000 400 16 300 0 975)
      (Scaling.update (cfgOf 5000 2 EMinimapStyle.eScaling) (hostOf 1000 400 16 0 0 975)
        (MinimapStyleObject.construct EMinimapStyle.eScaling)) 200 :=
  (C8_scaling_click_range (cfgOf 5000 2 EMinimapStyle.eScaling)
    (hostOf 1000 400 16 0 0 975) (hostOf 1000 400 16 300 0 975)
    (MinimapStyleObject.construct EMinimapStyle.eScaling) 200
    (by decide) (by decide) (by decide) (by decide)).1

/-! ## Click mapping round trip of the scaling strategy -/

/-- The slider height for a page of `P` lines at factor `1/5` and 2 pixels per
line. -/
theorem round_trip_height (P v : Int) (hP0 : 0 ≤ P)
    (hv : v = max 1 (min (qRound ((1 / 5 : ℚ) * ((max 1 P * 2 : Int) : ℚ))) 400)) :
    1 ≤ v ∧ v ≤ 400 ∧ (P ≤ 998 → v < 400 ∧ 4 * P - 5 ≤ 10 * v ∧ P ≤ 5 * v) ∧
      (999 ≤ P → v = 400) := by
  obtain ⟨m, hm⟩ : ∃ m : Int, m = max 1 P := ⟨_, rfl⟩
  rw [← hm] at hv
  have hm1 : 1 ≤ m := by rw [hm]; exact le_max_left _ _
  have hmP : P ≤ m := by rw [hm]; exact le_max_right _ _
  have hmle : m ≤ max 1 P := hm.le
  have hm1q : (1 : ℚ) ≤ (m : ℚ) := by exact_mod_cast hm1
  have hmPq : (P : ℚ) ≤ (m : ℚ) := by exact_mod_cast hmP
  have hx0 : (0 : ℚ) ≤ (1 / 5 : ℚ) * ((m * 2 : Int) : ℚ) := by
    push_cast; linarith
  have h1 := qRound_le_add_half hx0
  have h2 := sub_half_lt_qRound hx0
  generalize qRound ((1 / 5 : ℚ) * ((m * 2 : Int) : ℚ)) = r at hv h1 h2
  push_cast at h1 h2
  have hr : 4 * m - 5 < 10 * r := by
    have : ((4 * m - 5 : Int) : ℚ) < ((10 * r : Int) : ℚ) := by push_cast; linarith
    exact_mod_cast this
  have hv1 : 1 ≤ v := by rw [hv]; exact le_max_left _ _
  have hv2 : v ≤ 400 := by rw [hv]; exact max_le (by norm_num) (min_le_right _ _)
  have hv3 : min r 400 ≤ v := by rw [hv]; exact le_max_right _ _
  refine ⟨hv1, hv2, ?_, ?_⟩
  · intro hP
    have hmax : m ≤ 998 := hmle.trans (max_le (by norm_num) hP)
    have hmaxq : (m : ℚ) ≤ 998 := by exact_mod_cast hmax
    have hr2 : r < 400 := by
      have : (r : ℚ) < ((400 : Int) : ℚ) := by push_cast; linarith
      exact_mod_cast this
    rw [min_eq_left hr2.le] at hv3
    have hvr : v = max 1 r := by rw [hv, min_eq_left hr2.le]
    refine ⟨?_, by omega, by omega⟩
    rw [hvr]; exact max_lt (by norm_num) hr2
  · intro hP
    have hr2 : 400 ≤ r := by omega
    rw [hv, min_eq_right hr2]
    norm_num


/-- The two roundings of the click round trip at factor `1/5`: `c` is the
centre line minus one, `t` the scroll value, `v` the slider height and `rv`
the slider top. -/
theorem round_trip_arith (P Y q c t v rv : Int)
    (hP0 : 0 ≤ P) (hP : P ≤ 998) (hY0 : 0 ≤ Y) (hY : Y ≤ 400)
    (hq1 : 2 * q ≤ P) (hq2 : P ≤ 2 * q + 1)
    (hc0 : 0 ≤ c) (hcD : c ≤ 2000 - P)
    (hcu : c = 0 ∨ c ≤ 5 * Y - q - 1)
    (hcl : c = 2000 - P ∨ 5 * Y - q - 1 ≤ c)
    (hv1 : 1 ≤ v) (hv4 : v < 400) (hv2 : 4 * P - 5 ≤ 10 * v) (hv3 : P ≤ 5 * v)
    (ht : t = qRound ((c : ℚ) / ((2000 - P : Int) : ℚ) * ((1000 - P : Int) : ℚ)))
    (hrv : rv = qRound ((t : ℚ) / ((1000 - P : Int) : ℚ) * ((400 - v : Int) : ℚ))) :
    0 ≤ t ∧ t ≤ 1000 - P ∧ 0 ≤ rv ∧ rv ≤ 400 - v ∧ rv ≤ Y ∧ Y ≤ rv + v := by
  -- the real quantities
  obtain ⟨D, hD⟩ : ∃ D : ℚ, D = ((2000 - P : Int) : ℚ) := ⟨_, rfl⟩
  obtain ⟨M, hM⟩ : ∃ M : ℚ, M = ((1000 - P : Int) : ℚ) := ⟨_, rfl⟩
  obtain ⟨S, hS⟩ : ∃ S : ℚ, S = ((400 - v : Int) : ℚ) := ⟨_, rfl⟩
  rw [← hD, ← hM] at ht
  rw [← hM, ← hS] at hrv
  have hPq0 : (0 : ℚ) ≤ (P : ℚ) := by exact_mod_cast hP0
  have hPq : (P : ℚ) ≤ 998 := by exact_mod_cast hP
  have hDv : D = 2000 - (P : ℚ) := by rw [hD]; push_cast; ring
  have hMv : M = 1000 - (P : ℚ) := by rw [hM]; push_cast; ring
  have hSv : S = 400 - (v : ℚ) := by rw [hS]; push_cast; ring
  have hDpos : 0 < D := by linarith
  have hM2 : 2 ≤ M := by linarith
  have hMpos : 0 < M := by linarith
  have hvq1 : (1 : ℚ) ≤ (v : ℚ) := by exact_mod_cast hv1
  have hvq4 : (v : ℚ) < 400 := by exact_mod_cast hv4
  have hvq2 : 4 * (P : ℚ) - 5 ≤ 10 * (v : ℚ) := by exact_mod_cast hv2
  have hvq3 : (P : ℚ) ≤ 5 * (v : ℚ) := by exact_mod_cast hv3
  have hSpos : 0 < S := by linarith
  have hcq0 : (0 : ℚ) ≤ (c : ℚ) := by exact_mod_cast hc0
  have hcqD : (c : ℚ) ≤ D := by rw [hDv]; exact_mod_cast hcD
  -- first rounding
  have hA0 : 0 ≤ (c : ℚ) / D * M := by positivity
  have hAM : (c : ℚ) / D * M ≤ M := by
    have : (c : ℚ) / D ≤ 1 := (div_le_one hDpos).mpr hcqD
    calc (c : ℚ) / D * M ≤ 1 * M := mul_le_mul_of_nonneg_right this hMpos.le
      _ = M := one_mul _
  have ht0 : 0 ≤ t := by rw [ht]; exact qRound_nonneg hA0
  have htM : t ≤ 1000 - P := by
    rw [ht]
    exact qRound_le_of_le_intCast hA0 (by rw [← hM]; exact hAM)
  have ht1 : (t : ℚ) ≤ (c : ℚ) / D * M + 1 / 2 := by rw [ht]; exact qRound_le_add_half hA0
  have ht2 : (c : ℚ) / D * M - 1 / 2 < (t : ℚ) := by rw [ht]; exact sub_half_lt_qRound hA0
  have htq0 : (0 : ℚ) ≤ (t : ℚ) := by exact_mod_cast ht0
  have htqM : (t : ℚ) ≤ M := by rw [hMv]; exact_mod_cast htM
  -- second rounding
  have hB0 : 0 ≤ (t : ℚ) / M * S := by positivity
  have hBS : (t : ℚ) / M * S ≤ S := by
    have : (t : ℚ) / M ≤ 1 := (div_le_one hMpos).mpr htqM
    calc (t : ℚ) / M * S ≤ 1 * S := mul_le_mul_of_nonneg_right this hSpos.le
      _ = S := one_mul _
  have hr0 : 0 ≤ rv := by rw [hrv]; exact qRound_nonneg hB0
  have hrS : rv ≤ 400 - v := by
    rw [hrv]
    exact qRound_le_of_le_intCast hB0 (by rw [← hS]; exact hBS)
  have hr1 : (rv : ℚ) ≤ (t : ℚ) / M * S + 1 / 2 := by rw [hrv]; exact qRound_le_add_half hB0
  have hr2 : (t : ℚ) / M * S - 1 / 2 < (rv : ℚ) := by rw [hrv]; exact sub_half_lt_qRound hB0
  -- the error term `S / (2 M)` and the slope `S / D`
  obtain ⟨X, hX⟩ : ∃ X : ℚ, X = S / (2 * M) := ⟨_, rfl⟩
  obtain ⟨R, hR⟩ : ∃ R : ℚ, R = (c : ℚ) / D * S := ⟨_, rfl⟩
  have hX0 : 0 ≤ X := by rw [hX]; positivity
  have hXub : X ≤ 13 / 40 := by
    rw [hX, div_le_iff₀ (by linarith)]
    linarith
  have hXub0 : P = 0 → X ≤ 3 / 10 := by
    intro h0
    have : (P : ℚ) = 0 := by exact_mod_cast h0
    rw [hX, div_le_iff₀ (by linarith)]
    linarith
  have hBup : (t : ℚ) / M * S ≤ R + X := by
    have h1 : (t : ℚ) / M * S ≤ ((c : ℚ) / D * M + 1 / 2) / M * S := by
      apply mul_le_mul_of_nonneg_right _ hSpos.le
      exact div_le_div_of_nonneg_right ht1 hMpos.le
    have h2 : ((c : ℚ) / D * M + 1 / 2) / M * S = R + X := by
      rw [hR, hX]
      field_simp
      ring
    linarith
  have hBlo : R - X ≤ (t : ℚ) / M * S := by
    have h1 : ((c : ℚ) / D * M - 1 / 2) / M * S ≤ (t : ℚ) / M * S := by
      apply mul_le_mul_of_nonneg_right _ hSpos.le
      exact div_le_div_of_nonneg_right ht2.le hMpos.le
    have h2 : ((c : ℚ) / D * M - 1 / 2) / M * S = R - X := by
      rw [hR, hX]
      field_simp
      ring
    linarith
  have hSD : S ≤ D / 5 := by linarith
  have hRup : R ≤ (c : ℚ) / 5 := by
    rw [hR]
    have h1 : (c : ℚ) / D * S ≤ (c : ℚ) / D * (D / 5) :=
      mul_le_mul_of_nonneg_left hSD (by positivity)
    have h2 : (c : ℚ) / D * (D / 5) = (c : ℚ) / 5 := by
      field_simp
    linarith
  have hRlo : S - (D - (c : ℚ)) / 5 ≤ R := by
    have h1 : (D - (c : ℚ)) / D * S ≤ (D - (c : ℚ)) / D * (D / 5) :=
      mul_le_mul_of_nonneg_left hSD (div_nonneg (by linarith) hDpos.le)
    have h2 : (D - (c : ℚ)) / D * (D / 5) = (D - (c : ℚ)) / 5 := by
      field_simp
    have h3 : R = S - (D - (c : ℚ)) / D * S := by
      rw [hR]
      field_simp
      ring
    linarith
  refine ⟨ht0, htM, hr0, hrS, ?_, ?_⟩
  · -- upper bound
    have hq0 : 0 ≤ q := by omega
    have hqq : (0 : ℚ) ≤ (q : ℚ) := by exact_mod_cast hq0
    have hlt : (rv : ℚ) < (Y : ℚ) + 1 := by
      rcases hcu with h | h
      · have hc' : (c : ℚ) = 0 := by exact_mod_cast h
        have hYq : (0 : ℚ) ≤ (Y : ℚ) := by exact_mod_cast hY0
        linarith
      · have hc' : (c : ℚ) ≤ 5 * (Y : ℚ) - (q : ℚ) - 1 := by exact_mod_cast h
        linarith
    have : rv < Y + 1 := by exact_mod_cast hlt
    omega
  · -- lower bound
    have hlt : (Y : ℚ) - 1 < (rv : ℚ) + (v : ℚ) := by
      rcases hcl with h | h
      · have hc' : (c : ℚ) = D := by rw [hDv]; exact_mod_cast h
        have hYq : (Y : ℚ) ≤ 400 := by exact_mod_cast hY
        have hRS : R = S := by
          rw [hR, hc']
          field_simp
        linarith
      · have hc' : 5 * (Y : ℚ) - (q : ℚ) - 1 ≤ (c : ℚ) := by exact_mod_cast h
        rcases eq_or_lt_of_le hP0 with h0 | h0
        · have hq0 : q = 0 := by omega
          have hqq : (q : ℚ) = 0 := by exact_mod_cast hq0
          have hP' : (P : ℚ) = 0 := by exact_mod_cast h0.symm
          have := hXub0 h0.symm
          linarith
        · have hq0 : q + 1 ≤ P := by omega
          have hqq : (q : ℚ) + 1 ≤ (P : ℚ) := by exact_mod_cast hq0
          linarith
    have : Y - 1 < rv + v := by exact_mod_cast hlt
    omega


/-- C7, as the code has it: for 1000 lines, 2 pixels per line, a track of 400
pixels and a page of 50 lines (scroll range `[0, 950]`), a click at `Y = 400`
is mapped to the scroll value 950 and back to the slider top 380, twenty
pixels from the click. -/
theorem C7_round_trip_off_by_slider_height :
    (Scaling.clickRoundTrip (cfgOf 5000 2 EMinimapStyle.eScaling) (hostOf 1000 400 8 0 0 950)
        (hostOf 1000 400 8 0 0 950)
        (MinimapStyleObject.construct EMinimapStyle.eScaling) 400).top = 380 ∧
    ¬ (400 - 1 ≤ (Scaling.clickRoundTrip (cfgOf 5000 2 EMinimapStyle.eScaling)
          (hostOf 1000 400 8 0 0 950) (hostOf 1000 400 8 0 0 950)
          (MinimapStyleObject.construct EMinimapStyle.eScaling) 400).top ∧
      (Scaling.clickRoundTrip (cfgOf 5000 2 EMinimapStyle.eScaling)
          (hostOf 1000 400 8 0 0 950) (hostOf 1000 400 8 0 0 950)
          (MinimapStyleObject.construct EMinimapStyle.eScaling) 400).top
        ≤ 400 + 1) := by
  decide!

theorem scrolled_fields (e : Host) (sc : Scroll) :
    (e.scrolled sc).viewportHeight = e.viewportHeight ∧
    (e.scrolled sc).lineSpacing = e.lineSpacing ∧
    (e.scrolled sc).sbHeight = e.sbHeight ∧
    (e.scrolled sc).sbWidth = e.sbWidth ∧
    (e.scrolled sc).minimum = e.minimum ∧
    (e.scrolled sc).maximum = e.maximum := by
  cases sc <;> simp [Host.scrolled, Host.setValue]

/-- The slider rectangle after the round trip, for a geometry with 2000 rows at
factor `1/5` on a track of 400 pixels, contains the pointer. -/
theorem round_trip_core (cfg : MinimapSettings) (e : Host) (o : MinimapStyleObject)
    (mouseY : Int) (hppl : cfg.m_pixelsPerLine = 2) (hN : o.m_lineCount = 2000)
    (hf : o.m_factor = 1 / 5) (hg : o.m_groove.height = 400) (hH : e.sbHeight = 400)
    (hls : 0 < e.lineSpacing) (hvh : 0 ≤ e.viewportHeight) (hmin : e.minimum = 0)
    (hmax : e.maximum = 1000 - Int.tdiv e.viewportHeight e.lineSpacing)
    (hY0 : 0 ≤ mouseY) (hY1 : mouseY ≤ 400) :
    Scaling.realValue cfg (e.scrolled (Scaling.centerViewportOnMousePosition e o mouseY)) o
      ≤ mouseY ∧
    mouseY ≤
      Scaling.realValue cfg (e.scrolled (Scaling.centerViewportOnMousePosition e o mouseY)) o
      + Scaling.viewPortLineCount cfg
          (e.scrolled (Scaling.centerViewportOnMousePosition e o mouseY)) o ∧
    Scaling.viewPortLineCount cfg
        (e.scrolled (Scaling.centerViewportOnMousePosition e o mouseY)) o
      = max 1 (min (qRound ((1 / 5 : ℚ)
          * ((max 1 (Int.tdiv e.viewportHeight e.lineSpacing) * 2 : Int) : ℚ))) 400) := by
  obtain ⟨P, hPdef⟩ : ∃ P : Int, P = Int.tdiv e.viewportHeight e.lineSpacing := ⟨_, rfl⟩
  have hP0 : 0 ≤ P := by rw [hPdef]; exact Int.tdiv_nonneg hvh hls.le
  obtain ⟨q, hqdef⟩ : ∃ q : Int, q = Int.tdiv P 2 := ⟨_, rfl⟩
  have hq12 : 2 * q ≤ P ∧ P ≤ 2 * q + 1 := by
    rw [hqdef, Int.tdiv_eq_ediv hP0 (by norm_num)]
    omega
  rw [← hPdef] at hmax
  -- the content heights
  have hfi : o.m_factor = if o.m_lineCount ≤ e.sbHeight then 1
      else (e.sbHeight : ℚ) / (o.m_lineCount : ℚ) := by
    rw [hN, hH, hf]
    norm_num
  have hcc : Scaling.clickContentHeight e o = 400 := by
    rw [scaling_clickContentHeight_eq e o (by omega) hfi, hN, hH]
    rfl
  -- the target line
  have htl : Scaling.targetLine e o mouseY = max 1 (5 * mouseY) := by
    unfold Scaling.targetLine
    simp only [hcc, hN]
    rw [if_pos hY1]
    have : (mouseY : ℚ) / ((400 : Int) : ℚ) * ((2000 : Int) : ℚ) = ((5 * mouseY : Int) : ℚ) := by
      push_cast
      ring
    rw [this, qRound_intCast]
  -- the slider height
  obtain ⟨sc, hsc⟩ : ∃ sc, sc = Scaling.centerViewportOnMousePosition e o mouseY := ⟨_, rfl⟩
  rw [← hsc]
  obtain ⟨h1, h2, h3, h4, h5, h6⟩ := scrolled_fields e sc
  obtain ⟨v, hv⟩ : ∃ v, v = Scaling.viewPortLineCount cfg (e.scrolled sc) o := ⟨_, rfl⟩
  have hvf : v = max 1 (min (qRound ((1 / 5 : ℚ) * ((max 1 P * 2 : Int) : ℚ))) 400) := by
    rw [hv]
    unfold Scaling.viewPortLineCount
    simp only [h1, h2, hf, hg, MinimapSettings.pixelsPerLine, hppl, ← hPdef]
  obtain ⟨hv1, hv400, hvS, hvL⟩ := round_trip_height P v hP0 hvf
  refine (and_assoc.mp ⟨?_, by rw [← hv, ← hPdef]; exact hvf⟩)
  have hach : Scaling.actualContentHeight (e.scrolled sc) o = 400 := by
    have hfi2 : o.m_factor = if o.m_lineCount ≤ (e.scrolled sc).sbHeight then 1
        else ((e.scrolled sc).sbHeight : ℚ) / (o.m_lineCount : ℚ) := by
      rw [h3]; exact hfi
    rw [scaling_actualContentHeight_eq (e.scrolled sc) o (by omega) hfi2 (by rw [h3, hH]; norm_num),
      hN, h3, hH]
    rfl
  rw [← hv]
  unfold Scaling.realValue
  simp only [← hv, hach, h5, h6, hmin, hmax]
  rcases le_or_lt 999 P with hbig | hsmall
  · -- the page is as long as the document: the slider fills the track
    have hv4 : v = 400 := hvL hbig
    rw [hv4]
    simp only [gt_iff_lt, lt_self_iff_false, and_false, if_false]
    norm_num
    exact ⟨hY0, hY1⟩
  · -- the general case
    have hP : P ≤ 998 := by omega
    obtain ⟨hvlt, hv2, hv3⟩ := hvS hP
    -- the scroll value of the click
    obtain ⟨c, hc⟩ : ∃ c : Int,
        c = max 1 (min (max 1 (5 * mouseY) - q) (max 1 (2000 - P + 1))) - 1 := ⟨_, rfl⟩
    obtain ⟨t, ht⟩ : ∃ t : Int,
        t = qRound ((c : ℚ) / ((2000 - P : Int) : ℚ) * ((1000 - P : Int) : ℚ)) := ⟨_, rfl⟩
    have hcen : sc = Scroll.setValue (max 0 (min t (1000 - P))) := by
      rw [hsc]
      unfold Scaling.centerViewportOnMousePosition
      simp only [hcc, htl, hN, hmax, ← hPdef, ← hqdef]
      rw [if_neg (by omega), if_neg (by omega), if_pos (by omega), if_pos (by omega)]
      have hd : max 1 (2000 - P + 1) - 1 = 2000 - P := by omega
      rw [← hc, hd, ← ht]
    obtain ⟨rv, hrv⟩ : ∃ rv : Int,
        rv = qRound ((t : ℚ) / ((1000 - P : Int) : ℚ) * ((400 - v : Int) : ℚ)) := ⟨_, rfl⟩
    obtain ⟨ht0, htM, hr0, hrS, hgoal1, hgoal2⟩ :=
      round_trip_arith P mouseY q c t v rv hP0 hP hY0 hY1 hq12.1 hq12.2
        (by omega) (by omega) (by omega) (by omega) hv1 hvlt hv2 hv3 ht hrv
    have hval : (e.scrolled sc).value = t := by
      rw [hcen]
      simp only [Host.scrolled, Host.setValue, qBound, hmin, hmax]
      omega
    have hsub1 : t - 0 = t := by omega
    have hsub2 : 1000 - P - 0 = 1000 - P := by omega
    rw [hval, hsub1, hsub2, ← hrv]
    have hin : (if 1000 - P > 0 ∧ 400 > v then max 0 (min rv (400 - v)) else 0) = rv := by
      rw [if_pos ⟨by omega, by omega⟩]
      omega
    rw [hin, if_neg (by omega)]
    constructor <;> omega


/-- C7 amended: for a document of 1000 lines, 2 pixels per line and a track of
400 pixels (scroll minimum 0, maximum `1000 - linesPerPage`), for every pointer
offset `Y` in `[0, 400]` and every viewport page size, mapping `Y` to a scroll
value with `centerViewportOnMousePosition` and that scroll value back to a
slider rectangle with `updateSubControlRects` gives a slider that contains the
pointer: `sliderTop <= Y <= sliderTop + sliderHeight`, where the slider height
is `round(0.4 * max(1, linesPerPage))` bounded to `[1, 400]`; so the slider top
differs from `Y` by at most the slider height. -/
theorem C7_click_round_trip (cfg : MinimapSettings) (e0 e : Host) (o0 : MinimapStyleObject)
    (mouseY : Int) (hppl : cfg.pixelsPerLine = 2) (hL : e0.blockCount = 1000)
    (hH0 : e0.sbHeight = 400) (hH : e.sbHeight = 400) (hls : 0 < e.lineSpacing)
    (hvh : 0 ≤ e.viewportHeight) (hmin : e.minimum = 0)
    (hmax : e.maximum = 1000 - Int.tdiv e.viewportHeight e.lineSpacing)
    (hY0 : 0 ≤ mouseY) (hY1 : mouseY ≤ 400) :
    (Scaling.clickRoundTrip cfg e0 e o0 mouseY).top ≤ mouseY ∧
    mouseY ≤ (Scaling.clickRoundTrip cfg e0 e o0 mouseY).top
      + (Scaling.clickRoundTrip cfg e0 e o0 mouseY).height ∧
    (Scaling.clickRoundTrip cfg e0 e o0 mouseY).height
      = max 1 (min (qRound ((1 / 5 : ℚ)
          * ((max 1 (Int.tdiv e.viewportHeight e.lineSpacing) * 2 : Int) : ℚ))) 400) := by
  simp only [MinimapSettings.pixelsPerLine] at hppl
  have hN : (Scaling.update cfg e0 o0).m_lineCount = 2000 := by
    rw [scaling_update_lineCount, hL, hppl]
    rfl
  have hf : (Scaling.update cfg e0 o0).m_factor = 1 / 5 := by
    rw [scaling_update_factor, hL, hppl, hH0]
    norm_num
  have hg : (Scaling.update cfg e0 o0).m_groove.height = 400 := by
    rw [scaling_update_groove_height, hL, hppl, hH0]
    rfl
  unfold Scaling.clickRoundTrip
  simp only []
  rw [scaling_updateSubControlRects_slider cfg _ _ (by omega)]
  simp only [QRect.top]
  exact round_trip_core cfg e (Scaling.update cfg e0 o0) mouseY hppl hN hf hg hH hls hvh hmin
    hmax hY0 hY1

/-- C7 amended at a page of 50 lines and a click at `Y = 400`: the slider
`[380, 400]` contains the pointer. -/
theorem C7_click_round_trip_witness :
    (Scaling.clickRoundTrip (cfgOf 5000 2 EMinimapStyle.eScaling) (hostOf 1000 400 8 0 0 950)
        (hostOf 1000 400 8 0 0 950)
        (MinimapStyleObject.construct EMinimapStyle.eScaling) 400).top ≤ 400 :=
  (C7_click_round_trip (cfgOf 5000 2 EMinimapStyle.eScaling) (hostOf 1000 400 8 0 0 950)
    (hostOf 1000 400 8 0 0 950) (MinimapStyleObject.construct EMinimapStyle.eScaling)
    400 (by decide) (by decide) (by decide) (by decide) (by decide) (by decide) (by decide)
    (by decide) (by decide) (by decide)).1

/-! ## Click mapping of the scrolling strategy -/

/-- C9: the scrolling strategy divides by `minimapRange` without a guard and
does not clamp the result. For a document of 1000 lines (2 pixels per line,
track 400, page of 10 lines, scroll range `[0, 990]`) a click at `Y = 400`
passes 1016 to `setValue`, above the maximum; for a document of 10 lines, as
long as the page, `minimapRange` is 0 and the division is by zero. -/
theorem C9_scrolling_click_out_of_range :
    Scrolling.centerViewportOnMousePosition (cfgOf 5000 2 EMinimapStyle.eScrolling)
        (hostOf 1000 400 40 0 0 990)
        (Scrolling.update (cfgOf 5000 2 EMinimapStyle.eScrolling) (hostOf 1000 400 40 0 0 990)
          (MinimapStyleObject.construct EMinimapStyle.eScrolling)) 400
      = Scroll.setValue 1016 ∧
    (hostOf 1000 400 40 0 0 990).maximum < 1016 ∧
    Scrolling.minimapRange (cfgOf 5000 2 EMinimapStyle.eScrolling) (hostOf 10 400 40 0 0 0)
        (Scrolling.update (cfgOf 5000 2 EMinimapStyle.eScrolling) (hostOf 10 400 40 0 0 0)
          (MinimapStyleObject.construct EMinimapStyle.eScrolling)) = 0 ∧
    Scrolling.centerViewportOnMousePosition (cfgOf 5000 2 EMinimapStyle.eScrolling)
        (hostOf 10 400 40 0 0 0)
        (Scrolling.update (cfgOf 5000 2 EMinimapStyle.eScrolling) (hostOf 10 400 40 0 0 0)
          (MinimapStyleObject.construct EMinimapStyle.eScrolling)) 200
      = Scroll.undefined := by
  decide!


/-! ## Tab expansion -/

/-- The tab loop without blending, started at cursor `x` with `n` iterations
and `x + n <= w`: it paints exactly the columns `x .. x + n - 1` with the
background colour and leaves the cursor at `x + n`; it reports `false` exactly
when it painted something and the cursor reached `w`. -/
theorem tabLoop_paints (w : Int) (bg : QRgb) (n : Nat) (s : ScanLine) (x : Int)
    (hw : x + n ≤ w) :
    (∀ i : Int, (tabLoop false w bg n ⟨s, x⟩).2.scanLine i
        = if x ≤ i ∧ i < x + n then bg else s i) ∧
    (tabLoop false w bg n ⟨s, x⟩).2.x = x + n ∧
    ((tabLoop false w bg n ⟨s, x⟩).1 = false ↔ (0 < n ∧ x + n = w)) := by
  induction n generalizing s x with
  | zero =>
    refine ⟨fun i => ?_, by simp [tabLoop], by simp [tabLoop]⟩
    simp only [tabLoop, Nat.cast_zero, add_zero]
    rw [if_neg (by omega)]
  | succ n ih =>
    have hcast : ((n + 1 : Nat) : Int) = (n : Int) + 1 := by push_cast; rfl
    rw [hcast] at hw ⊢
    simp only [tabLoop, Bool.not_false, if_true, ge_iff_le]
    by_cases hx : w ≤ x + 1
    · have hn : (n : Int) = 0 := by omega
      simp only [hx, if_true]
      refine ⟨fun i => ?_, by omega, ?_⟩
      · by_cases hi : i = x
        · subst hi
          rw [Function.update_same, if_pos (by omega)]
        · rw [Function.update_noteq hi, if_neg (by omega)]
      · constructor <;> intro _ <;> first | trivial | omega
    · simp only [hx, if_false]
      obtain ⟨h1, h2, h3⟩ := ih (Function.update s x bg) (x + 1) (by omega)
      refine ⟨fun i => ?_, by rw [h2]; ring, ?_⟩
      · rw [h1 i]
        by_cases hi : i = x
        · subst hi
          rw [if_neg (by omega), Function.update_same, if_pos (by omega)]
        · rw [Function.update_noteq hi]
          by_cases hr : x + 1 ≤ i ∧ i < x + 1 + (n : Int)
          · rw [if_pos hr, if_pos (by omega)]
          · rw [if_neg hr, if_neg (by omega)]
      · rw [h3]
        constructor
        · rintro ⟨h6, h7⟩
          omega
        · rintro ⟨_, h7⟩
          omega

/-- C10: without blending and with `tabWidth = 4`, on a strip of width
`w > 5`, feeding the characters of `"\tX"` to `updatePixel` from cursor 0
writes the background colour to columns 0..3 and the foreground colour to
column 4, leaves every other column unchanged, ends with the cursor at 5 and
may continue; in general a tab at cursor `x` with `x + tab <= w` paints exactly
the columns `x .. x + tab - 1` with the background colour (and, for
`tab >= 0`, leaves the cursor at `x + tab`). -/
theorem C10_tab_expansion (qc : QColorModel) (s : ScanLine) (bg fg : QRgb) :
    (∀ w : Int, 5 < w →
      (writeText qc false w 4 bg fg "\tX".toList ⟨s, 0⟩).1 = true ∧
      (writeText qc false w 4 bg fg "\tX".toList ⟨s, 0⟩).2.x = 5 ∧
      ∀ i : Int, (writeText qc false w 4 bg fg "\tX".toList ⟨s, 0⟩).2.scanLine i
        = if 0 ≤ i ∧ i ≤ 3 then bg else if i = 4 then fg else s i) ∧
    (∀ w x tab : Int, x + tab ≤ w →
      (∀ i : Int, (updatePixel qc ⟨s, x⟩ false Tabulation w tab bg fg).2.scanLine i
        = if x ≤ i ∧ i < x + tab then bg else s i) ∧
      (0 ≤ tab → (updatePixel qc ⟨s, x⟩ false Tabulation w tab bg fg).2.x = x + tab)) := by
  constructor
  · intro w hw
    obtain ⟨h1, h2, h3⟩ := tabLoop_paints w bg 4 s 0 (by simp; omega)
    simp only [Nat.cast_ofNat, zero_add] at h1 h2 h3
    have htab : updatePixel qc ⟨s, 0⟩ false (Char.ofNat 9) w 4 bg fg
        = tabLoop false w bg 4 ⟨s, 0⟩ := by
      simp [updatePixel, Tabulation]
    have hflag : (tabLoop false w bg 4 ⟨s, 0⟩).1 = true := by
      rw [← Bool.not_eq_false, h3]
      omega
    have hX : isSpace 'X' = false := by decide
    have hXt : ¬ ('X' = Tabulation) := by decide
    have h9 : "\tX".toList = [Char.ofNat 9, 'X'] := by decide
    simp only [h9, writeText, htab, hflag, if_true]
    simp only [updatePixel, hXt, if_false, hX, Bool.not_false, Bool.false_eq_true, false_and,
      h2, ge_iff_le]
    have hw2 : ¬ (w ≤ 4 + 1) := by omega
    simp only [hw2, if_false, if_true, true_and]
    refine ⟨by norm_num, fun i => ?_⟩
    by_cases hi : i = 4
    · subst hi
      rw [Function.update_same, if_neg (by omega), if_pos rfl]
    · rw [Function.update_noteq hi, h1 i]
      by_cases hr : 0 ≤ i ∧ i ≤ 3
      · rw [if_pos hr, if_pos (by omega)]
      · rw [if_neg hr, if_neg (by omega), if_neg hi]
  · intro w x tab hw
    have htab : updatePixel qc ⟨s, x⟩ false Tabulation w tab bg fg
        = tabLoop false w bg tab.toNat ⟨s, x⟩ := by
      simp [updatePixel]
    rw [htab]
    rcases le_or_lt tab 0 with h | h
    · rw [Int.toNat_eq_zero.mpr h]
      simp only [tabLoop]
      refine ⟨fun i => ?_, fun h0 => by omega⟩
      rw [if_neg (by omega)]
    · have hn : ((tab.toNat : Nat) : Int) = tab := Int.toNat_of_nonneg h.le
      obtain ⟨h1, h2, _⟩ := tabLoop_paints w bg tab.toNat s x (by rw [hn]; exact hw)
      rw [hn] at h1 h2
      exact ⟨h1, fun _ => h2⟩


/-- C10 at a strip of 8 columns: the cursor ends at 5. -/
theorem C10_tab_expansion_witness :
    (writeText ⟨fun _ => ⟨0, 0, 0, 0⟩, fun _ => 0⟩ false 8 4 1 2 "\tX".toList
      ⟨fun _ => 0, 0⟩).2.x = 5 :=
  ((C10_tab_expansion ⟨fun _ => ⟨0, 0, 0, 0⟩, fun _ => 0⟩ (fun _ => 0) 1 2).1 8
    (by decide)).2.1

end Minimap

namespace Minimap

/-! ## Overlay mode of the pixel compositor -/

/-- With blending the tab loop neither paints nor moves the cursor: from a
cursor inside the strip it runs to its end and reports `true`. -/
theorem tabLoop_blend (w : Int) (bg : QRgb) (n : Nat) (p : Pen) (hx : p.x < w) :
    tabLoop true w bg n p = (true, p) := by
  induction n with
  | zero => rfl
  | succ n ih =>
    simp only [tabLoop, Bool.not_true, Bool.false_eq_true, if_false, ge_iff_le]
    rw [if_neg (by omega)]
    exact ih

/-- A tab in overlay mode, from a cursor inside the strip: the flag is `true`,
the scanline and the cursor are unchanged. -/
theorem updatePixel_blend_tab (qc : QColorModel) (p : Pen) (w tab : Int) (bg fg : QRgb)
    (hx : p.x < w) :
    updatePixel qc p true Tabulation w tab bg fg = (true, p) := by
  simp only [updatePixel, if_true]
  exact tabLoop_blend w bg tab.toNat p hx

/-- C11: in overlay mode a tab leaves every pixel of the scanline unchanged, but
it does not advance the cursor either: with the cursor at 0 on a strip of 10
columns and a tab width of 4 the cursor is still 0, not 4, after the tab. -/
theorem C11_overlay_tab_keeps_cursor (qc : QColorModel) (s : ScanLine) (bg fg : QRgb) :
    (updatePixel qc ⟨s, 0⟩ true Tabulation 10 4 bg fg).2.x = 0 ∧
    (updatePixel qc ⟨s, 0⟩ true Tabulation 10 4 bg fg).2.x ≠ 0 + 4 ∧
    (updatePixel qc ⟨s, 0⟩ true Tabulation 10 4 bg fg).2.scanLine = s ∧
    (updatePixel qc ⟨s, 0⟩ false Tabulation 10 4 bg fg).2.x = 0 + 4 := by
  rw [updatePixel_blend_tab qc ⟨s, 0⟩ 10 4 bg fg (by show (0 : Int) < 10; norm_num)]
  refine ⟨rfl, by simp, rfl, ?_⟩
  simp [updatePixel, tabLoop]

/-! ## Single characters -/

/-- C12: for a character that is not a tab and a cursor `0 <= x < w`, without
blending `updatePixel` writes exactly one pixel, at column `x`, with the
background colour for white space and the foreground colour otherwise, leaves
the other columns unchanged, moves the cursor to `x + 1` and returns `false`
exactly when the new cursor equals `w`; with blending a white space character
still paints the background colour. -/
theorem C12_single_character (qc : QColorModel) (s : ScanLine) (c : Char) (x w tab : Int)
    (bg fg : QRgb) (hc : c ≠ Tabulation) (_hx0 : 0 ≤ x) (hxw : x < w) :
    (updatePixel qc ⟨s, x⟩ false c w tab bg fg).2.scanLine
        = Function.update s x (if isSpace c then bg else fg) ∧
    (updatePixel qc ⟨s, x⟩ false c w tab bg fg).2.x = x + 1 ∧
    ((updatePixel qc ⟨s, x⟩ false c w tab bg fg).1 = false ↔ x + 1 = w) ∧
    ((updatePixel qc ⟨s, x⟩ false c w tab bg fg).1 = true ↔ x + 1 ≠ w) ∧
    (isSpace c = true →
      (updatePixel qc ⟨s, x⟩ true c w tab bg fg).2.scanLine = Function.update s x bg ∧
      (updatePixel qc ⟨s, x⟩ true c w tab bg fg).2.x = x + 1) := by
  have hnb : updatePixel qc ⟨s, x⟩ false c w tab bg fg
      = if x + 1 ≥ w then (false, ⟨Function.update s x (if isSpace c then bg else fg), x + 1⟩)
        else (true, ⟨Function.update s x (if isSpace c then bg else fg), x + 1⟩) := by
    simp [updatePixel, hc]
  rw [hnb]
  by_cases hlast : x + 1 ≥ w
  · rw [if_pos hlast]
    refine ⟨rfl, rfl, ?_, ?_, ?_⟩
    · constructor
      · intro _; omega
      · intro _; rfl
    · constructor
      · intro h; simp at h
      · intro h; omega
    · intro hsp
      simp [updatePixel, hc, hsp]
      split <;> exact ⟨rfl, rfl⟩
  · rw [if_neg hlast]
    refine ⟨rfl, rfl, ?_, ?_, ?_⟩
    · constructor
      · intro h; simp at h
      · intro h; omega
    · constructor
      · intro _; omega
      · intro _; rfl
    · intro hsp
      simp [updatePixel, hc, hsp]
      split <;> exact ⟨rfl, rfl⟩

/-- C12 at the letter `X` written at column 3 of a strip of 8 columns. -/
theorem C12_single_character_witness :
    (updatePixel ⟨fun _ => ⟨0, 0, 0, 0⟩, fun _ => 0⟩ ⟨fun _ => 0, 3⟩ false 'X' 8 4 1 2).2.x
      = 3 + 1 :=
  (C12_single_character ⟨fun _ => ⟨0, 0, 0, 0⟩, fun _ => 0⟩ (fun _ => 0) 'X' 3 8 4 1 2
    (by decide) (by decide) (by decide)).2.1

/-! ## Setters of the settings -/

/-- C13: for each of the eight fields, the setter called with the current value
returns the settings unchanged and emits no signal; called with another value
`v` it stores `v` (the getter returns `v`), emits exactly one signal, the
change signal of that field with the argument `v`, and leaves the other seven
fields unchanged. -/
theorem C13_setters (s : MinimapSettings) :
    (∀ v : Bool,
      (v = s.enabled → s.setEnabled v = (s, [])) ∧
      (v ≠ s.enabled →
        (s.setEnabled v).1.enabled = v ∧ (s.setEnabled v).2 = [Signal.enabledChanged v] ∧
        (s.setEnabled v).1.width = s.width ∧
        (s.setEnabled v).1.lineCountThreshold = s.lineCountThreshold ∧
        (s.setEnabled v).1.alpha = s.alpha ∧
        (s.setEnabled v).1.centerOnClick = s.centerOnClick ∧
        (s.setEnabled v).1.showLineTooltip = s.showLineTooltip ∧
        (s.setEnabled v).1.pixelsPerLine = s.pixelsPerLine ∧
        (s.setEnabled v).1.style = s.style)) ∧
    (∀ v : Int,
      (v = s.width → s.setWidth v = (s, [])) ∧
      (v ≠ s.width →
        (s.setWidth v).1.width = v ∧ (s.setWidth v).2 = [Signal.widthChanged v] ∧
        (s.setWidth v).1.enabled = s.enabled ∧
        (s.setWidth v).1.lineCountThreshold = s.lineCountThreshold ∧
        (s.setWidth v).1.alpha = s.alpha ∧
        (s.setWidth v).1.centerOnClick = s.centerOnClick ∧
        (s.setWidth v).1.showLineTooltip = s.showLineTooltip ∧
        (s.setWidth v).1.pixelsPerLine = s.pixelsPerLine ∧
        (s.setWidth v).1.style = s.style)) ∧
    (∀ v : Int,
      (v = s.lineCountThreshold → s.setLineCountThreshold v = (s, [])) ∧
      (v ≠ s.lineCountThreshold →
        (s.setLineCountThreshold v).1.lineCountThreshold = v ∧ (s.setLineCountThreshold v).2 = [Signal.lineCountThresholdChanged v] ∧
        (s.setLineCountThreshold v).1.enabled = s.enabled ∧
        (s.setLineCountThreshold v).1.width = s.width ∧
        (s.setLineCountThreshold v).1.alpha = s.alpha ∧
        (s.setLineCountThreshold v).1.centerOnClick = s.centerOnClick ∧
        (s.setLineCountThreshold v).1.showLineTooltip = s.showLineTooltip ∧
        (s.setLineCountThreshold v).1.pixelsPerLine = s.pixelsPerLine ∧
        (s.setLineCountThreshold v).1.style = s.style)) ∧
    (∀ v : Int,
      (v = s.alpha → s.setAlpha v = (s, [])) ∧
      (v ≠ s.alpha →
        (s.setAlpha v).1.alpha = v ∧ (s.setAlpha v).2 = [Signal.alphaChanged v] ∧
        (s.setAlpha v).1.enabled = s.enabled ∧
        (s.setAlpha v).1.width = s.width ∧
        (s.setAlpha v).1.lineCountThreshold = s.lineCountThreshold ∧
        (s.setAlpha v).1.centerOnClick = s.centerOnClick ∧
        (s.setAlpha v).1.showLineTooltip = s.showLineTooltip ∧
        (s.setAlpha v).1.pixelsPerLine = s.pixelsPerLine ∧
        (s.setAlpha v).1.style = s.style)) ∧
    (∀ v : Bool,
      (v = s.centerOnClick → s.setCenterOnClick v = (s, [])) ∧
      (v ≠ s.centerOnClick →
        (s.setCenterOnClick v).1.centerOnClick = v ∧ (s.setCenterOnClick v).2 = [Signal.centerOnClickChanged v] ∧
        (s.setCenterOnClick v).1.enabled = s.enabled ∧
        (s.setCenterOnClick v).1.width = s.width ∧
        (s.setCenterOnClick v).1.lineCountThreshold = s.lineCountThreshold ∧
        (s.setCenterOnClick v).1.alpha = s.alpha ∧
        (s.setCenterOnClick v).1.showLineTooltip = s.showLineTooltip ∧
        (s.setCenterOnClick v).1.pixelsPerLine = s.pixelsPerLine ∧
        (s.setCenterOnClick v).1.style = s.style)) ∧
    (∀ v : Bool,
      (v = s.showLineTooltip → s.setShowLineTooltip v = (s, [])) ∧
      (v ≠ s.showLineTooltip →
        (s.setShowLineTooltip v).1.showLineTooltip = v ∧ (s.setShowLineTooltip v).2 = [Signal.showLineTooltipChanged v] ∧
        (s.setShowLineTooltip v).1.enabled = s.enabled ∧
        (s.setShowLineTooltip v).1.width = s.width ∧
        (s.setShowLineTooltip v).1.lineCountThreshold = s.lineCountThreshold ∧
        (s.setShowLineTooltip v).1.alpha = s.alpha ∧
        (s.setShowLineTooltip v).1.centerOnClick = s.centerOnClick ∧
        (s.setShowLineTooltip v).1.pixelsPerLine = s.pixelsPerLine ∧
        (s.setShowLineTooltip v).1.style = s.style)) ∧
    (∀ v : Int,
      (v = s.pixelsPerLine → s.setPixelsPerLine v = (s, [])) ∧
      (v ≠ s.pixelsPerLine →
        (s.setPixelsPerLine v).1.pixelsPerLine = v ∧ (s.setPixelsPerLine v).2 = [Signal.pixelsPerLineChanged v] ∧
        (s.setPixelsPerLine v).1.enabled = s.enabled ∧
        (s.setPixelsPerLine v).1.width = s.width ∧
        (s.setPixelsPerLine v).1.lineCountThreshold = s.lineCountThreshold ∧
        (s.setPixelsPerLine v).1.alpha = s.alpha ∧
        (s.setPixelsPerLine v).1.centerOnClick = s.centerOnClick ∧
        (s.setPixelsPerLine v).1.showLineTooltip = s.showLineTooltip ∧
        (s.setPixelsPerLine v).1.style = s.style)) ∧
    (∀ v : Int,
      (v = s.style → s.setStyle v = (s, [])) ∧
      (v ≠ s.style →
        (s.setStyle v).1.style = v ∧ (s.setStyle v).2 = [Signal.styleChanged v] ∧
        (s.setStyle v).1.enabled = s.enabled ∧
        (s.setStyle v).1.width = s.width ∧
        (s.setStyle v).1.lineCountThreshold = s.lineCountThreshold ∧
        (s.setStyle v).1.alpha = s.alpha ∧
        (s.setStyle v).1.centerOnClick = s.centerOnClick ∧
        (s.setStyle v).1.showLineTooltip = s.showLineTooltip ∧
        (s.setStyle v).1.pixelsPerLine = s.pixelsPerLine)) := by
  refine ⟨?_, ?_, ?_, ?_, ?_, ?_, ?_, ?_⟩ <;> intro v <;> constructor <;> intro h <;>
    simp only [MinimapSettings.setEnabled, MinimapSettings.setWidth, MinimapSettings.setLineCountThreshold, MinimapSettings.setAlpha, MinimapSettings.setCenterOnClick, MinimapSettings.setShowLineTooltip, MinimapSettings.setPixelsPerLine, MinimapSettings.setStyle,
      MinimapSettings.enabled, MinimapSettings.width, MinimapSettings.lineCountThreshold, MinimapSettings.alpha, MinimapSettings.centerOnClick, MinimapSettings.showLineTooltip, MinimapSettings.pixelsPerLine, MinimapSettings.style] at h ⊢
  all_goals first
    | rw [if_neg (by simpa using h.symm)]
    | (rw [if_pos (fun hh => h hh.symm)]; simp)

/-- C13 at the width: setting 30 over 20 stores 30. -/
theorem C13_setters_witness :
    ((cfgOf 5000 2 EMinimapStyle.eScaling).setWidth 30).1.width = 30 :=
  (((C13_setters (cfgOf 5000 2 EMinimapStyle.eScaling)).2.1 30).2 (by decide)).1

end Minimap

namespace Minimap

/-! ## Persistence of the settings -/

theorem toMap_bindings (s : MinimapSettings) :
    s.toMap =
      [(styleKey, QVariant.int s.m_style), (pixelsPerLineKey, QVariant.int s.m_pixelsPerLine),
        (showLineTooltipKey, QVariant.bool s.m_showLineTooltip),
        (centerOnClickKey, QVariant.bool s.m_centerOnClick), (alphaKey, QVariant.int s.m_alpha),
        (lineCountThresholdKey, QVariant.int s.m_lineCountThreshold),
        (widthKey, QVariant.int s.m_width), (enabledKey, QVariant.bool s.m_enabled)] := by
  simp [MinimapSettings.toMap, Store.insert, List.filter, styleKey, pixelsPerLineKey,
    showLineTooltipKey, centerOnClickKey, alphaKey, lineCountThresholdKey, widthKey, enabledKey]

theorem store_value_of_absent (m : Store) (k : String) (d : QVariant)
    (h : m.contains k = false) : m.value k d = d := by
  unfold Store.contains at h
  unfold Store.value
  cases hl : m.lookup k with
  | none => rfl
  | some v => rw [hl] at h; simp at h

theorem store_value_congr (m1 m2 : Store) (k : String) (d : QVariant)
    (h : m1.lookup k = m2.lookup k) : m1.value k d = m2.value k d := by
  unfold Store.value
  rw [h]

theorem lookup_filter_ne (m : Store) (k k2 : String) (h : k2 ≠ k) :
    (m.filter fun p => p.1 != k).lookup k2 = m.lookup k2 := by
  induction m with
  | nil => rfl
  | cons p m ih =>
    obtain ⟨a, b⟩ := p
    by_cases hak : a = k
    · subst hak
      have hne : (k2 == a) = false := by simpa using h
      simp [List.filter, List.lookup, hne, ih]
    · have hf : (a != k) = true := by simpa using hak
      simp only [List.filter, hf, List.lookup]
      rw [ih]

theorem store_lookup_insert_ne (m : Store) (k k2 : String) (v : QVariant) (h : k2 ≠ k) :
    (m.insert k v).lookup k2 = m.lookup k2 := by
  have hne : (k2 == k) = false := by simpa using h
  simp only [Store.insert, List.lookup, hne]
  exact lookup_filter_ne m k k2 h

/-- The result of `fromMap` depends on the record only through the bindings of
the eight keys. -/
theorem fromMap_congr (s : MinimapSettings) (m1 m2 : Store)
    (h : ∀ k ∈ settingsKeys, m1.lookup k = m2.lookup k) : s.fromMap m1 = s.fromMap m2 := by
  have hk : ∀ k ∈ settingsKeys, ∀ d, m1.value k d = m2.value k d :=
    fun k hk d => store_value_congr m1 m2 k d (h k hk)
  simp only [MinimapSettings.fromMap]
  rw [hk enabledKey (by simp [settingsKeys]), hk widthKey (by simp [settingsKeys]),
    hk lineCountThresholdKey (by simp [settingsKeys]), hk alphaKey (by simp [settingsKeys]),
    hk centerOnClickKey (by simp [settingsKeys]), hk showLineTooltipKey (by simp [settingsKeys]),
    hk pixelsPerLineKey (by simp [settingsKeys]), hk styleKey (by simp [settingsKeys])]

/-- C14: for every settings state and every record, `fromMap` leaves each field
whose key is absent from the record at its prior value, and the bindings of
keys other than the eight keys that `fromMap` reads have no effect on the
result: records that agree on the eight keys give the same state, and adding a
binding of another key changes nothing. -/
theorem C14_fromMap_partial_record (s : MinimapSettings) (map : Store) :
    (map.contains enabledKey = false → (s.fromMap map).enabled = s.enabled) ∧
    (map.contains widthKey = false → (s.fromMap map).width = s.width) ∧
    (map.contains lineCountThresholdKey = false →
      (s.fromMap map).lineCountThreshold = s.lineCountThreshold) ∧
    (map.contains alphaKey = false → (s.fromMap map).alpha = s.alpha) ∧
    (map.contains centerOnClickKey = false →
      (s.fromMap map).centerOnClick = s.centerOnClick) ∧
    (map.contains showLineTooltipKey = false →
      (s.fromMap map).showLineTooltip = s.showLineTooltip) ∧
    (map.contains pixelsPerLineKey = false →
      (s.fromMap map).pixelsPerLine = s.pixelsPerLine) ∧
    (map.contains styleKey = false → (s.fromMap map).style = s.style) ∧
    (∀ map2 : Store, (∀ k ∈ settingsKeys, map2.lookup k = map.lookup k) →
      s.fromMap map2 = s.fromMap map) ∧
    (∀ (k : String) (v : QVariant), k ∉ settingsKeys →
      s.fromMap (map.insert k v) = s.fromMap map) := by
  refine ⟨?_, ?_, ?_, ?_, ?_, ?_, ?_, ?_, ?_, ?_⟩
  · intro h
    simp [MinimapSettings.fromMap, MinimapSettings.enabled, store_value_of_absent _ _ _ h,
      QVariant.toBool]
  · intro h
    simp [MinimapSettings.fromMap, MinimapSettings.width, store_value_of_absent _ _ _ h,
      QVariant.toInt]
  · intro h
    simp [MinimapSettings.fromMap, MinimapSettings.lineCountThreshold,
      store_value_of_absent _ _ _ h, QVariant.toInt]
  · intro h
    simp [MinimapSettings.fromMap, MinimapSettings.alpha, store_value_of_absent _ _ _ h,
      QVariant.toInt]
  · intro h
    simp [MinimapSettings.fromMap, MinimapSettings.centerOnClick,
      store_value_of_absent _ _ _ h, QVariant.toBool]
  · intro h
    simp [MinimapSettings.fromMap, MinimapSettings.showLineTooltip,
      store_value_of_absent _ _ _ h, QVariant.toBool]
  · intro h
    simp [MinimapSettings.fromMap, MinimapSettings.pixelsPerLine,
      store_value_of_absent _ _ _ h, QVariant.toInt]
  · intro h
    simp [MinimapSettings.fromMap, MinimapSettings.style, store_value_of_absent _ _ _ h,
      QVariant.toInt]
  · intro map2 h
    exact fromMap_congr s map2 map h
  · intro k v hk
    apply fromMap_congr
    intro k2 hk2
    exact store_lookup_insert_ne map k k2 v (fun h => hk (h ▸ hk2))

/-- C14 at a record with a width and an unknown key: the enabled flag is
retained. -/
theorem C14_fromMap_partial_record_witness :
    ((cfgOf 5000 2 EMinimapStyle.eScaling).fromMap
        [("Width", QVariant.int 33), ("Colour", QVariant.string "red")]).enabled
      = (cfgOf 5000 2 EMinimapStyle.eScaling).enabled :=
  (C14_fromMap_partial_record (cfgOf 5000 2 EMinimapStyle.eScaling)
    [("Width", QVariant.int 33), ("Colour", QVariant.string "red")]).1 (by decide)

end Minimap

namespace Minimap

/-! ## Malformed values in a record -/

/-- C15, as the code has it: a non-numeric string under `Width` or
`PixelsPerLine` does not retain the prior value (20 and 2), the field
becomes 0. -/
theorem C15_malformed_number_becomes_zero :
    ((cfgOf 5000 2 EMinimapStyle.eScaling).fromMap
        [("Width", QVariant.string "abc")]).width = 0 ∧
    ((cfgOf 5000 2 EMinimapStyle.eScaling).fromMap
        [("Width", QVariant.string "abc")]).width
      ≠ (cfgOf 5000 2 EMinimapStyle.eScaling).width ∧
    ((cfgOf 5000 2 EMinimapStyle.eScaling).fromMap
        [("PixelsPerLine", QVariant.string "two")]).pixelsPerLine
      ≠ (cfgOf 5000 2 EMinimapStyle.eScaling).pixelsPerLine := by
  decide

/-- C15 amended: `fromMap` is total and a value that cannot be converted does
not retain the prior value but yields the conversion result of `QVariant`: an
integer field (width, threshold, alpha, pixels per line, style) becomes 0 when
its key holds a string that spells no number or a value of a type without
conversion, and a Boolean field becomes `false` when its key holds a value of
a type without conversion. -/
theorem C15_malformed_values (s : MinimapSettings) (map : Store) :
    (∀ str : String, map.lookup widthKey = some (QVariant.string str) → qStringToInt str = none →
      (s.fromMap map).width = 0) ∧
    (map.lookup widthKey = some QVariant.other → (s.fromMap map).width = 0) ∧
    (∀ str : String, map.lookup lineCountThresholdKey = some (QVariant.string str) → qStringToInt str = none →
      (s.fromMap map).lineCountThreshold = 0) ∧
    (map.lookup lineCountThresholdKey = some QVariant.other → (s.fromMap map).lineCountThreshold = 0) ∧
    (∀ str : String, map.lookup alphaKey = some (QVariant.string str) → qStringToInt str = none →
      (s.fromMap map).alpha = 0) ∧
    (map.lookup alphaKey = some QVariant.other → (s.fromMap map).alpha = 0) ∧
    (∀ str : String, map.lookup pixelsPerLineKey = some (QVariant.string str) → qStringToInt str = none →
      (s.fromMap map).pixelsPerLine = 0) ∧
    (map.lookup pixelsPerLineKey = some QVariant.other → (s.fromMap map).pixelsPerLine = 0) ∧
    (∀ str : String, map.lookup styleKey = some (QVariant.string str) → qStringToInt str = none →
      (s.fromMap map).style = 0) ∧
    (map.lookup styleKey = some QVariant.other → (s.fromMap map).style = 0) ∧
    (map.lookup enabledKey = some QVariant.other → (s.fromMap map).enabled = false) ∧
    (map.lookup centerOnClickKey = some QVariant.other → (s.fromMap map).centerOnClick = false) ∧
    (map.lookup showLineTooltipKey = some QVariant.other → (s.fromMap map).showLineTooltip = false) := by
  refine ⟨?_, ?_, ?_, ?_, ?_, ?_, ?_, ?_, ?_, ?_, ?_, ?_, ?_⟩
  · intro str h hq
    simp [MinimapSettings.fromMap, MinimapSettings.width, Store.value, h, QVariant.toInt, hq]
  · intro h
    simp [MinimapSettings.fromMap, MinimapSettings.width, Store.value, h, QVariant.toInt]
  · intro str h hq
    simp [MinimapSettings.fromMap, MinimapSettings.lineCountThreshold, Store.value, h, QVariant.toInt, hq]
  · intro h
    simp [MinimapSettings.fromMap, MinimapSettings.lineCountThreshold, Store.value, h, QVariant.toInt]
  · intro str h hq
    simp [MinimapSettings.fromMap, MinimapSettings.alpha, Store.value, h, QVariant.toInt, hq]
  · intro h
    simp [MinimapSettings.fromMap, MinimapSettings.alpha, Store.value, h, QVariant.toInt]
  · intro str h hq
    simp [MinimapSettings.fromMap, MinimapSettings.pixelsPerLine, Store.value, h, QVariant.toInt, hq]
  · intro h
    simp [MinimapSettings.fromMap, MinimapSettings.pixelsPerLine, Store.value, h, QVariant.toInt]
  · intro str h hq
    simp [MinimapSettings.fromMap, MinimapSettings.style, Store.value, h, QVariant.toInt, hq]
  · intro h
    simp [MinimapSettings.fromMap, MinimapSettings.style, Store.value, h, QVariant.toInt]
  · intro h
    simp [MinimapSettings.fromMap, MinimapSettings.enabled, Store.value, h, QVariant.toBool]
  · intro h
    simp [MinimapSettings.fromMap, MinimapSettings.centerOnClick, Store.value, h, QVariant.toBool]
  · intro h
    simp [MinimapSettings.fromMap, MinimapSettings.showLineTooltip, Store.value, h, QVariant.toBool]

/-- C15 amended at the record with the string `abc` under `Width`. -/
theorem C15_malformed_values_witness :
    ((cfgOf 5000 2 EMinimapStyle.eScaling).fromMap
        [("Width", QVariant.string "abc")]).width = 0 :=
  (C15_malformed_values (cfgOf 5000 2 EMinimapStyle.eScaling)
    [("Width", QVariant.string "abc")]).1 "abc" (by decide) (by decide)

end Minimap

namespace Minimap

/-! ## Bounds of the numeric settings -/

/-- C16, as the code has it: neither `fromMap` nor the setters clamp. A record
with `Width = -5` gives the width -5, and `setPixelsPerLine(0)` stores 0. -/
theorem C16_bounds_not_enforced :
    ((cfgOf 5000 2 EMinimapStyle.eScaling).fromMap [("Width", QVariant.int (-5))]).width = -5 ∧
    ¬ ((cfgOf 5000 2 EMinimapStyle.eScaling).fromMap
        [("Width", QVariant.int (-5))]).InBounds ∧
    ((cfgOf 5000 2 EMinimapStyle.eScaling).setPixelsPerLine 0).1.pixelsPerLine = 0 ∧
    ¬ ((cfgOf 5000 2 EMinimapStyle.eScaling).callAll
        [SetterCall.setPixelsPerLine 0]).InBounds := by
  refine ⟨by decide, ?_, by decide, ?_⟩
  · rintro ⟨h, _⟩
    exact absurd h (by decide)
  · rintro ⟨_, _, _, _, h⟩
    exact absurd h (by decide)

theorem call_inBounds (s : MinimapSettings) (c : SetterCall) (hc : c.InRange)
    (hs : s.InBounds) : (s.call c).InBounds := by
  obtain ⟨h1, h2, h3, h4, h5⟩ := hs
  simp only [MinimapSettings.width, MinimapSettings.lineCountThreshold, MinimapSettings.alpha,
    MinimapSettings.pixelsPerLine] at h1 h2 h3 h4 h5
  cases c <;>
    simp only [MinimapSettings.call, MinimapSettings.setEnabled, MinimapSettings.setWidth,
      MinimapSettings.setLineCountThreshold, MinimapSettings.setAlpha,
      MinimapSettings.setCenterOnClick, MinimapSettings.setShowLineTooltip,
      MinimapSettings.setPixelsPerLine, MinimapSettings.setStyle, SetterCall.InRange,
      MinimapSettings.InBounds, MinimapSettings.width, MinimapSettings.lineCountThreshold,
      MinimapSettings.alpha, MinimapSettings.pixelsPerLine] at hc ⊢ <;>
    split <;> simp only [] <;> omega

theorem callAll_inBounds (calls : List SetterCall) (s : MinimapSettings)
    (hc : ∀ c ∈ calls, c.InRange) (hs : s.InBounds) : (s.callAll calls).InBounds := by
  induction calls generalizing s with
  | nil => exact hs
  | cons c cs ih =>
    simp only [MinimapSettings.callAll]
    exact ih (s.call c) (fun d hd => hc d (List.mem_cons_of_mem _ hd))
      (call_inBounds s c (hc c (List.mem_cons_self _ _)) hs)

theorem int_value_cases (map : Store) (k : String) (d : Int) (P : Int → Prop) (hd : P d)
    (h : map.lookup k = none ∨ ∃ i : Int, map.lookup k = some (QVariant.int i) ∧ P i) :
    P (map.value k (QVariant.int d)).toInt := by
  unfold Store.value
  rcases h with h | ⟨i, h, hi⟩
  · rw [h]; exact hd
  · rw [h]; exact hi

/-- C16 amended: the getters return what `fromMap` read or a setter stored,
without clamping. The bounds `width >= 1`, `lineCountThreshold >= 1`,
`0 <= alpha <= 255`, `pixelsPerLine >= 1` are kept by every sequence of setter
calls whose arguments are within the bounds, by `fromMap` on every record whose
entries `Width`, `LineCountThresHold`, `Alpha` and `PixelsPerLine` are absent
or integers within the bounds, and so by `fromMap` on the record that `toMap`
writes for settings within the bounds. -/
theorem C16_bounds_preserved (s : MinimapSettings) (hs : s.InBounds) :
    (∀ calls : List SetterCall, (∀ c ∈ calls, c.InRange) → (s.callAll calls).InBounds) ∧
    (∀ map : Store,
      (map.lookup widthKey = none ∨
        ∃ i : Int, map.lookup widthKey = some (QVariant.int i) ∧ 1 ≤ i) →
      (map.lookup lineCountThresholdKey = none ∨
        ∃ i : Int, map.lookup lineCountThresholdKey = some (QVariant.int i) ∧ 1 ≤ i) →
      (map.lookup alphaKey = none ∨
        ∃ i : Int, map.lookup alphaKey = some (QVariant.int i) ∧ (0 ≤ i ∧ i ≤ 255)) →
      (map.lookup pixelsPerLineKey = none ∨
        ∃ i : Int, map.lookup pixelsPerLineKey = some (QVariant.int i) ∧ 1 ≤ i) →
      (s.fromMap map).InBounds) ∧
    (∀ t : MinimapSettings, (t.fromMap s.toMap).InBounds) := by
  refine ⟨fun calls hc => callAll_inBounds calls s hc hs, ?_, ?_⟩
  · intro map hw ht ha hp
    obtain ⟨h1, h2, h3, h4, h5⟩ := hs
    simp only [MinimapSettings.width, MinimapSettings.lineCountThreshold, MinimapSettings.alpha,
      MinimapSettings.pixelsPerLine] at h1 h2 h3 h4 h5
    have ha2 := int_value_cases map alphaKey s.m_alpha (fun i => 0 ≤ i ∧ i ≤ 255) ⟨h3, h4⟩ ha
    exact ⟨int_value_cases map widthKey s.m_width (fun i => 1 ≤ i) h1 hw,
      int_value_cases map lineCountThresholdKey s.m_lineCountThreshold (fun i => 1 ≤ i) h2 ht,
      ha2.1, ha2.2,
      int_value_cases map pixelsPerLineKey s.m_pixelsPerLine (fun i => 1 ≤ i) h5 hp⟩
  · intro t
    have : t.fromMap s.toMap = s := by
      rw [toMap_bindings]
      simp [MinimapSettings.fromMap, Store.value, List.lookup, styleKey, pixelsPerLineKey,
        showLineTooltipKey, centerOnClickKey, alphaKey, lineCountThresholdKey, widthKey,
        enabledKey, QVariant.toInt, QVariant.toBool]
    rw [this]
    exact hs

/-- C16 amended at settings within the bounds and the call `setWidth(30)`. -/
theorem C16_bounds_preserved_witness :
    ((cfgOf 5000 2 EMinimapStyle.eScaling).callAll [SetterCall.setWidth 30]).InBounds :=
  (C16_bounds_preserved (cfgOf 5000 2 EMinimapStyle.eScaling)
    ⟨by decide, by decide, by decide, by decide, by decide⟩).1 [SetterCall.setWidth 30]
    (by
      intro c hc
      rw [List.mem_singleton] at hc
      subst hc
      show (1 : Int) ≤ 30
      decide)

/-! ## The persisted record -/

theorem store_contains_iff (m : Store) (k : String) :
    m.contains k = true ↔ k ∈ m.map Prod.fst := by
  unfold Store.contains
  induction m with
  | nil => simp [List.lookup]
  | cons p m ih =>
    obtain ⟨a, b⟩ := p
    by_cases hk : k = a
    · subst hk
      simp [List.lookup]
    · have hne : (k == a) = false := by simpa using hk
      simp only [List.lookup, hne, List.map, List.mem_cons, hk, false_or]
      exact ih

/-- C17, as the code has it: the key of the threshold is spelled
`LineCountThresHold`. The record of `toMap` has no key `LineCountThreshold`,
and `fromMap` does not read that key. -/
theorem C17_threshold_key_spelling :
    (cfgOf 5000 2 EMinimapStyle.eScaling).toMap.contains "LineCountThreshold" = false ∧
    (cfgOf 5000 2 EMinimapStyle.eScaling).toMap.contains "LineCountThresHold" = true ∧
    ((cfgOf 5000 2 EMinimapStyle.eScaling).fromMap
        [("LineCountThreshold", QVariant.int 7)]).lineCountThreshold = 5000 ∧
    ((cfgOf 5000 2 EMinimapStyle.eScaling).fromMap
        [("LineCountThreshold", QVariant.int 7)]).lineCountThreshold ≠ 7 := by
  decide

/-- C17 amended: for every settings state the record of `toMap` has exactly the
eight keys `Enabled`, `Width`, `LineCountThresHold`, `Alpha`, `CenterOnClick`,
`ShowLineTooltip`, `PixelsPerLine`, `DisplayStyle`, each once, with the flags
stored as `bool`, the numbers as `int` and `DisplayStyle` as the integer code
of the style (0 for scaling, 1 for scrolling), and `fromMap` reads the
line-count threshold from the key `LineCountThresHold`. -/
theorem C17_record_format (s : MinimapSettings) :
    (∀ k : String, s.toMap.contains k = true ↔
      k ∈ ["Enabled", "Width", "LineCountThresHold", "Alpha", "CenterOnClick",
        "ShowLineTooltip", "PixelsPerLine", "DisplayStyle"]) ∧
    (s.toMap.map Prod.fst).Nodup ∧
    s.toMap.lookup "Enabled" = some (QVariant.bool s.enabled) ∧
    s.toMap.lookup "Width" = some (QVariant.int s.width) ∧
    s.toMap.lookup "LineCountThresHold" = some (QVariant.int s.lineCountThreshold) ∧
    s.toMap.lookup "Alpha" = some (QVariant.int s.alpha) ∧
    s.toMap.lookup "CenterOnClick" = some (QVariant.bool s.centerOnClick) ∧
    s.toMap.lookup "ShowLineTooltip" = some (QVariant.bool s.showLineTooltip) ∧
    s.toMap.lookup "PixelsPerLine" = some (QVariant.int s.pixelsPerLine) ∧
    s.toMap.lookup "DisplayStyle" = some (QVariant.int s.style) ∧
    EMinimapStyle.eScaling.toInt = 0 ∧ EMinimapStyle.eScrolling.toInt = 1 ∧
    (∀ n : Int, (s.fromMap [("LineCountThresHold", QVariant.int n)]).lineCountThreshold = n) := by
  rw [toMap_bindings]
  refine ⟨?_, ?_, ?_, ?_, ?_, ?_, ?_, ?_, ?_, ?_, rfl, rfl, ?_⟩
  · intro k
    rw [store_contains_iff]
    simp only [List.map, styleKey, pixelsPerLineKey, showLineTooltipKey, centerOnClickKey,
      alphaKey, lineCountThresholdKey, widthKey, enabledKey, List.mem_cons, List.mem_singleton,
      List.not_mem_nil, or_false]
    tauto
  · simp only [List.map]
    decide
  all_goals try intro n
  all_goals
    simp [List.lookup, styleKey, pixelsPerLineKey, showLineTooltipKey, centerOnClickKey,
      alphaKey, lineCountThresholdKey, widthKey, enabledKey, MinimapSettings.enabled,
      MinimapSettings.width, MinimapSettings.lineCountThreshold, MinimapSettings.alpha,
      MinimapSettings.centerOnClick, MinimapSettings.showLineTooltip,
      MinimapSettings.pixelsPerLine, MinimapSettings.style, MinimapSettings.fromMap,
      Store.value, QVariant.toInt]

/-! ## Round trip of the settings -/

/-- C18: for every settings state `s` and every prior state `t`, `fromMap` of
the record `toMap(s)` applied to `t` yields `s` (all eight fields), and `toMap`
of that state is the record `toMap(s)` again. -/
theorem C18_settings_round_trip (s t : MinimapSettings) :
    t.fromMap s.toMap = s ∧ (t.fromMap s.toMap).toMap = s.toMap := by
  have h : t.fromMap s.toMap = s := by
    rw [toMap_bindings]
    simp [MinimapSettings.fromMap, Store.value, List.lookup, styleKey, pixelsPerLineKey,
      showLineTooltipKey, centerOnClickKey, alphaKey, lineCountThresholdKey, widthKey,
      enabledKey, QVariant.toInt, QVariant.toBool]
  exact ⟨h, by rw [h]⟩

end Minimap

namespace Minimap

/-! ## Hit testing -/

/-- When the gate passes, `subControlRect` returns the rectangles of the style
object for the groove, the two pages and the slider and the null rectangle for
every other sub-control. -/
theorem subControlRect_of_gate (cfg : MinimapSettings) (base : SubControl → QRect)
    (o : MinimapStyleObject) (isSB : Bool) (sc : SubControl) (hen : cfg.enabled = true)
    (hgate : 0 < o.lineCount ∧ o.lineCount ≤ cfg.lineCountThreshold) :
    MinimapStyle.subControlRect cfg base ComplexControl.CC_ScrollBar sc (some ⟨isSB, some o⟩) =
      if sc = SC_ScrollBarGroove then o.m_groove
      else if sc = SC_ScrollBarAddPage then o.m_addPage
      else if sc = SC_ScrollBarSubPage then o.m_subPage
      else if sc = SC_ScrollBarSlider then o.m_slider
      else QRect.null := by
  simp only [MinimapStyle.subControlRect, hen, true_and, and_self, if_true, gt_iff_lt, hgate]

/-- The loop of the hit test has left by itself before its fuel runs out: more
fuel than the number of doublings that lead beyond `SC_ScrollBarGroove` gives
the same result. -/
theorem hitTestLoop_fuel (cfg : MinimapSettings) (base : SubControl → QRect)
    (control : ComplexControl) (px py : Int) (widget : Option Widget) (n extra ctrl : Nat)
    (h : SC_ScrollBarGroove < ctrl * 2 ^ n) :
    MinimapStyle.hitTestLoop cfg base control px py widget (n + extra) ctrl
      = MinimapStyle.hitTestLoop cfg base control px py widget n ctrl := by
  induction n generalizing ctrl with
  | zero =>
    simp only [pow_zero, mul_one] at h
    cases extra with
    | zero => rfl
    | succ e =>
      simp only [Nat.zero_add, MinimapStyle.hitTestLoop]
      rw [if_neg (not_le.mpr h)]
  | succ n ih =>
    have hs : n + 1 + extra = (n + extra) + 1 := by omega
    rw [hs]
    simp only [MinimapStyle.hitTestLoop]
    have h2 : SC_ScrollBarGroove < ctrl <<< 1 * 2 ^ n := by
      have : ctrl <<< 1 * 2 ^ n = ctrl * 2 ^ (n + 1) := by
        rw [Nat.shiftLeft_eq]
        ring
      rw [this]
      exact h
    rw [ih (ctrl <<< 1) h2]

theorem null_not_valid : QRect.null.isValid = false := by decide

/-- C19: when the minimap gate passes (enabled, a style object attached,
`0 < lineCount <= threshold`), `hitTestComplexControl` returns the groove for
every position if center-on-click is enabled; otherwise (for the slider option
of a scrollbar) it returns the first sub-control, in the order add-page,
sub-page, slider, groove, whose rectangle is valid and contains the position,
and `SC_None` if none does. The loop has left by itself within its nine
iterations. -/
theorem C19_hit_testing (cfg : MinimapSettings) (base : SubControl → QRect)
    (o : MinimapStyleObject) (isSB optionIsSlider : Bool) (px py : Int)
    (hen : cfg.enabled = true)
    (hgate : 0 < o.lineCount ∧ o.lineCount ≤ cfg.lineCountThreshold) :
    (cfg.centerOnClick = true →
      MinimapStyle.hitTestComplexControl cfg base ComplexControl.CC_ScrollBar optionIsSlider
        px py (some ⟨isSB, some o⟩) = some SC_ScrollBarGroove) ∧
    (cfg.centerOnClick = false → optionIsSlider = true →
      MinimapStyle.hitTestComplexControl cfg base ComplexControl.CC_ScrollBar optionIsSlider
        px py (some ⟨isSB, some o⟩) =
      some (if o.m_addPage.isValid = true ∧ o.m_addPage.contains px py = true then
          SC_ScrollBarAddPage
        else if o.m_subPage.isValid = true ∧ o.m_subPage.contains px py = true then
          SC_ScrollBarSubPage
        else if o.m_slider.isValid = true ∧ o.m_slider.contains px py = true then
          SC_ScrollBarSlider
        else if o.m_groove.isValid = true ∧ o.m_groove.contains px py = true then
          SC_ScrollBarGroove
        else SC_None)) ∧
    (∀ extra : Nat,
      MinimapStyle.hitTestLoop cfg base ComplexControl.CC_ScrollBar px py
          (some ⟨isSB, some o⟩) (9 + extra) SC_ScrollBarAddLine
        = MinimapStyle.hitTestLoop cfg base ComplexControl.CC_ScrollBar px py
          (some ⟨isSB, some o⟩) 9 SC_ScrollBarAddLine) := by
  refine ⟨?_, ?_, ?_⟩
  · intro hc
    simp only [MinimapStyle.hitTestComplexControl, hen, true_and, and_self, if_true, gt_iff_lt,
      hgate, hc]
  · intro hc hopt
    simp only [MinimapStyle.hitTestComplexControl, hen, true_and, and_self, if_true, gt_iff_lt,
      hgate, hc, hopt, Bool.false_eq_true, if_false]
    congr 1
    simp only [MinimapStyle.hitTestLoop, subControlRect_of_gate cfg base o isSB _ hen hgate]
    simp [SC_ScrollBarAddLine, SC_ScrollBarGroove, SC_ScrollBarAddPage, SC_ScrollBarSubPage,
      SC_ScrollBarSlider, SC_None, null_not_valid]
  · intro extra
    exact hitTestLoop_fuel cfg base _ px py _ 9 extra SC_ScrollBarAddLine (by decide)

/-- C19 at a slider `[100, 140)` between the two pages and a press at height
120, with center-on-click switched off: the slider is hit. -/
theorem C19_hit_testing_witness :
    MinimapStyle.hitTestComplexControl
        { cfgOf 5000 1 EMinimapStyle.eScaling with m_centerOnClick := false }
        (fun _ => QRect.null) ComplexControl.CC_ScrollBar true 10 120
        (some ⟨true, some { MinimapStyleObject.construct EMinimapStyle.eScaling with
          m_lineCount := 1000, m_groove := ⟨27, 0, 13, 400⟩, m_subPage := ⟨0, 0, 40, 100⟩,
          m_slider := ⟨0, 100, 40, 40⟩, m_addPage := ⟨0, 140, 40, 260⟩ }⟩)
      = some SC_ScrollBarSlider :=
  ((C19_hit_testing { cfgOf 5000 1 EMinimapStyle.eScaling with m_centerOnClick := false }
    (fun _ => QRect.null)
    { MinimapStyleObject.construct EMinimapStyle.eScaling with
      m_lineCount := 1000, m_groove := ⟨27, 0, 13, 400⟩, m_subPage := ⟨0, 0, 40, 100⟩,
      m_slider := ⟨0, 100, 40, 40⟩, m_addPage := ⟨0, 140, 40, 260⟩ }
    true true 10 120 (by decide) (by decide)).2.1 (by decide) (by decide)).trans (by decide)

end Minimap

namespace Minimap

/-! ## The drag state machine -/

/-- A step keeps the invariant: the drag flag is set only while center-on-click
is enabled. -/
theorem drag_step_invariant (s : DragSystem) (ev : DragEvent)
    (h : s.obj.m_isDragging = true → s.cfg.centerOnClick = true) :
    (s.step ev).1.obj.m_isDragging = true → (s.step ev).1.cfg.centerOnClick = true := by
  cases ev with
  | mouse event =>
    simp only [DragSystem.step, MinimapStyleObject.eventFilter]
    cases event with
    | Resize => simpa using h
    | Other => simpa using h
    | MouseButtonPress button pos =>
      by_cases hb : button = MouseButton.LeftButton
      · by_cases hc : s.cfg.centerOnClick = true
        · simp [hb, hc]
        · simp [hb, hc]
          exact Bool.eq_false_iff.mpr (fun hd => hc (h hd))
      · simpa [hb] using h
    | MouseButtonRelease button =>
      by_cases hb : button = MouseButton.LeftButton
      · by_cases hc : s.obj.m_isDragging = true ∧ s.cfg.centerOnClick = true
        · simp [hb, hc]
        · simp [hb, hc]
          exact h
      · simpa [hb] using h
    | MouseMove pos leftDown =>
      by_cases hc : s.obj.m_isDragging = true ∧ s.cfg.centerOnClick = true
      · simp [hc]
      · simp [hc]
        exact h
  | setCenterOnClick v =>
    simp only [DragSystem.step, MinimapSettings.setCenterOnClick,
      MinimapStyleObject.centerOnClickChanged, MinimapSettings.centerOnClick] at h ⊢
    by_cases hv : s.cfg.m_centerOnClick = v
    · simp only [hv, ne_eq, not_true_eq_false, if_false, List.any_nil, Bool.false_eq_true]
      rw [hv] at h
      exact h
    · cases v <;> simp [hv]

/-- Switching center-on-click off through the setter clears the drag flag at
once. -/
theorem drag_cleared_by_switch_off (s : DragSystem)
    (h : s.obj.m_isDragging = true → s.cfg.centerOnClick = true) :
    (s.step (DragEvent.setCenterOnClick false)).1.obj.m_isDragging = false ∧
    (s.step (DragEvent.setCenterOnClick false)).1.cfg.centerOnClick = false := by
  simp only [DragSystem.step, MinimapSettings.setCenterOnClick,
    MinimapStyleObject.centerOnClickChanged, MinimapSettings.centerOnClick] at h ⊢
  by_cases hv : s.cfg.m_centerOnClick = false
  · simp only [hv, ne_eq, not_true_eq_false, if_false, List.any_nil, Bool.false_eq_true,
      and_true]
    cases hd : s.obj.m_isDragging with
    | false => rfl
    | true =>
      have := h hd
      rw [hv] at this
      exact absurd this (by decide)
  · simp [hv]

/-- Without the drag flag a mouse move is not handled, makes no scroll update
and leaves the flag unset. -/
theorem move_without_drag (s : DragSystem) (pos : Int × Int) (leftDown : Bool)
    (h : s.obj.m_isDragging = false) :
    (s.step (DragEvent.mouse (QEvent.MouseMove pos leftDown))).2.1 = false ∧
    DragSystem.scrolls (s.step (DragEvent.mouse (QEvent.MouseMove pos leftDown))).2.2 = false ∧
    (s.step (DragEvent.mouse (QEvent.MouseMove pos leftDown))).1.obj.m_isDragging = false := by
  have hc : ¬ (s.obj.m_isDragging = true ∧ s.cfg.centerOnClick = true) := by simp [h]
  simp only [DragSystem.step, MinimapStyleObject.eventFilter]
  simp only [reduceCtorEq, and_false, if_false, if_true, hc, List.nil_append, true_and]
  refine ⟨?_, h⟩
  split <;> simp [DragSystem.scrolls]

/-- The drag flag is set only by a press of the left button while
center-on-click is enabled. -/
theorem drag_starts_only_by_press (s : DragSystem) (ev : DragEvent)
    (h : s.obj.m_isDragging = false) (h2 : (s.step ev).1.obj.m_isDragging = true) :
    ∃ pos, ev = DragEvent.mouse (QEvent.MouseButtonPress MouseButton.LeftButton pos) ∧
      s.cfg.centerOnClick = true := by
  cases ev with
  | mouse event =>
    cases event with
    | Resize => simp [DragSystem.step, MinimapStyleObject.eventFilter, h] at h2
    | Other => simp [DragSystem.step, MinimapStyleObject.eventFilter, h] at h2
    | MouseButtonPress button pos =>
      by_cases hb : button = MouseButton.LeftButton
      · subst hb
        by_cases hc : s.cfg.centerOnClick = true
        · exact ⟨pos, rfl, hc⟩
        · simp [DragSystem.step, MinimapStyleObject.eventFilter, hc, h] at h2
      · simp [DragSystem.step, MinimapStyleObject.eventFilter, hb, h] at h2
    | MouseButtonRelease button =>
      by_cases hb : button = MouseButton.LeftButton
      · simp [DragSystem.step, MinimapStyleObject.eventFilter, hb, h] at h2
      · simp [DragSystem.step, MinimapStyleObject.eventFilter, hb, h] at h2
    | MouseMove pos leftDown =>
      simp [DragSystem.step, MinimapStyleObject.eventFilter, h] at h2
  | setCenterOnClick v =>
    simp only [DragSystem.step, MinimapSettings.setCenterOnClick,
      MinimapStyleObject.centerOnClickChanged] at h2
    by_cases hv : s.cfg.m_centerOnClick = v
    · simp [hv, h] at h2
    · cases v <;> simp [hv, h, MinimapSettings.centerOnClick] at h2

theorem drag_run_invariant (events : List DragEvent) (s : DragSystem)
    (h : s.obj.m_isDragging = true → s.cfg.centerOnClick = true) :
    (s.run events).obj.m_isDragging = true → (s.run events).cfg.centerOnClick = true := by
  induction events generalizing s with
  | nil => exact h
  | cons ev evs ih => exact ih (s.step ev).1 (drag_step_invariant s ev h)

theorem drag_run_without_press (events : List DragEvent) (s : DragSystem)
    (h : s.obj.m_isDragging = false)
    (hp : ∀ pos, DragEvent.mouse (QEvent.MouseButtonPress MouseButton.LeftButton pos) ∉ events) :
    (s.run events).obj.m_isDragging = false := by
  induction events generalizing s with
  | nil => exact h
  | cons ev evs ih =>
    apply ih
    · cases hd : (s.step ev).1.obj.m_isDragging with
      | false => rfl
      | true =>
        obtain ⟨pos, hev, _⟩ := drag_starts_only_by_press s ev h hd
        exact absurd (hev ▸ List.mem_cons_self _ _) (hp pos)
    · intro pos hmem
      exact hp pos (List.mem_cons_of_mem _ hmem)

/-- C20: in every state that the drag state machine reaches from a state
without a drag (events: mouse press, move and release on the scrollbar, change
of center-on-click through its setter), the drag flag being set implies that
center-on-click is enabled; switching center-on-click off clears the flag at
once; from then on, as long as no press of the left button arrives, the flag
stays unset; and in a state without the flag a mouse move makes no scroll
update and is reported as unhandled. The flag is set again only by a press of
the left button while center-on-click is enabled. -/
theorem C20_drag_cleared_by_disabling (s0 : DragSystem) (events : List DragEvent)
    (h0 : s0.obj.m_isDragging = false) :
    ((s0.run events).obj.m_isDragging = true → (s0.run events).cfg.centerOnClick = true) ∧
    ((s0.run events).step (DragEvent.setCenterOnClick false)).1.obj.m_isDragging = false ∧
    (∀ later : List DragEvent,
      (∀ pos, DragEvent.mouse (QEvent.MouseButtonPress MouseButton.LeftButton pos) ∉ later) →
      ((((s0.run events).step (DragEvent.setCenterOnClick false)).1.run later).obj.m_isDragging
          = false ∧
        ∀ pos leftDown,
          ((((s0.run events).step (DragEvent.setCenterOnClick false)).1.run later).step
              (DragEvent.mouse (QEvent.MouseMove pos leftDown))).2.1 = false ∧
          DragSystem.scrolls
            ((((s0.run events).step (DragEvent.setCenterOnClick false)).1.run later).step
              (DragEvent.mouse (QEvent.MouseMove pos leftDown))).2.2 = false)) ∧
    (∀ (s : DragSystem) (ev : DragEvent), s.obj.m_isDragging = false →
      (s.step ev).1.obj.m_isDragging = true →
      ∃ pos, ev = DragEvent.mouse (QEvent.MouseButtonPress MouseButton.LeftButton pos) ∧
        s.cfg.centerOnClick = true) := by
  have hinv := drag_run_invariant events s0 (fun h => by rw [h0] at h; exact absurd h (by decide))
  have hoff := drag_cleared_by_switch_off (s0.run events) hinv
  refine ⟨hinv, hoff.1, ?_, drag_starts_only_by_press⟩
  intro later hp
  have hl := drag_run_without_press later _ hoff.1 hp
  refine ⟨hl, fun pos leftDown => ?_⟩
  obtain ⟨h1, h2, _⟩ := move_without_drag _ pos leftDown hl
  exact ⟨h1, h2⟩

/-- C20 at a press, a move, and the switch-off in the middle of the drag: the
flag is cleared. -/
theorem C20_drag_cleared_by_disabling_witness :
    ((({ cfg := cfgOf 5000 2 EMinimapStyle.eScaling,
          obj := MinimapStyleObject.construct EMinimapStyle.eScaling } : DragSystem).run
        [DragEvent.mouse (QEvent.MouseButtonPress MouseButton.LeftButton (5, 100)),
          DragEvent.mouse (QEvent.MouseMove (5, 120) true)]).step
      (DragEvent.setCenterOnClick false)).1.obj.m_isDragging = false :=
  (C20_drag_cleared_by_disabling
    { cfg := cfgOf 5000 2 EMinimapStyle.eScaling,
      obj := MinimapStyleObject.construct EMinimapStyle.eScaling }
    [DragEvent.mouse (QEvent.MouseButtonPress MouseButton.LeftButton (5, 100)),
      DragEvent.mouse (QEvent.MouseMove (5, 120) true)] (by decide)).2.1

end Minimap

namespace Minimap

/-! ## Mouse release -/

/-- C21, as the code has it: only a release of the left button ends the drag.
After a press of the left button with center-on-click enabled, a release of the
right button leaves the drag flag set. -/
theorem C21_right_release_keeps_drag :
    ((({ cfg := cfgOf 5000 2 EMinimapStyle.eScaling,
          obj := MinimapStyleObject.construct EMinimapStyle.eScaling } : DragSystem).run
        [DragEvent.mouse (QEvent.MouseButtonPress MouseButton.LeftButton (5, 100))]).step
      (DragEvent.mouse (QEvent.MouseButtonRelease MouseButton.RightButton))).1.obj.m_isDragging
      = true := by
  decide

/-- A release of the left button clears the drag flag in every state in which
the flag implies that center-on-click is enabled. -/
theorem left_release_clears_drag (s : DragSystem)
    (h : s.obj.m_isDragging = true → s.cfg.centerOnClick = true) :
    (s.step (DragEvent.mouse (QEvent.MouseButtonRelease MouseButton.LeftButton))).1.obj.m_isDragging
      = false := by
  simp only [DragSystem.step, MinimapStyleObject.eventFilter]
  by_cases hd : s.obj.m_isDragging = true
  · simp [hd, h hd]
  · simp [hd]

/-- A release of another button changes nothing and is not handled. -/
theorem other_release_ignored (s : DragSystem) (button : MouseButton)
    (hb : button ≠ MouseButton.LeftButton) :
    s.step (DragEvent.mouse (QEvent.MouseButtonRelease button)) = (s, false, []) := by
  simp [DragSystem.step, MinimapStyleObject.eventFilter, hb]

/-- C21 amended: in every state that the drag state machine reaches from a
state without a drag, and whatever the settings, a release of the left button
delivered to the scrollbar leaves the drag flag `false`; a release of any other
button is ignored: it is not handled and leaves the state, the drag flag
included, as it was. -/
theorem C21_release_ends_drag (s0 : DragSystem) (events : List DragEvent)
    (h0 : s0.obj.m_isDragging = false) :
    ((s0.run events).step
        (DragEvent.mouse (QEvent.MouseButtonRelease MouseButton.LeftButton))).1.obj.m_isDragging
      = false ∧
    (∀ button : MouseButton, button ≠ MouseButton.LeftButton →
      (s0.run events).step (DragEvent.mouse (QEvent.MouseButtonRelease button))
        = (s0.run events, false, [])) := by
  have hinv := drag_run_invariant events s0 (fun h => by rw [h0] at h; exact absurd h (by decide))
  exact ⟨left_release_clears_drag _ hinv, fun button hb => other_release_ignored _ button hb⟩

/-- C21 amended after a press and a move: the release of the left button ends
the drag. -/
theorem C21_release_ends_drag_witness :
    ((({ cfg := cfgOf 5000 2 EMinimapStyle.eScaling,
          obj := MinimapStyleObject.construct EMinimapStyle.eScaling } : DragSystem).run
        [DragEvent.mouse (QEvent.MouseButtonPress MouseButton.LeftButton (5, 100)),
          DragEvent.mouse (QEvent.MouseMove (5, 120) true)]).step
      (DragEvent.mouse (QEvent.MouseButtonRelease MouseButton.LeftButton))).1.obj.m_isDragging
      = false :=
  (C21_release_ends_drag
    { cfg := cfgOf 5000 2 EMinimapStyle.eScaling,
      obj := MinimapStyleObject.construct EMinimapStyle.eScaling }
    [DragEvent.mouse (QEvent.MouseButtonPress MouseButton.LeftButton (5, 100)),
      DragEvent.mouse (QEvent.MouseMove (5, 120) true)] (by decide)).1

/-! ## Coalescing of deferred updates -/

theorem update_clears_flag (cfg : MinimapSettings) (e : Host) (o : MinimapStyleObject) :
    (o.update cfg e).m_update = false := by
  unfold MinimapStyleObject.update
  split <;> rfl

theorem queue_step_invariant (q : UpdateQueue) (ev : UpdateEvent)
    (h : q.pending ≤ 1 ∧ (q.pending = 1 ↔ q.obj.m_update = true)) :
    (q.step ev).pending ≤ 1 ∧ ((q.step ev).pending = 1 ↔ (q.step ev).obj.m_update = true) := by
  obtain ⟨h1, h2⟩ := h
  cases ev with
  | deferedUpdate =>
    simp only [UpdateQueue.step, MinimapStyleObject.deferedUpdate]
    by_cases hu : q.obj.m_update = true
    · simp [hu, h2.mpr hu]
    · have hp : q.pending = 0 := by
        have : q.pending ≠ 1 := fun hp => hu (h2.mp hp)
        omega
      simp [hu, hp]
  | timeout cfg e =>
    simp only [UpdateQueue.step]
    by_cases hp : q.pending = 0
    · simp only [hp, if_true]
      exact ⟨by omega, by rw [hp] at h2; exact h2⟩
    · have hp1 : q.pending = 1 := by omega
      simp [hp1, update_clears_flag]

theorem queue_run_invariant (events : List UpdateEvent) (q : UpdateQueue)
    (h : q.pending ≤ 1 ∧ (q.pending = 1 ↔ q.obj.m_update = true)) :
    (q.run events).pending ≤ 1 ∧
      ((q.run events).pending = 1 ↔ (q.run events).obj.m_update = true) := by
  induction events generalizing q with
  | nil => exact h
  | cons ev evs ih => exact ih (q.step ev) (queue_step_invariant q ev h)

theorem queue_calls_pending (n : Nat) (q : UpdateQueue)
    (h : q.pending ≤ 1 ∧ (q.pending = 1 ↔ q.obj.m_update = true)) :
    (q.run (List.replicate (n + 1) UpdateEvent.deferedUpdate)).pending = 1 := by
  induction n generalizing q with
  | zero =>
    obtain ⟨h1, h2⟩ := h
    simp only [List.replicate, UpdateQueue.run, UpdateQueue.step,
      MinimapStyleObject.deferedUpdate]
    by_cases hu : q.obj.m_update = true
    · simp [hu, h2.mpr hu]
    · have hp : q.pending = 0 := by
        have : q.pending ≠ 1 := fun hp => hu (h2.mp hp)
        omega
      simp [hu, hp]
  | succ n ih =>
    rw [List.replicate_succ, UpdateQueue.run]
    exact ih _ (queue_step_invariant q _ h)

/-- C22: starting from a style object without a pending update, in every
reachable state of the update queue at most one deferred update is pending, and
one is pending exactly when `m_update` is set; from a reachable state with none
pending, any number `n + 1` of `deferedUpdate` calls leaves exactly one update
scheduled; and when `update()` then runs, the flag `m_update` is `false` again
and nothing is pending. -/
theorem C22_deferred_updates_coalesce (o : MinimapStyleObject) (events : List UpdateEvent)
    (h0 : o.m_update = false) :
    ((UpdateQueue.mk o 0).run events).pending ≤ 1 ∧
    (((UpdateQueue.mk o 0).run events).pending = 1 ↔
      ((UpdateQueue.mk o 0).run events).obj.m_update = true) ∧
    (∀ (n : Nat) (cfg : MinimapSettings) (e : Host),
      ((UpdateQueue.mk o 0).run events).pending = 0 →
      (((UpdateQueue.mk o 0).run events).run
          (List.replicate (n + 1) UpdateEvent.deferedUpdate)).pending = 1 ∧
      ((((UpdateQueue.mk o 0).run events).run
          (List.replicate (n + 1) UpdateEvent.deferedUpdate)).step
            (UpdateEvent.timeout cfg e)).pending = 0 ∧
      ((((UpdateQueue.mk o 0).run events).run
          (List.replicate (n + 1) UpdateEvent.deferedUpdate)).step
            (UpdateEvent.timeout cfg e)).obj.m_update = false ∧
      ((((UpdateQueue.mk o 0).run events).run
          (List.replicate (n + 1) UpdateEvent.deferedUpdate)).step
            (UpdateEvent.timeout cfg e)).obj
        = (((UpdateQueue.mk o 0).run events).run
            (List.replicate (n + 1) UpdateEvent.deferedUpdate)).obj.update cfg e) := by
  have hinit : (UpdateQueue.mk o 0).pending ≤ 1 ∧
      ((UpdateQueue.mk o 0).pending = 1 ↔ (UpdateQueue.mk o 0).obj.m_update = true) := by
    simp [h0]
  have hq := queue_run_invariant events _ hinit
  refine ⟨hq.1, hq.2, ?_⟩
  intro n cfg e _
  have hp := queue_calls_pending n _ hq
  refine ⟨hp, ?_, ?_, ?_⟩ <;> simp [UpdateQueue.step, hp, update_clears_flag]

/-- C22 on a burst: three requests after a finished update schedule one update,
which clears the flag. -/
theorem C22_deferred_updates_coalesce_witness :
    (((UpdateQueue.mk (MinimapStyleObject.construct EMinimapStyle.eScaling) 0).run
        [UpdateEvent.deferedUpdate,
          UpdateEvent.timeout (cfgOf 5000 2 EMinimapStyle.eScaling) (hostOf 100 400 16 0 0 75)]).run
        (List.replicate (2 + 1) UpdateEvent.deferedUpdate)).pending = 1 :=
  ((C22_deferred_updates_coalesce (MinimapStyleObject.construct EMinimapStyle.eScaling)
    [UpdateEvent.deferedUpdate,
      UpdateEvent.timeout (cfgOf 5000 2 EMinimapStyle.eScaling) (hostOf 100 400 16 0 0 75)]
    (by decide)).2.2 2 (cfgOf 5000 2 EMinimapStyle.eScaling) (hostOf 100 400 16 0 0 75)
    (by decide!)).1

end Minimap

namespace Minimap

/-! ## Decimation of the scaling strategy -/

theorem qRound_zero : qRound (0 : ℚ) = 0 := by
  simpa using qRound_intCast 0

theorem qRound_add_one_le {d s : ℚ} (hd : 0 ≤ d) (hs : 1 ≤ s) :
    qRound d + 1 ≤ qRound (d + s) := by
  rw [qRound_of_nonneg hd, qRound_of_nonneg (by linarith), ← Int.floor_add_one]
  exact Int.floor_le_floor (by linarith)

theorem qRound_mono_of_nonneg {a b : ℚ} (ha : 0 ≤ a) (hab : a ≤ b) : qRound a ≤ qRound b := by
  rw [qRound_of_nonneg ha, qRound_of_nonneg (le_trans ha hab)]
  exact Int.floor_le_floor (by linarith)

theorem qRound_steps_strictMono {s : ℚ} (hs : 1 ≤ s) {j k : Nat} (hjk : j < k) :
    qRound ((j : ℚ) * s) < qRound ((k : ℚ) * s) := by
  have hj : (0 : ℚ) ≤ (j : ℚ) * s := mul_nonneg (Nat.cast_nonneg j) (by linarith)
  have h1 : qRound ((j : ℚ) * s) + 1 ≤ qRound ((j : ℚ) * s + s) := qRound_add_one_le hj hs
  have hk : (j : ℚ) + 1 ≤ (k : ℚ) := by exact_mod_cast hjk
  have h2 : (j : ℚ) * s + s ≤ (k : ℚ) * s := by nlinarith
  have h3 := qRound_mono_of_nonneg (by linarith) h2
  omega

theorem qRound_steps_mono {s : ℚ} (hs : 1 ≤ s) {j k : Nat} (hjk : j ≤ k) :
    qRound ((j : ℚ) * s) ≤ qRound ((k : ℚ) * s) := by
  rcases Nat.lt_or_eq_of_le hjk with h | h
  · exact le_of_lt (qRound_steps_strictMono hs h)
  · rw [h]

theorem scaling_drawBlock_hidden (qc : QColorModel) (cfg : MinimapSettings) (e : Host)
    (o : MinimapStyleObject) (doc : Document) (step : ℚ) (w : Int) (st : RenderState)
    (b : QTextBlock) (hb : b.isVisible = false) :
    Scaling.drawBlock qc cfg e o doc step w st b = st := by
  simp [Scaling.drawBlock, hb]

theorem keptLines_append (l1 l2 : List LineEvent) :
    keptLines (l1 ++ l2) = keptLines l1 ++ keptLines l2 := by
  simp [keptLines]

theorem scaling_drawBlock_kept (qc : QColorModel) (cfg : MinimapSettings) (e : Host)
    (o : MinimapStyleObject) (doc : Document) (step : ℚ) (w : Int) (st : RenderState)
    (b : QTextBlock) (hb : b.isVisible = true) (hk : qRound st.r = st.i) :
    (Scaling.drawBlock qc cfg e o doc step w st b).y = st.y + 1 ∧
    (Scaling.drawBlock qc cfg e o doc step w st b).i = st.i + 1 ∧
    (Scaling.drawBlock qc cfg e o doc step w st b).r = st.r + step ∧
    keptLines (Scaling.drawBlock qc cfg e o doc step w st b).log
      = keptLines st.log ++ [(st.i, st.y)] := by
  simp [Scaling.drawBlock, hb, hk, keptLines_append, keptLines]

theorem scaling_drawBlock_skipped (qc : QColorModel) (cfg : MinimapSettings) (e : Host)
    (o : MinimapStyleObject) (doc : Document) (step : ℚ) (w : Int) (st : RenderState)
    (b : QTextBlock) (hb : b.isVisible = true) (hk : qRound st.r ≠ st.i) :
    (Scaling.drawBlock qc cfg e o doc step w st b).y = st.y ∧
    (Scaling.drawBlock qc cfg e o doc step w st b).i = st.i + 1 ∧
    (Scaling.drawBlock qc cfg e o doc step w st b).r = st.r ∧
    keptLines (Scaling.drawBlock qc cfg e o doc step w st b).log = keptLines st.log := by
  simp [Scaling.drawBlock, hb, hk, keptLines_append, keptLines]

theorem scaling_drawBlock_decimated (qc : QColorModel) (cfg : MinimapSettings) (e : Host)
    (o : MinimapStyleObject) (doc : Document) (step : ℚ) (w : Int) (hs : 1 ≤ step)
    (st : RenderState) (b : QTextBlock) (n : Nat) (hb : b.isVisible = true)
    (hinv : Scaling.Decimated step n st) :
    Scaling.Decimated step (n + 1) (Scaling.drawBlock qc cfg e o doc step w st b) ∧
    (Scaling.drawBlock qc cfg e o doc step w st b).y ≤ st.y + 1 := by
  obtain ⟨Y, hy, hr, hi, hlog, hlt, hle⟩ := hinv
  by_cases hk : qRound st.r = st.i
  · obtain ⟨h1, h2, h3, h4⟩ := scaling_drawBlock_kept qc cfg e o doc step w st b hb hk
    refine ⟨⟨Y + 1, ?_, ?_, ?_, ?_, ?_, ?_⟩, by omega⟩
    · rw [h1, hy]; push_cast; ring
    · rw [h3, hr]; push_cast; ring
    · rw [h2, hi]; push_cast; ring
    · rw [h4, hlog, List.range_succ, List.map_append]
      have : st.i = qRound ((Y : ℚ) * step) := by rw [← hk, hr]
      simp [this, hy]
    · intro k hkY
      rw [h2]
      rcases Nat.lt_or_eq_of_le (Nat.lt_succ_iff.mp hkY) with h | h
      · have := hlt k h
        omega
      · rw [h, ← hr, hk]
        omega
    · rw [h2]
      have hY : (0 : ℚ) ≤ (Y : ℚ) * step := mul_nonneg (Nat.cast_nonneg Y) (by linarith)
      have := qRound_add_one_le hY hs
      have e1 : ((Y + 1 : Nat) : ℚ) * step = (Y : ℚ) * step + step := by push_cast; ring
      rw [e1]
      rw [hr] at hk
      omega
  · obtain ⟨h1, h2, h3, h4⟩ := scaling_drawBlock_skipped qc cfg e o doc step w st b hb hk
    refine ⟨⟨Y, ?_, ?_, ?_, ?_, ?_, ?_⟩, by omega⟩
    · rw [h1, hy]
    · rw [h3, hr]
    · rw [h2, hi]; push_cast; ring
    · rw [h4, hlog]
    · intro k hkY
      rw [h2]
      have := hlt k hkY
      omega
    · rw [h2]
      rw [hr] at hk
      omega

theorem scaling_drawLoop_decimated (qc : QColorModel) (cfg : MinimapSettings) (e : Host)
    (o : MinimapStyleObject) (doc : Document) (h : Int) (step : ℚ) (w : Int) (hs : 1 ≤ step)
    (bs : List QTextBlock) (st : RenderState) (n : Nat)
    (hinv : Scaling.Decimated step n st) (hy : st.y ≤ h) :
    ∃ m : Nat, Scaling.Decimated step m (Scaling.drawLoop qc cfg e o doc h step w bs st) ∧
      (Scaling.drawLoop qc cfg e o doc h step w bs st).y ≤ h ∧
      m ≤ n + visibleCount bs ∧
      ((Scaling.drawLoop qc cfg e o doc h step w bs st).y = h ∨ m = n + visibleCount bs) := by
  induction bs generalizing st n with
  | nil => exact ⟨n, hinv, hy, by simp [visibleCount], Or.inr (by simp [visibleCount])⟩
  | cons b bs ih =>
    rw [Scaling.drawLoop]
    by_cases hlt : st.y < h
    · rw [if_pos hlt]
      by_cases hb : b.isVisible = true
      · obtain ⟨hd, hy1⟩ := scaling_drawBlock_decimated qc cfg e o doc step w hs st b n hb hinv
        obtain ⟨m, hm1, hm2, hm3, hm4⟩ := ih _ (n + 1) hd (by omega)
        have hv : visibleCount (b :: bs) = visibleCount bs + 1 := by
          simp [visibleCount, hb]
        exact ⟨m, hm1, hm2, by omega, by rcases hm4 with h4 | h4
                                         · exact Or.inl h4
                                         · exact Or.inr (by omega)⟩
      · have hb0 : b.isVisible = false := by simpa using hb
        rw [scaling_drawBlock_hidden qc cfg e o doc step w st b hb0]
        obtain ⟨m, hm1, hm2, hm3, hm4⟩ := ih st n hinv hy
        have hv : visibleCount (b :: bs) = visibleCount bs := by
          simp [visibleCount, hb0]
        exact ⟨m, hm1, hm2, by omega, by rw [hv]; exact hm4⟩
    · rw [if_neg hlt]
      exact ⟨n, hinv, hy, by omega, Or.inl (by omega)⟩

theorem scaling_drawMinimapImage_isSome (qc : QColorModel) (cfg : MinimapSettings) (e : Host)
    (o : MinimapStyleObject) (doc : Document) (hdraw : Scaling.drawMinimap cfg e o = true) :
    e.textWrapping = false ∧
    0 < MinimapStyleObject.width cfg e - e.MINIMAP_EXTRA_AREA_WIDTH ∧
    0 < (if o.m_factor < 1 then o.lineCount else e.editorHeight) ∧
    Scaling.drawMinimapImage qc cfg e o doc =
      some (Scaling.drawLoop qc cfg e o doc
        (if o.m_factor < 1 then o.lineCount else e.editorHeight) (1 / o.m_factor)
        (MinimapStyleObject.width cfg e - e.MINIMAP_EXTRA_AREA_WIDTH) doc.blocks
        { image := fill doc.background, y := 0, i := 0, r := 0, folded := false
          revision := 0, group := [], log := [] }) := by
  unfold Scaling.drawMinimap at hdraw
  by_cases htw : e.textWrapping = true
  · rw [if_pos htw] at hdraw
    exact absurd hdraw (by decide)
  · have htw0 : e.textWrapping = false := by simpa using htw
    rw [if_neg htw] at hdraw
    dsimp only at hdraw
    by_cases hg : MinimapStyleObject.width cfg e - e.MINIMAP_EXTRA_AREA_WIDTH ≤ 0 ∨
        (if o.m_factor < 1 then o.lineCount else e.editorHeight) ≤ 0
    · rw [if_pos hg] at hdraw
      exact absurd hdraw (by decide)
    · have hg1 := not_or.mp hg
      refine ⟨htw0, not_le.mp hg1.1, not_le.mp hg1.2, ?_⟩
      unfold Scaling.drawMinimapImage
      rw [if_neg htw]
      dsimp only
      rw [if_neg hg]

/-- C23: whenever the scaling `drawMinimap` draws (no text wrapping, a strip
and a loop bound `h` of at least one pixel) with a step `s = 1 / m_factor` of
at least 1, it returns a state whose kept lines are exactly the pairs
`(qRound (k * s), k)` for `k < K` in this order: the `k`-th kept line is the
visible line `qRound (k * s)` and goes to output row `k`. `K` is fixed by the
number `N` of visible lines, the step and the loop bound `h` alone: `k < K` iff
`k < h` and `qRound (k * s) < N`. The kept indices are strictly increasing in
`k`, and a document with a visible line has line 0 kept in row 0. -/
theorem C23_decimation (qc : QColorModel) (cfg : MinimapSettings) (e : Host)
    (o : MinimapStyleObject) (doc : Document)
    (hdraw : Scaling.drawMinimap cfg e o = true) (hs : 1 ≤ 1 / o.m_factor) :
    ∃ (st : RenderState) (K : Nat),
      Scaling.drawMinimapImage qc cfg e o doc = some st ∧
      keptLines st.log
        = (List.range K).map (fun k : Nat => (qRound ((k : ℚ) * (1 / o.m_factor)), (k : Int))) ∧
      (∀ k : Nat, k < K ↔
        ((k : Int) < (if o.m_factor < 1 then o.lineCount else e.editorHeight) ∧
          qRound ((k : ℚ) * (1 / o.m_factor)) < (visibleCount doc.blocks : Int))) ∧
      (∀ j k : Nat, j < k →
        qRound ((j : ℚ) * (1 / o.m_factor)) < qRound ((k : ℚ) * (1 / o.m_factor))) ∧
      (0 < visibleCount doc.blocks → (keptLines st.log).head? = some (0, 0)) := by
  obtain ⟨_, _, hh, hsome⟩ := scaling_drawMinimapImage_isSome qc cfg e o doc hdraw
  have hinit : Scaling.Decimated (1 / o.m_factor) 0
      { image := fill doc.background, y := 0, i := 0, r := 0, folded := false
        revision := 0, group := [], log := [] } := by
    refine ⟨0, by simp, by simp, by simp, by simp [keptLines], ?_, ?_⟩
    · intro k hk; omega
    · show (0 : Int) ≤ qRound (((0 : Nat) : ℚ) * (1 / o.m_factor))
      rw [Nat.cast_zero, zero_mul, qRound_zero]
  obtain ⟨m, ⟨Y, hy, hr, hi, hlog, hlt, hle⟩, hyh, hm, hor⟩ :=
    scaling_drawLoop_decimated qc cfg e o doc
      (if o.m_factor < 1 then o.lineCount else e.editorHeight) (1 / o.m_factor)
      (MinimapStyleObject.width cfg e - e.MINIMAP_EXTRA_AREA_WIDTH) hs doc.blocks _ 0 hinit
      (by simp only; omega)
  have hK : ∀ k : Nat, k < Y ↔
      ((k : Int) < (if o.m_factor < 1 then o.lineCount else e.editorHeight) ∧
        qRound ((k : ℚ) * (1 / o.m_factor)) < (visibleCount doc.blocks : Int)) := by
    intro k
    constructor
    · intro hk
      have h1 := hlt k hk
      refine ⟨by omega, by omega⟩
    · rintro ⟨hk1, hk2⟩
      by_contra hge
      have hge1 : Y ≤ k := not_lt.mp hge
      rcases hor with h4 | h4
      · omega
      · have := qRound_steps_mono hs hge1
        omega
  refine ⟨_, Y, hsome, hlog, hK, fun j k hjk => qRound_steps_strictMono hs hjk, ?_⟩
  intro hN
  have h0 : (0 : Nat) < Y := by
    rw [hK 0]
    refine ⟨by simpa using hh, ?_⟩
    rw [Nat.cast_zero, zero_mul, qRound_zero]
    exact_mod_cast hN
  rw [hlog]
  obtain ⟨Y1, rfl⟩ := Nat.exists_eq_succ_of_ne_zero (Nat.pos_iff_ne_zero.mp h0)
  simp [List.range_succ_eq_map, qRound_zero]

/-- C23 on a document of five visible lines on a track of two pixels with one
pixel per line (a step of 5/2): the lines 0 and 3 are kept, in the rows 0
and 1. -/
theorem C23_decimation_witness :
    ∃ (st : RenderState) (K : Nat),
      Scaling.drawMinimapImage qcOf (cfgOf 5000 1 EMinimapStyle.eScaling) (hostOf 5 2 16 0 0 3)
        (Scaling.update (cfgOf 5000 1 EMinimapStyle.eScaling) (hostOf 5 2 16 0 0 3)
          (MinimapStyleObject.construct EMinimapStyle.eScaling))
        (documentOf (List.replicate 5 (blockOf ['x'] 0 false []))) = some st ∧
      keptLines st.log = (List.range K).map (fun k : Nat => (qRound ((k : ℚ) * (1 /
        (Scaling.update (cfgOf 5000 1 EMinimapStyle.eScaling) (hostOf 5 2 16 0 0 3)
          (MinimapStyleObject.construct EMinimapStyle.eScaling)).m_factor)), (k : Int))) :=
  let ⟨st, K, h1, h2, _⟩ := C23_decimation qcOf (cfgOf 5000 1 EMinimapStyle.eScaling)
    (hostOf 5 2 16 0 0 3)
    (Scaling.update (cfgOf 5000 1 EMinimapStyle.eScaling) (hostOf 5 2 16 0 0 3)
      (MinimapStyleObject.construct EMinimapStyle.eScaling))
    (documentOf (List.replicate 5 (blockOf ['x'] 0 false []))) (by decide!) (by decide!)
  ⟨st, K, h1, h2⟩

end Minimap

namespace Minimap

/-! ## Row replication of the scaling strategy -/

theorem scanLine_index_unique {ppl k d y d1 : Int} (hppl : 0 < ppl)
    (hd : 0 ≤ d) (hd2 : d < ppl) (hd1 : 0 ≤ d1) (hd12 : d1 < ppl)
    (h : k * ppl + d = y * ppl + d1) : k = y ∧ d = d1 := by
  have h1 : (k * ppl + d) / ppl = k ∧ (k * ppl + d) % ppl = d :=
    (Int.ediv_emod_unique hppl).mpr ⟨by ring, hd, hd2⟩
  have h2 : (k * ppl + d) / ppl = y ∧ (k * ppl + d) % ppl = d1 :=
    (Int.ediv_emod_unique hppl).mpr ⟨by rw [h]; ring, hd1, hd12⟩
  exact ⟨h1.1.symm.trans h2.1, h1.2.symm.trans h2.2⟩

theorem duplicate_fold_apply (ppl width originalY : Int) (scanLine : ScanLine) (n : Nat)
    (image : Image) (t : Int) :
    ((List.range n).foldl
      (fun (img : Image) (j : Nat) =>
        Function.update img (originalY * ppl + ((j : Int) + 1))
          (memcpy (img (originalY * ppl + ((j : Int) + 1))) scanLine width))
      image) t
    = if ∃ j : Nat, j < n ∧ t = originalY * ppl + ((j : Int) + 1)
      then memcpy (image t) scanLine width else image t := by
  induction n with
  | zero => simp
  | succ n ih =>
    rw [List.range_succ, List.foldl_append]
    simp only [List.foldl_cons, List.foldl_nil]
    by_cases ht : t = originalY * ppl + ((n : Int) + 1)
    · have hex : ∃ j : Nat, j < n + 1 ∧ t = originalY * ppl + ((j : Int) + 1) :=
        ⟨n, Nat.lt_succ_self n, ht⟩
      rw [if_pos hex]
      have hno : ¬ ∃ j : Nat, j < n ∧ t = originalY * ppl + ((j : Int) + 1) := by
        rintro ⟨j, hj, hjt⟩
        rw [ht] at hjt
        omega
      have ih1 := ih
      rw [if_neg hno] at ih1
      rw [ht, Function.update_same, ← ht, ih1]
    · rw [Function.update_noteq ht, ih]
      by_cases hex : ∃ j : Nat, j < n ∧ t = originalY * ppl + ((j : Int) + 1)
      · obtain ⟨j, hj, hjt⟩ := hex
        rw [if_pos ⟨j, hj, hjt⟩, if_pos ⟨j, Nat.lt_succ_of_lt hj, hjt⟩]
      · have hno : ¬ ∃ j : Nat, j < n + 1 ∧ t = originalY * ppl + ((j : Int) + 1) := by
          rintro ⟨j, hj, hjt⟩
          rcases Nat.lt_or_eq_of_le (Nat.lt_succ_iff.mp hj) with h | h
          · exact hex ⟨j, h, hjt⟩
          · rw [h] at hjt
            exact ht hjt
        rw [if_neg hex, if_neg hno]

theorem duplicate_apply (ppl width originalY : Int) (scanLine : ScanLine) (image : Image)
    (t : Int) :
    Scaling.duplicate ppl width originalY scanLine image t
    = if ∃ j : Nat, j < (ppl - 2).toNat ∧ t = originalY * ppl + ((j : Int) + 1)
      then memcpy (image t) scanLine width else image t := by
  unfold Scaling.duplicate
  exact duplicate_fold_apply ppl width originalY scanLine _ image t

/-- The rows of the image after the body of the loop for a visible block: the
scanline of the block and its copies change, every other row stays; the
scanline of a kept line has its markers. -/
theorem scaling_drawBlock_image (qc : QColorModel) (cfg : MinimapSettings) (e : Host)
    (o : MinimapStyleObject) (doc : Document) (step : ℚ) (w : Int) (st : RenderState)
    (b : QTextBlock) (hb : b.isVisible = true) :
    ∃ scanLine : ScanLine,
      (qRound st.r = st.i → ∃ scanLine0 : ScanLine, scanLine =
        Scaling.drawMarkers (Scaling.nextRevision doc st.revision b)
          (Scaling.nextFolded doc st.folded b) scanLine0) ∧
      ∀ t : Int,
        (Scaling.drawBlock qc cfg e o doc step w st b).image t
        = if ∃ j : Nat, j < (cfg.pixelsPerLine - 2).toNat ∧
              t = st.y * cfg.pixelsPerLine + ((j : Int) + 1)
          then memcpy (Function.update st.image (st.y * cfg.pixelsPerLine) scanLine t)
            scanLine o.m_imageWidth
          else Function.update st.image (st.y * cfg.pixelsPerLine) scanLine t := by
  simp only [Scaling.drawBlock, hb, if_true]
  refine ⟨_, ?_, fun t => duplicate_apply _ _ _ _ _ t⟩
  intro hk
  simp only [hk, decide_True, if_true]
  exact ⟨_, rfl⟩

/-- A scanline `k * ppl + d` with `0 <= d < ppl` of another output row than
the current one is not touched by the body of the loop. -/
theorem scaling_drawBlock_other_rows (qc : QColorModel) (cfg : MinimapSettings) (e : Host)
    (o : MinimapStyleObject) (doc : Document) (step : ℚ) (w : Int) (st : RenderState)
    (b : QTextBlock) (hpos : 0 < cfg.pixelsPerLine) (k d : Int) (hd : 0 ≤ d)
    (hd2 : d < cfg.pixelsPerLine) (hk : k ≠ st.y) :
    (Scaling.drawBlock qc cfg e o doc step w st b).image (k * cfg.pixelsPerLine + d)
      = st.image (k * cfg.pixelsPerLine + d) := by
  by_cases hb : b.isVisible = true
  swap
  · have hb0 : b.isVisible = false := by simpa using hb
    rw [scaling_drawBlock_hidden qc cfg e o doc step w st b hb0]
  obtain ⟨scanLine, _, himg⟩ := scaling_drawBlock_image qc cfg e o doc step w st b hb
  rw [himg]
  have hno : ¬ ∃ j : Nat, j < (cfg.pixelsPerLine - 2).toNat ∧
      k * cfg.pixelsPerLine + d = st.y * cfg.pixelsPerLine + ((j : Int) + 1) := by
    rintro ⟨j, hj, hjt⟩
    exact hk (scanLine_index_unique hpos hd hd2 (by omega) (by omega) hjt).1
  rw [if_neg hno, Function.update_noteq]
  intro heq
  have heq1 : k * cfg.pixelsPerLine + d = st.y * cfg.pixelsPerLine + 0 := by rw [heq]; ring
  exact hk (scanLine_index_unique hpos hd hd2 (le_refl 0) hpos heq1).1

/-- The scanline of the current output row after the body of the loop for a
kept line carries the markers of the accumulators. -/
theorem scaling_drawBlock_kept_row (qc : QColorModel) (cfg : MinimapSettings) (e : Host)
    (o : MinimapStyleObject) (doc : Document) (step : ℚ) (w : Int) (st : RenderState)
    (b : QTextBlock) (hb : b.isVisible = true) (hk : qRound st.r = st.i) :
    ∃ scanLine0 : ScanLine,
      (Scaling.drawBlock qc cfg e o doc step w st b).image (st.y * cfg.pixelsPerLine)
        = Scaling.drawMarkers (Scaling.nextRevision doc st.revision b)
          (Scaling.nextFolded doc st.folded b) scanLine0 := by
  obtain ⟨scanLine, hsl, himg⟩ := scaling_drawBlock_image qc cfg e o doc step w st b hb
  obtain ⟨scanLine0, h0⟩ := hsl hk
  refine ⟨scanLine0, ?_⟩
  rw [himg]
  have hno : ¬ ∃ j : Nat, j < (cfg.pixelsPerLine - 2).toNat ∧
      st.y * cfg.pixelsPerLine = st.y * cfg.pixelsPerLine + ((j : Int) + 1) := by
    rintro ⟨j, hj, hjt⟩
    omega
  rw [if_neg hno, Function.update_same, h0]

theorem scaling_drawBlock_replicated (qc : QColorModel) (cfg : MinimapSettings) (e : Host)
    (o : MinimapStyleObject) (doc : Document) (step : ℚ) (w : Int) (st : RenderState)
    (b : QTextBlock) (bg : QRgb) (hppl : 2 ≤ cfg.pixelsPerLine)
    (hinv : (∀ k d x : Int, 0 ≤ d → d ≤ cfg.pixelsPerLine - 2 → 0 ≤ x → x < o.m_imageWidth →
        st.image (k * cfg.pixelsPerLine + d) x = st.image (k * cfg.pixelsPerLine) x) ∧
      (∀ k x : Int, st.image (k * cfg.pixelsPerLine + (cfg.pixelsPerLine - 1)) x = bg)) :
    (∀ k d x : Int, 0 ≤ d → d ≤ cfg.pixelsPerLine - 2 → 0 ≤ x → x < o.m_imageWidth →
        (Scaling.drawBlock qc cfg e o doc step w st b).image (k * cfg.pixelsPerLine + d) x
          = (Scaling.drawBlock qc cfg e o doc step w st b).image (k * cfg.pixelsPerLine) x) ∧
      (∀ k x : Int,
        (Scaling.drawBlock qc cfg e o doc step w st b).image
          (k * cfg.pixelsPerLine + (cfg.pixelsPerLine - 1)) x = bg) := by
  by_cases hb : b.isVisible = true
  swap
  · have hb0 : b.isVisible = false := by simpa using hb
    rw [scaling_drawBlock_hidden qc cfg e o doc step w st b hb0]
    exact hinv
  obtain ⟨scanLine, _, himg⟩ := scaling_drawBlock_image qc cfg e o doc step w st b hb
  obtain ⟨h1, h2⟩ := hinv
  have hpos : 0 < cfg.pixelsPerLine := by omega
  have hother : ∀ k d : Int, 0 ≤ d → d < cfg.pixelsPerLine → k ≠ st.y →
      (Scaling.drawBlock qc cfg e o doc step w st b).image (k * cfg.pixelsPerLine + d)
        = st.image (k * cfg.pixelsPerLine + d) :=
    fun k d hd hd2 hk => scaling_drawBlock_other_rows qc cfg e o doc step w st b hpos k d hd hd2 hk
  have hrow : (Scaling.drawBlock qc cfg e o doc step w st b).image (st.y * cfg.pixelsPerLine)
      = scanLine := by
    rw [himg]
    have hno : ¬ ∃ j : Nat, j < (cfg.pixelsPerLine - 2).toNat ∧
        st.y * cfg.pixelsPerLine = st.y * cfg.pixelsPerLine + ((j : Int) + 1) := by
      rintro ⟨j, hj, hjt⟩
      omega
    rw [if_neg hno, Function.update_same]
  constructor
  · intro k d x hd hd2 hx hx2
    by_cases hk : k = st.y
    · rw [hk]
      rcases eq_or_lt_of_le hd with h0 | h0
      · rw [← h0, add_zero]
      · rw [hrow, himg]
        have hex : ∃ j : Nat, j < (cfg.pixelsPerLine - 2).toNat ∧
            st.y * cfg.pixelsPerLine + d = st.y * cfg.pixelsPerLine + ((j : Int) + 1) :=
          ⟨(d - 1).toNat, by omega, by omega⟩
        rw [if_pos hex]
        simp [memcpy, hx, hx2]
    · have e0 := hother k 0 (le_refl 0) hpos hk
      rw [add_zero] at e0
      rw [hother k d hd (by omega) hk, e0]
      exact h1 k d x hd hd2 hx hx2
  · intro k x
    by_cases hk : k = st.y
    · rw [hk, himg]
      have hno : ¬ ∃ j : Nat, j < (cfg.pixelsPerLine - 2).toNat ∧
          st.y * cfg.pixelsPerLine + (cfg.pixelsPerLine - 1)
            = st.y * cfg.pixelsPerLine + ((j : Int) + 1) := by
        rintro ⟨j, hj, hjt⟩
        omega
      rw [if_neg hno, Function.update_noteq (by omega)]
      exact h2 st.y x
    · rw [hother k (cfg.pixelsPerLine - 1) (by omega) (by omega) hk]
      exact h2 k x

theorem scaling_drawLoop_replicated (qc : QColorModel) (cfg : MinimapSettings) (e : Host)
    (o : MinimapStyleObject) (doc : Document) (h : Int) (step : ℚ) (w : Int) (bg : QRgb)
    (hppl : 2 ≤ cfg.pixelsPerLine) (bs : List QTextBlock) (st : RenderState)
    (hinv : (∀ k d x : Int, 0 ≤ d → d ≤ cfg.pixelsPerLine - 2 → 0 ≤ x → x < o.m_imageWidth →
        st.image (k * cfg.pixelsPerLine + d) x = st.image (k * cfg.pixelsPerLine) x) ∧
      (∀ k x : Int, st.image (k * cfg.pixelsPerLine + (cfg.pixelsPerLine - 1)) x = bg)) :
    (∀ k d x : Int, 0 ≤ d → d ≤ cfg.pixelsPerLine - 2 → 0 ≤ x → x < o.m_imageWidth →
        (Scaling.drawLoop qc cfg e o doc h step w bs st).image (k * cfg.pixelsPerLine + d) x
          = (Scaling.drawLoop qc cfg e o doc h step w bs st).image (k * cfg.pixelsPerLine) x) ∧
      (∀ k x : Int,
        (Scaling.drawLoop qc cfg e o doc h step w bs st).image
          (k * cfg.pixelsPerLine + (cfg.pixelsPerLine - 1)) x = bg) := by
  induction bs generalizing st with
  | nil => exact hinv
  | cons b bs ih =>
    rw [Scaling.drawLoop]
    by_cases hlt : st.y < h
    · rw [if_pos hlt]
      exact ih _ (scaling_drawBlock_replicated qc cfg e o doc step w st b bg hppl hinv)
    · rw [if_neg hlt]
      exact hinv

/-- C24: with at least two pixels per line, whenever the scaling `drawMinimap`
draws, it returns a state in whose image, for every output row `k`, the
scanlines `k * ppl + d` with `0 <= d <= ppl - 2` agree with the scanline
`k * ppl` of the row on all columns of the image, and the scanline
`k * ppl + ppl - 1` holds the background fill in every column: the loop never
writes it. -/
theorem C24_row_replication (qc : QColorModel) (cfg : MinimapSettings) (e : Host)
    (o : MinimapStyleObject) (doc : Document)
    (hdraw : Scaling.drawMinimap cfg e o = true) (hppl : 2 ≤ cfg.pixelsPerLine) :
    ∃ st : RenderState,
      Scaling.drawMinimapImage qc cfg e o doc = some st ∧
      (∀ k d x : Int, 0 ≤ d → d ≤ cfg.pixelsPerLine - 2 → 0 ≤ x → x < o.m_imageWidth →
        st.image (k * cfg.pixelsPerLine + d) x = st.image (k * cfg.pixelsPerLine) x) ∧
      (∀ k x : Int,
        st.image (k * cfg.pixelsPerLine + (cfg.pixelsPerLine - 1)) x = doc.background) := by
  obtain ⟨_, _, _, hsome⟩ := scaling_drawMinimapImage_isSome qc cfg e o doc hdraw
  refine ⟨_, hsome, ?_⟩
  apply scaling_drawLoop_replicated qc cfg e o doc _ _ _ doc.background hppl
  exact ⟨fun k d x _ _ _ _ => rfl, fun k x => rfl⟩

/-- C24 on a document of three lines with four pixels per line on a track of
40 pixels: in the image the scanlines 5 and 6 repeat the scanline 4 of row 1
at the first text column, and the scanline 7 holds the background. -/
theorem C24_row_replication_witness :
    ∃ st : RenderState,
      Scaling.drawMinimapImage qcOf (cfgOf 5000 4 EMinimapStyle.eScaling) (hostOf 3 40 16 0 0 0)
        (Scaling.update (cfgOf 5000 4 EMinimapStyle.eScaling) (hostOf 3 40 16 0 0 0)
          (MinimapStyleObject.construct EMinimapStyle.eScaling))
        (documentOf (List.replicate 3 (blockOf ['x'] 0 false []))) = some st ∧
      st.image (1 * 4 + 1) 7 = st.image (1 * 4) 7 ∧
      st.image (1 * 4 + 2) 7 = st.image (1 * 4) 7 ∧
      st.image (1 * 4 + (4 - 1)) 7 = 0xffffffff :=
  let ⟨st, h1, h2, h3⟩ := C24_row_replication qcOf (cfgOf 5000 4 EMinimapStyle.eScaling)
    (hostOf 3 40 16 0 0 0)
    (Scaling.update (cfgOf 5000 4 EMinimapStyle.eScaling) (hostOf 3 40 16 0 0 0)
      (MinimapStyleObject.construct EMinimapStyle.eScaling))
    (documentOf (List.replicate 3 (blockOf ['x'] 0 false []))) (by decide!) (by decide)
  ⟨st, h1, h2 1 1 7 (by decide) (by decide) (by decide) (by decide!),
    h2 1 2 7 (by decide) (by decide) (by decide) (by decide!), h3 1 7⟩

end Minimap

namespace Minimap

/-! ## Markers of the scaling strategy -/

/-- C25, as the code has it: the revision marker is not the one of the first
line of the group that differs. On a document of three visible lines on a track
of two pixels with one pixel per line, the second output row stands for the
group of an added line (revision -1) followed by a modified line (revision 5):
the first line of the group that differs from the saved revision 0 is the added
one, and the marker drawn at the columns 1 and 2 of the row is red. -/
theorem C25_added_then_modified_is_red :
    (Scaling.drawMinimapImage qcOf (cfgOf 5000 1 EMinimapStyle.eScaling) (hostOf 3 2 16 0 0 1)
        (Scaling.update (cfgOf 5000 1 EMinimapStyle.eScaling) (hostOf 3 2 16 0 0 1)
          (MinimapStyleObject.construct EMinimapStyle.eScaling))
        (documentOf [blockOf ['a'] 0 false [], blockOf ['b'] (-1) false [],
          blockOf ['c'] 5 false []])).map
      (fun st => st.log.map (fun ev => (ev.index, ev.updateY, ev.y, ev.revision)))
    = some [(0, true, 0, 0), (1, false, 1, 1), (2, true, 1, 2)] ∧
    (Scaling.drawMinimapImage qcOf (cfgOf 5000 1 EMinimapStyle.eScaling) (hostOf 3 2 16 0 0 1)
        (Scaling.update (cfgOf 5000 1 EMinimapStyle.eScaling) (hostOf 3 2 16 0 0 1)
          (MinimapStyleObject.construct EMinimapStyle.eScaling))
        (documentOf [blockOf ['a'] 0 false [], blockOf ['b'] (-1) false [],
          blockOf ['c'] 5 false []])).map
      (fun st => st.log.map (fun ev => ev.group.map (fun b => b.revision)))
    = some [[0], [-1], [-1, 5]] ∧
    (Scaling.drawMinimapImage qcOf (cfgOf 5000 1 EMinimapStyle.eScaling) (hostOf 3 2 16 0 0 1)
        (Scaling.update (cfgOf 5000 1 EMinimapStyle.eScaling) (hostOf 3 2 16 0 0 1)
          (MinimapStyleObject.construct EMinimapStyle.eScaling))
        (documentOf [blockOf ['a'] 0 false [], blockOf ['b'] (-1) false [],
          blockOf ['c'] 5 false []])).map
      (fun st => st.log.map (fun ev =>
        (ev.group.find? (fun b => b.revision ≠ 0)).map (fun b => decide (b.revision < 0))))
    = some [none, some true, some true] ∧
    (Scaling.drawMinimapImage qcOf (cfgOf 5000 1 EMinimapStyle.eScaling) (hostOf 3 2 16 0 0 1)
        (Scaling.update (cfgOf 5000 1 EMinimapStyle.eScaling) (hostOf 3 2 16 0 0 1)
          (MinimapStyleObject.construct EMinimapStyle.eScaling))
        (documentOf [blockOf ['a'] 0 false [], blockOf ['b'] (-1) false [],
          blockOf ['c'] 5 false []])).map
      (fun st => (st.image 1 1, st.image 1 2))
    = some (red, red) := by
  refine ⟨?_, ?_, ?_, ?_⟩ <;> decide!

theorem scaling_drawLoop_induct (qc : QColorModel) (cfg : MinimapSettings) (e : Host)
    (o : MinimapStyleObject) (doc : Document) (h : Int) (step : ℚ) (w : Int)
    (P : RenderState → Prop)
    (hstep : ∀ (st : RenderState) (b : QTextBlock), P st →
      P (Scaling.drawBlock qc cfg e o doc step w st b))
    (bs : List QTextBlock) (st : RenderState) (hst : P st) :
    P (Scaling.drawLoop qc cfg e o doc h step w bs st) := by
  induction bs generalizing st with
  | nil => exact hst
  | cons b bs ih =>
    rw [Scaling.drawLoop]
    by_cases hlt : st.y < h
    · rw [if_pos hlt]
      exact ih _ (hstep st b hst)
    · rw [if_neg hlt]
      exact hst

theorem scaling_drawBlock_record (qc : QColorModel) (cfg : MinimapSettings) (e : Host)
    (o : MinimapStyleObject) (doc : Document) (step : ℚ) (w : Int) (st : RenderState)
    (b : QTextBlock) (hb : b.isVisible = true) :
    (Scaling.drawBlock qc cfg e o doc step w st b).log = st.log ++
      [{ index := st.i, updateY := decide (qRound st.r = st.i), y := st.y
         revision := Scaling.nextRevision doc st.revision b
         folded := Scaling.nextFolded doc st.folded b, group := st.group ++ [b] }] ∧
    (Scaling.drawBlock qc cfg e o doc step w st b).group
      = (if qRound st.r = st.i then [] else st.group ++ [b]) ∧
    (Scaling.drawBlock qc cfg e o doc step w st b).revision
      = (if qRound st.r = st.i then 0 else Scaling.nextRevision doc st.revision b) ∧
    (Scaling.drawBlock qc cfg e o doc step w st b).folded
      = (if qRound st.r = st.i then false else Scaling.nextFolded doc st.folded b) ∧
    (Scaling.drawBlock qc cfg e o doc step w st b).y
      = (if qRound st.r = st.i then st.y + 1 else st.y) := by
  simp only [Scaling.drawBlock, hb, if_true]
  by_cases hk : qRound st.r = st.i <;> simp [hk]

theorem nextFolded_eq (doc : Document) (folded : Bool) (b : QTextBlock) :
    Scaling.nextFolded doc folded b = (folded || (doc.codeFoldingVisible && b.isFolded)) := by
  unfold Scaling.nextFolded
  cases folded <;> cases hc : doc.codeFoldingVisible <;> cases hf : b.isFolded <;> simp [hc]

theorem foldl_nextFolded (doc : Document) (group : List QTextBlock) (folded : Bool) :
    group.foldl (Scaling.nextFolded doc) folded
      = (folded || (doc.codeFoldingVisible && group.any (fun b => b.isFolded))) := by
  induction group generalizing folded with
  | nil => simp
  | cons b bs ih =>
    rw [List.foldl_cons, ih, nextFolded_eq]
    cases folded <;> cases hc : doc.codeFoldingVisible <;> cases hf : b.isFolded <;>
      simp [hf]

theorem nextRevision_same (doc : Document) (revision : Int) (b : QTextBlock)
    (h : doc.revisionsVisible = false ∨ b.revision = doc.lastSaveRevision) :
    Scaling.nextRevision doc revision b = revision := by
  unfold Scaling.nextRevision
  rcases h with h | h
  · simp [h]
  · simp [h]

theorem foldl_nextRevision_same (doc : Document) (group : List QTextBlock) (revision : Int)
    (h : doc.revisionsVisible = false ∨ ∀ b ∈ group, b.revision = doc.lastSaveRevision) :
    group.foldl (Scaling.nextRevision doc) revision = revision := by
  induction group generalizing revision with
  | nil => rfl
  | cons b bs ih =>
    rw [List.foldl_cons, nextRevision_same doc revision b, ih]
    · rcases h with h | h
      · exact Or.inl h
      · exact Or.inr (fun c hc => h c (List.mem_cons_of_mem _ hc))
    · rcases h with h | h
      · exact Or.inl h
      · exact Or.inr (h b (List.mem_cons_self _ _))

theorem nextRevision_range (doc : Document) (revision : Int) (b : QTextBlock)
    (h : 0 ≤ revision ∧ revision ≤ 2) :
    0 ≤ Scaling.nextRevision doc revision b ∧ Scaling.nextRevision doc revision b ≤ 2 := by
  unfold Scaling.nextRevision
  split_ifs <;> omega

theorem nextRevision_modified (doc : Document) (revision : Int) (b : QTextBlock)
    (hv : doc.revisionsVisible = true) (h : 0 ≤ revision ∧ revision ≤ 2)
    (hb : b.revision ≠ doc.lastSaveRevision) (hb0 : 0 ≤ b.revision) :
    Scaling.nextRevision doc revision b = 2 := by
  unfold Scaling.nextRevision
  rw [if_pos hv, if_pos hb]
  split_ifs <;> omega

theorem foldl_nextRevision_two (doc : Document) (group : List QTextBlock) :
    group.foldl (Scaling.nextRevision doc) 2 = 2 := by
  induction group with
  | nil => rfl
  | cons b bs ih =>
    rw [List.foldl_cons]
    have : Scaling.nextRevision doc 2 b = 2 := by
      unfold Scaling.nextRevision
      split_ifs <;> omega
    rw [this, ih]

theorem foldl_nextRevision_modified (doc : Document) (group : List QTextBlock) (revision : Int)
    (hv : doc.revisionsVisible = true) (h : 0 ≤ revision ∧ revision ≤ 2)
    (hex : ∃ b ∈ group, b.revision ≠ doc.lastSaveRevision ∧ 0 ≤ b.revision) :
    group.foldl (Scaling.nextRevision doc) revision = 2 := by
  induction group generalizing revision with
  | nil =>
    obtain ⟨b, hb, _⟩ := hex
    exact absurd hb (List.not_mem_nil b)
  | cons c cs ih =>
    rw [List.foldl_cons]
    obtain ⟨b, hb, hb1, hb2⟩ := hex
    rcases List.mem_cons.mp hb with rfl | hmem
    · rw [nextRevision_modified doc revision b hv h hb1 hb2, foldl_nextRevision_two]
    · exact ih _ (nextRevision_range doc revision c h) ⟨b, hmem, hb1, hb2⟩

theorem foldl_nextRevision_added (doc : Document) (pre post : List QTextBlock) (b : QTextBlock)
    (hv : doc.revisionsVisible = true)
    (hpre : ∀ c ∈ pre, c.revision = doc.lastSaveRevision)
    (hpost : ∀ c ∈ post, c.revision = doc.lastSaveRevision)
    (hb : b.revision ≠ doc.lastSaveRevision) (hb0 : b.revision < 0) :
    (pre ++ b :: post).foldl (Scaling.nextRevision doc) 0 = 1 := by
  rw [List.foldl_append, List.foldl_cons, foldl_nextRevision_same doc pre 0 (Or.inr hpre)]
  have : Scaling.nextRevision doc 0 b = 1 := by
    unfold Scaling.nextRevision
    rw [if_pos hv, if_pos hb, if_pos ⟨by decide, hb0⟩]
  rw [this, foldl_nextRevision_same doc post 1 (Or.inr hpost)]

theorem drawMarkers_pixels (revision : Int) (folded : Bool) (scanLine : ScanLine) :
    (revision = 1 → Scaling.drawMarkers revision folded scanLine 1 = green ∧
      Scaling.drawMarkers revision folded scanLine 2 = green) ∧
    (revision = 2 → Scaling.drawMarkers revision folded scanLine 1 = red ∧
      Scaling.drawMarkers revision folded scanLine 2 = red) ∧
    (folded = true → Scaling.drawMarkers revision folded scanLine 4 = black ∧
      Scaling.drawMarkers revision folded scanLine 5 = black) ∧
    (revision ≠ 1 → revision ≠ 2 → Scaling.drawMarkers revision folded scanLine 1 = scanLine 1 ∧
      Scaling.drawMarkers revision folded scanLine 2 = scanLine 2) ∧
    (folded = false → Scaling.drawMarkers revision folded scanLine 4 = scanLine 4 ∧
      Scaling.drawMarkers revision folded scanLine 5 = scanLine 5) := by
  refine ⟨?_, ?_, ?_, ?_, ?_⟩
  · intro h
    cases folded <;> simp [Scaling.drawMarkers, h, Function.update]
  · intro h
    cases folded <;> simp [Scaling.drawMarkers, h, Function.update]
  · intro h
    simp [Scaling.drawMarkers, h, Function.update]
  · intro h1 h2
    cases folded <;> simp [Scaling.drawMarkers, h1, h2, Function.update]
  · intro h
    by_cases h1 : revision = 1
    · simp [Scaling.drawMarkers, h, h1, Function.update]
    · by_cases h2 : revision = 2
      · simp [Scaling.drawMarkers, h, h2, Function.update]
      · simp [Scaling.drawMarkers, h, h1, h2, Function.update]

/-- The accumulators are the folds over the visible lines since the last kept
row, for the state and for every step of the record. -/
theorem scaling_drawLoop_accumulators (qc : QColorModel) (cfg : MinimapSettings) (e : Host)
    (o : MinimapStyleObject) (doc : Document) (h : Int) (step : ℚ) (w : Int)
    (bs : List QTextBlock) (st : RenderState)
    (hst : st.revision = st.group.foldl (Scaling.nextRevision doc) 0 ∧
      st.folded = st.group.foldl (Scaling.nextFolded doc) false ∧
      ∀ ev ∈ st.log, ev.revision = ev.group.foldl (Scaling.nextRevision doc) 0 ∧
        ev.folded = ev.group.foldl (Scaling.nextFolded doc) false) :
    (Scaling.drawLoop qc cfg e o doc h step w bs st).revision
      = (Scaling.drawLoop qc cfg e o doc h step w bs st).group.foldl
          (Scaling.nextRevision doc) 0 ∧
    (Scaling.drawLoop qc cfg e o doc h step w bs st).folded
      = (Scaling.drawLoop qc cfg e o doc h step w bs st).group.foldl
          (Scaling.nextFolded doc) false ∧
    ∀ ev ∈ (Scaling.drawLoop qc cfg e o doc h step w bs st).log,
      ev.revision = ev.group.foldl (Scaling.nextRevision doc) 0 ∧
      ev.folded = ev.group.foldl (Scaling.nextFolded doc) false := by
  refine scaling_drawLoop_induct qc cfg e o doc h step w
    (fun s => s.revision = s.group.foldl (Scaling.nextRevision doc) 0 ∧
      s.folded = s.group.foldl (Scaling.nextFolded doc) false ∧
      ∀ ev ∈ s.log, ev.revision = ev.group.foldl (Scaling.nextRevision doc) 0 ∧
        ev.folded = ev.group.foldl (Scaling.nextFolded doc) false) ?_ bs st hst
  intro s b ⟨h1, h2, h3⟩
  by_cases hb : b.isVisible = true
  swap
  · have hb0 : b.isVisible = false := by simpa using hb
    rw [scaling_drawBlock_hidden qc cfg e o doc step w s b hb0]
    exact ⟨h1, h2, h3⟩
  obtain ⟨hl, hg, hr, hf, _⟩ := scaling_drawBlock_record qc cfg e o doc step w s b hb
  rw [hl, hg, hr, hf]
  refine ⟨?_, ?_, ?_⟩
  · by_cases hk : qRound s.r = s.i
    · simp [hk]
    · simp only [hk, if_false]
      rw [List.foldl_append, ← h1]
      rfl
  · by_cases hk : qRound s.r = s.i
    · simp [hk]
    · simp only [hk, if_false]
      rw [List.foldl_append, ← h2]
      rfl
  · intro ev hev
    rcases List.mem_append.mp hev with hold | hnew
    · exact h3 ev hold
    · rw [List.mem_singleton] at hnew
      rw [hnew]
      simp only
      rw [List.foldl_append, List.foldl_append, ← h1, ← h2]
      exact ⟨rfl, rfl⟩

/-- The groups of the kept rows, followed by the lines skipped since the last
kept row, are the visible lines that the loop has gone through. -/
theorem scaling_drawLoop_groups (qc : QColorModel) (cfg : MinimapSettings) (e : Host)
    (o : MinimapStyleObject) (doc : Document) (h : Int) (step : ℚ) (w : Int)
    (bs : List QTextBlock) (st : RenderState) (seen : List QTextBlock)
    (hst : ((st.log.filter (fun ev => ev.updateY)).flatMap (fun ev => ev.group)) ++ st.group
      = seen) :
    ∃ pre post : List QTextBlock, bs = pre ++ post ∧
      (((Scaling.drawLoop qc cfg e o doc h step w bs st).log.filter
          (fun ev => ev.updateY)).flatMap (fun ev => ev.group))
        ++ (Scaling.drawLoop qc cfg e o doc h step w bs st).group
      = seen ++ pre.filter (fun b => b.isVisible) := by
  induction bs generalizing st seen with
  | nil => exact ⟨[], [], rfl, by simpa using hst⟩
  | cons b bs ih =>
    rw [Scaling.drawLoop]
    by_cases hlt : st.y < h
    · rw [if_pos hlt]
      by_cases hb : b.isVisible = true
      · obtain ⟨hl, hg, _, _, _⟩ := scaling_drawBlock_record qc cfg e o doc step w st b hb
        have hnext : (((Scaling.drawBlock qc cfg e o doc step w st b).log.filter
              (fun ev => ev.updateY)).flatMap (fun ev => ev.group))
            ++ (Scaling.drawBlock qc cfg e o doc step w st b).group = seen ++ [b] := by
          rw [hl, hg, ← hst]
          by_cases hk : qRound st.r = st.i
          · simp [hk, List.filter_append, List.flatMap_append]
          · simp [hk, List.filter_append]
        obtain ⟨pre, post, hbs, hres⟩ := ih _ (seen ++ [b]) hnext
        refine ⟨b :: pre, post, by rw [hbs]; rfl, ?_⟩
        rw [hres]
        simp [hb]
      · have hb0 : b.isVisible = false := by simpa using hb
        rw [scaling_drawBlock_hidden qc cfg e o doc step w st b hb0]
        obtain ⟨pre, post, hbs, hres⟩ := ih st seen hst
        refine ⟨b :: pre, post, by rw [hbs]; rfl, ?_⟩
        rw [hres]
        simp [hb0]
    · rw [if_neg hlt]
      exact ⟨[], b :: bs, rfl, by simpa using hst⟩

/-- The scanline of every kept row of the record carries the markers of the
step, and the loop is past that row. -/
theorem scaling_drawLoop_marker_pixels (qc : QColorModel) (cfg : MinimapSettings) (e : Host)
    (o : MinimapStyleObject) (doc : Document) (h : Int) (step : ℚ) (w : Int)
    (hpos : 0 < cfg.pixelsPerLine) (bs : List QTextBlock) (st : RenderState)
    (hst : ∀ ev ∈ st.log, ev.updateY = true → ev.y < st.y ∧
      ∃ scanLine0 : ScanLine, st.image (ev.y * cfg.pixelsPerLine)
        = Scaling.drawMarkers ev.revision ev.folded scanLine0) :
    ∀ ev ∈ (Scaling.drawLoop qc cfg e o doc h step w bs st).log, ev.updateY = true →
      ev.y < (Scaling.drawLoop qc cfg e o doc h step w bs st).y ∧
      ∃ scanLine0 : ScanLine,
        (Scaling.drawLoop qc cfg e o doc h step w bs st).image (ev.y * cfg.pixelsPerLine)
          = Scaling.drawMarkers ev.revision ev.folded scanLine0 := by
  refine scaling_drawLoop_induct qc cfg e o doc h step w
    (fun s => ∀ ev ∈ s.log, ev.updateY = true → ev.y < s.y ∧
      ∃ scanLine0 : ScanLine, s.image (ev.y * cfg.pixelsPerLine)
        = Scaling.drawMarkers ev.revision ev.folded scanLine0) ?_ bs st hst
  intro s b hs
  by_cases hb : b.isVisible = true
  swap
  · have hb0 : b.isVisible = false := by simpa using hb
    rw [scaling_drawBlock_hidden qc cfg e o doc step w s b hb0]
    exact hs
  obtain ⟨hl, _, _, _, hy⟩ := scaling_drawBlock_record qc cfg e o doc step w s b hb
  intro ev hev hkept
  rw [hl] at hev
  have hyle : s.y ≤ (Scaling.drawBlock qc cfg e o doc step w s b).y := by
    rw [hy]
    split_ifs <;> omega
  rcases List.mem_append.mp hev with hold | hnew
  · obtain ⟨h1, sl, h2⟩ := hs ev hold hkept
    refine ⟨by omega, sl, ?_⟩
    have := scaling_drawBlock_other_rows qc cfg e o doc step w s b hpos ev.y 0 (le_refl 0) hpos
      (by omega)
    rw [add_zero] at this
    rw [this, h2]
  · rw [List.mem_singleton] at hnew
    rw [hnew] at hkept ⊢
    have hk : qRound s.r = s.i := by simpa using hkept
    refine ⟨by rw [hy, if_pos hk]; simp, ?_⟩
    exact scaling_drawBlock_kept_row qc cfg e o doc step w s b hb hk

/-- C25 amended: whenever the scaling `drawMinimap` draws, with at least one
pixel per line, the groups of the kept rows in the order of the rows, followed
by the lines skipped after the last kept row, are the visible lines the loop
went through; and for every kept row with its group of visible lines (the
lines skipped since the last kept row, followed by the kept line):
no revision marker is drawn (`revision = 0`) when the revision markers
are hidden or no line of the group differs from the last-saved revision; the
marker is red (`revision = 2`) when the markers are shown and some line of the
group is modified (differs, with a revision of at least 0); the marker is green
(`revision = 1`) when the markers are shown and exactly one line of the group
differs and it is added (a negative revision); the fold marker is set iff the
fold markers are shown and some line of the group is folded. Both accumulators
start afresh after each kept row, as each marker is a function of the group
alone. The scanline of the row in the image carries the markers: green or red
at the columns 1 and 2, black at the columns 4 and 5. -/
theorem C25_markers (qc : QColorModel) (cfg : MinimapSettings) (e : Host)
    (o : MinimapStyleObject) (doc : Document)
    (hdraw : Scaling.drawMinimap cfg e o = true) (hppl : 1 ≤ cfg.pixelsPerLine) :
    ∃ st : RenderState,
      Scaling.drawMinimapImage qc cfg e o doc = some st ∧
      (∃ pre post : List QTextBlock, doc.blocks = pre ++ post ∧
        ((st.log.filter (fun ev => ev.updateY)).flatMap (fun ev => ev.group)) ++ st.group
          = pre.filter (fun b => b.isVisible)) ∧
      ∀ ev ∈ st.log, ev.updateY = true →
        ((doc.revisionsVisible = false ∨
            ∀ b ∈ ev.group, b.revision = doc.lastSaveRevision) → ev.revision = 0) ∧
        (doc.revisionsVisible = true →
          (∃ b ∈ ev.group, b.revision ≠ doc.lastSaveRevision ∧ 0 ≤ b.revision) →
          ev.revision = 2) ∧
        (doc.revisionsVisible = true →
          ∀ (pre post : List QTextBlock) (b : QTextBlock), ev.group = pre ++ b :: post →
            (∀ c ∈ pre, c.revision = doc.lastSaveRevision) →
            (∀ c ∈ post, c.revision = doc.lastSaveRevision) →
            b.revision ≠ doc.lastSaveRevision → b.revision < 0 → ev.revision = 1) ∧
        ev.folded = (doc.codeFoldingVisible && ev.group.any (fun b => b.isFolded)) ∧
        (ev.revision = 1 → st.image (ev.y * cfg.pixelsPerLine) 1 = green ∧
          st.image (ev.y * cfg.pixelsPerLine) 2 = green) ∧
        (ev.revision = 2 → st.image (ev.y * cfg.pixelsPerLine) 1 = red ∧
          st.image (ev.y * cfg.pixelsPerLine) 2 = red) ∧
        (ev.folded = true → st.image (ev.y * cfg.pixelsPerLine) 4 = black ∧
          st.image (ev.y * cfg.pixelsPerLine) 5 = black) := by
  obtain ⟨_, _, _, hsome⟩ := scaling_drawMinimapImage_isSome qc cfg e o doc hdraw
  refine ⟨_, hsome, ?_, ?_⟩
  · have := scaling_drawLoop_groups qc cfg e o doc
      (if o.m_factor < 1 then o.lineCount else e.editorHeight) (1 / o.m_factor)
      (MinimapStyleObject.width cfg e - e.MINIMAP_EXTRA_AREA_WIDTH) doc.blocks
      { image := fill doc.background, y := 0, i := 0, r := 0, folded := false
        revision := 0, group := [], log := [] } [] (by simp)
    simpa using this
  · intro ev hev hkept
    obtain ⟨_, _, hacc⟩ := scaling_drawLoop_accumulators qc cfg e o doc
      (if o.m_factor < 1 then o.lineCount else e.editorHeight) (1 / o.m_factor)
      (MinimapStyleObject.width cfg e - e.MINIMAP_EXTRA_AREA_WIDTH) doc.blocks
      { image := fill doc.background, y := 0, i := 0, r := 0, folded := false
        revision := 0, group := [], log := [] }
      ⟨rfl, rfl, fun ev hev => absurd hev (List.not_mem_nil ev)⟩
    obtain ⟨hrev, hfold⟩ := hacc ev hev
    obtain ⟨_, sl, himg⟩ := scaling_drawLoop_marker_pixels qc cfg e o doc
      (if o.m_factor < 1 then o.lineCount else e.editorHeight) (1 / o.m_factor)
      (MinimapStyleObject.width cfg e - e.MINIMAP_EXTRA_AREA_WIDTH) (by omega) doc.blocks
      { image := fill doc.background, y := 0, i := 0, r := 0, folded := false
        revision := 0, group := [], log := [] }
      (fun ev hev => absurd hev (List.not_mem_nil ev)) ev hev hkept
    obtain ⟨p1, p2, p3, _, _⟩ := drawMarkers_pixels ev.revision ev.folded sl
    refine ⟨?_, ?_, ?_, ?_, ?_, ?_, ?_⟩
    · intro hsame
      rw [hrev, foldl_nextRevision_same doc ev.group 0 hsame]
    · intro hv hex
      rw [hrev, foldl_nextRevision_modified doc ev.group 0 hv ⟨le_refl 0, by decide⟩ hex]
    · intro hv pre post b hgroup hpre hpost hb hb0
      rw [hrev, hgroup, foldl_nextRevision_added doc pre post b hv hpre hpost hb hb0]
    · rw [hfold, foldl_nextFolded]
      simp
    · intro h1
      rw [himg]
      exact p1 h1
    · intro h2
      rw [himg]
      exact p2 h2
    · intro hf
      rw [himg]
      exact p3 hf

/-- C25 amended on a document of three visible lines, the last two modified and
the second folded, on a track of two pixels with one pixel per line: the render
returns a state. -/
theorem C25_markers_witness :
    ∃ st : RenderState,
      Scaling.drawMinimapImage qcOf (cfgOf 5000 1 EMinimapStyle.eScaling) (hostOf 3 2 16 0 0 1)
        (Scaling.update (cfgOf 5000 1 EMinimapStyle.eScaling) (hostOf 3 2 16 0 0 1)
          (MinimapStyleObject.construct EMinimapStyle.eScaling))
        (documentOf [blockOf ['a'] 0 false [], blockOf ['b'] 4 true [],
          blockOf ['c'] 5 false []]) = some st ∧
      ∀ ev ∈ st.log, ev.updateY = true →
        ev.folded = ((documentOf [blockOf ['a'] 0 false [], blockOf ['b'] 4 true [],
          blockOf ['c'] 5 false []]).codeFoldingVisible && ev.group.any (fun b => b.isFolded)) :=
  let ⟨st, h1, _, h3⟩ := C25_markers qcOf (cfgOf 5000 1 EMinimapStyle.eScaling)
    (hostOf 3 2 16 0 0 1)
    (Scaling.update (cfgOf 5000 1 EMinimapStyle.eScaling) (hostOf 3 2 16 0 0 1)
      (MinimapStyleObject.construct EMinimapStyle.eScaling))
    (documentOf [blockOf ['a'] 0 false [], blockOf ['b'] 4 true [], blockOf ['c'] 5 false []])
    (by decide!) (by decide)
  ⟨st, h1, fun ev hev hk => (h3 ev hev hk).2.2.2.1⟩

end Minimap

namespace Minimap

/-! ## Format ranges in the scaling strategy -/

theorem scaling_findIf_end (x : Int) : Scaling.findIf x [] = [] := rfl

/-- Once the iterator of the scaling strategy is at the end, no later
character of the fragment gets a range: every entry that the loop adds to the
record has no range. -/
theorem scaling_charLoop_at_end (qc : QColorModel) (blend : Bool) (w tab : Int) (fBg fFg : QRgb)
    (cs : List Char) (s : LineState) (h : s.it2 = []) :
    (Scaling.charLoop qc blend w tab fBg fFg cs s).it2 = [] ∧
    ∀ entry ∈ (Scaling.charLoop qc blend w tab fBg fFg cs s).applied,
      entry ∈ s.applied ∨ entry.2 = none := by
  induction cs generalizing s with
  | nil => exact ⟨h, fun entry hentry => Or.inl hentry⟩
  | cons c cs ih =>
    rw [Scaling.charLoop]
    simp only [h, scaling_findIf_end, List.head?_nil]
    split
    · refine ⟨rfl, ?_⟩
      intro entry hentry
      rcases List.mem_append.mp hentry with h1 | h1
      · exact Or.inl h1
      · rw [List.mem_singleton] at h1
        exact Or.inr (by rw [h1])
    · obtain ⟨h1, h2⟩ := ih { pen := _, it2 := [], cont := _, applied := _ } rfl
      refine ⟨h1, ?_⟩
      intro entry hentry
      rcases h2 entry hentry with h3 | h3
      · rcases List.mem_append.mp h3 with h4 | h4
        · exact Or.inl h4
        · rw [List.mem_singleton] at h4
          exact Or.inr (by rw [h4])
      · exact Or.inr h3

/-- C26, as the code has it: a character that no range covers ends the
resolution for the rest of the line, and the ranges are tested against the
pixel cursor. For the line `a b` with a red range on `[0, 1)` and a green range
on `[2, 3)`, the loop merges the red range at offset 0 and no range at the
offsets 1 and 2, where the first range of the sorted list that contains the
offset 2 is the green one; the pixel of `b` has the foreground of the document.
For a line of a tab and `b` with a green range on `[1, 2)`, the character `b`
at offset 1 is tested at the cursor 4 and gets no range. -/
theorem C26_uncovered_character_ends_resolution :
    (Scaling.drawText qcOf (documentOf []) 7 20 false
        (blockOf ['a', ' ', 'b'] 0 false
          [⟨0, 1, ⟨none, some red⟩⟩, ⟨2, 1, ⟨none, some green⟩⟩])
        (fill 0xffffffff 0)).applied
      = [(0, some ⟨0, 1, ⟨none, some red⟩⟩), (1, none), (2, none)] ∧
    firstContaining
        (Scaling.sortFormats [⟨0, 1, ⟨none, some red⟩⟩, ⟨2, 1, ⟨none, some green⟩⟩]) 2
      = some ⟨2, 1, ⟨none, some green⟩⟩ ∧
    (Scaling.drawText qcOf (documentOf []) 7 20 false
        (blockOf ['a', ' ', 'b'] 0 false
          [⟨0, 1, ⟨none, some red⟩⟩, ⟨2, 1, ⟨none, some green⟩⟩])
        (fill 0xffffffff 0)).pen.scanLine 2 = (documentOf []).foreground ∧
    (Scaling.drawText qcOf (documentOf []) 7 20 false
        (blockOf [Tabulation, 'b'] 0 false [⟨1, 1, ⟨none, some green⟩⟩])
        (fill 0xffffffff 0)).applied
      = [(0, none), (4, none)] ∧
    firstContaining (Scaling.sortFormats [⟨1, 1, ⟨none, some green⟩⟩]) 1
      = some ⟨1, 1, ⟨none, some green⟩⟩ := by
  refine ⟨?_, ?_, ?_, ?_, ?_⟩ <;> decide

/-! ## Format ranges in the scrolling strategy -/

theorem scrolling_advance_suffix (fragPos : Int) (itFormat : List FormatRange) :
    ∃ skipped : List FormatRange, itFormat = skipped ++ Scrolling.advance fragPos itFormat ∧
      ∀ r ∈ skipped, r.start + r.length ≤ fragPos := by
  refine ⟨itFormat.takeWhile (fun r => decide (r.start + r.length ≤ fragPos)), ?_, ?_⟩
  · unfold Scrolling.advance
    exact (List.takeWhile_append_dropWhile _ _).symm
  · intro r hr
    simpa using List.mem_takeWhile_imp hr

theorem scrolling_advance_head (fragPos : Int) (itFormat : List FormatRange) (r : FormatRange)
    (rest : List FormatRange) (h : Scrolling.advance fragPos itFormat = r :: rest) :
    fragPos < r.start + r.length := by
  unfold Scrolling.advance at h
  induction itFormat with
  | nil => simp at h
  | cons a as ih =>
    rw [List.dropWhile_cons] at h
    split at h
    · exact ih h
    · rename_i hna
      have : a = r := (List.cons.inj h).1
      rw [this] at hna
      simpa using hna

theorem firstContaining_skip (pre it : List FormatRange) (offset : Int)
    (hpre : ∀ r ∈ pre, r.start + r.length ≤ offset) :
    firstContaining (pre ++ it) offset = firstContaining it offset := by
  unfold firstContaining
  rw [List.find?_append]
  have : pre.find? (fun r => decide (r.start ≤ offset) && decide (offset < r.start + r.length))
      = none := by
    rw [List.find?_eq_none]
    intro r hr
    have := hpre r hr
    simp
    intro _
    omega
  rw [this]
  rfl

/-- One step of the cursor scan on a list sorted by start: if the ranges before
the cursor all end at or before the offset, the range applied is the first
range of the whole list that contains the offset. -/
theorem scrolling_scan_step (formats pre it : List FormatRange) (fragPos : Int)
    (hsorted : List.Pairwise (fun r1 r2 => r1.start ≤ r2.start) formats)
    (hsplit : formats = pre ++ it)
    (hpre : ∀ r ∈ pre, r.start + r.length ≤ fragPos) :
    Scrolling.rangeAt fragPos (Scrolling.advance fragPos it) = firstContaining formats fragPos := by
  obtain ⟨skipped, hit, hskipped⟩ := scrolling_advance_suffix fragPos it
  have hall : ∀ r ∈ pre ++ skipped, r.start + r.length ≤ fragPos := by
    intro r hr
    rcases List.mem_append.mp hr with h | h
    · exact hpre r h
    · exact hskipped r h
  have hform : formats = (pre ++ skipped) ++ Scrolling.advance fragPos it := by
    rw [List.append_assoc, ← hit, hsplit]
  rw [hform, firstContaining_skip _ _ _ hall]
  cases hadv : Scrolling.advance fragPos it with
  | nil => rfl
  | cons r rest =>
    have hend := scrolling_advance_head fragPos it r rest hadv
    unfold firstContaining
    show (if fragPos ≥ r.start then some r else none) = _
    by_cases hstart : fragPos ≥ r.start
    · rw [if_pos hstart, List.find?_cons_of_pos]
      simp
      exact ⟨hstart, hend⟩
    · rw [if_neg hstart, eq_comm, List.find?_eq_none]
      rw [hform, hadv] at hsorted
      have hs2 := (List.pairwise_append.mp hsorted).2.1
      have hrest := (List.pairwise_cons.mp hs2).1
      intro a ha
      rcases List.mem_cons.mp ha with rfl | hmem
      · simp
        intro h
        omega
      · have := hrest a hmem
        simp
        intro h
        omega

theorem scrolling_charLoop_applied (qc : QColorModel) (w tab : Int) (fBg fFg : QRgb)
    (offset : Int) (cs : List Char) (i : Int) (s : LineState) :
    ∃ t, (Scrolling.charLoop qc w tab fBg fFg offset cs i s).applied = s.applied ++ t := by
  induction cs generalizing i s with
  | nil => exact ⟨[], by simp [Scrolling.charLoop]⟩
  | cons c cs ih =>
    rw [Scrolling.charLoop]
    split
    · exact ⟨_, rfl⟩
    · obtain ⟨t, ht⟩ := ih (i + 1) _
      rw [ht]
      exact ⟨_, List.append_assoc _ _ _⟩

theorem scrolling_fragmentLoop_applied (qc : QColorModel) (w tab : Int) (bBg bFg : QRgb)
    (b : QTextBlock) (fs : List QTextFragment) (s : LineState) :
    ∃ t, (Scrolling.fragmentLoop qc w tab bBg bFg b fs s).applied = s.applied ++ t := by
  induction fs generalizing s with
  | nil => exact ⟨[], by simp [Scrolling.fragmentLoop]⟩
  | cons f fs ih =>
    rw [Scrolling.fragmentLoop]
    split
    · split
      · exact ih s
      · obtain ⟨t1, ht1⟩ := scrolling_charLoop_applied qc w tab
          (merge bBg bFg f.charFormat).1 (merge bBg bFg f.charFormat).2
          (f.position - b.position) f.text 0 s
        obtain ⟨t2, ht2⟩ := ih (Scrolling.charLoop qc w tab (merge bBg bFg f.charFormat).1
          (merge bBg bFg f.charFormat).2 (f.position - b.position) f.text 0 s)
        simp only
        rw [ht2, ht1]
        exact ⟨_, List.append_assoc _ _ _⟩
    · exact ⟨[], by simp⟩

theorem scrolling_charLoop_scan (qc : QColorModel) (w tab : Int) (fBg fFg : QRgb)
    (offset : Int) (formats : List FormatRange)
    (hsorted : List.Pairwise (fun r1 r2 => r1.start ≤ r2.start) formats)
    (cs : List Char) (i : Int) (s : LineState)
    (hs : ∃ pre, formats = pre ++ s.it2 ∧
      (∀ r ∈ pre, ∃ q ∈ s.applied.map Prod.fst, r.start + r.length ≤ q) ∧
      ∀ entry ∈ s.applied, entry.2 = firstContaining formats entry.1)
    (hmono : List.Pairwise (fun p q : Int => p ≤ q)
      ((Scrolling.charLoop qc w tab fBg fFg offset cs i s).applied.map Prod.fst)) :
    ∃ pre, formats = pre ++ (Scrolling.charLoop qc w tab fBg fFg offset cs i s).it2 ∧
      (∀ r ∈ pre, ∃ q ∈ (Scrolling.charLoop qc w tab fBg fFg offset cs i s).applied.map Prod.fst,
        r.start + r.length ≤ q) ∧
      ∀ entry ∈ (Scrolling.charLoop qc w tab fBg fFg offset cs i s).applied,
        entry.2 = firstContaining formats entry.1 := by
  induction cs generalizing i s with
  | nil => simpa [Scrolling.charLoop] using hs
  | cons c cs ih =>
    obtain ⟨pre, hsplit, hpre, happ⟩ := hs
    -- the state after the character
    have hstep : ∀ s1 : LineState,
        s1.it2 = Scrolling.advance (offset + i) s.it2 →
        s1.applied = s.applied ++
          [(offset + i, Scrolling.rangeAt (offset + i) (Scrolling.advance (offset + i) s.it2))] →
        List.Pairwise (fun p q : Int => p ≤ q) (s1.applied.map Prod.fst) →
        ∃ pre1, formats = pre1 ++ s1.it2 ∧
          (∀ r ∈ pre1, ∃ q ∈ s1.applied.map Prod.fst, r.start + r.length ≤ q) ∧
          ∀ entry ∈ s1.applied, entry.2 = firstContaining formats entry.1 := by
      intro s1 hit happ1 hmono1
      rw [happ1, List.map_append, List.pairwise_append] at hmono1
      have hle : ∀ q ∈ s.applied.map Prod.fst, q ≤ offset + i := by
        intro q hq
        exact hmono1.2.2 q hq (offset + i) (by simp)
      have hpre1 : ∀ r ∈ pre, r.start + r.length ≤ offset + i := by
        intro r hr
        obtain ⟨q, hq, hrq⟩ := hpre r hr
        have := hle q hq
        omega
      obtain ⟨skipped, hsk, hskipped⟩ := scrolling_advance_suffix (offset + i) s.it2
      refine ⟨pre ++ skipped, ?_, ?_, ?_⟩
      · rw [hit, List.append_assoc, ← hsk, hsplit]
      · intro r hr
        rw [happ1, List.map_append]
        rcases List.mem_append.mp hr with h | h
        · obtain ⟨q, hq, hrq⟩ := hpre r h
          exact ⟨q, List.mem_append_left _ hq, hrq⟩
        · exact ⟨offset + i, List.mem_append_right _ (by simp), hskipped r h⟩
      · intro entry hentry
        rw [happ1] at hentry
        rcases List.mem_append.mp hentry with h | h
        · exact happ entry h
        · rw [List.mem_singleton] at h
          rw [h]
          exact scrolling_scan_step formats pre s.it2 (offset + i) hsorted hsplit hpre1
    rw [Scrolling.charLoop] at hmono ⊢
    split at hmono
    · rename_i hstop
      rw [if_pos hstop]
      exact hstep _ rfl rfl hmono
    · rename_i hgo
      rw [if_neg hgo]
      refine ih (i + 1) _ ?_ hmono
      apply hstep _ rfl rfl
      obtain ⟨t, ht⟩ := scrolling_charLoop_applied qc w tab fBg fFg offset cs (i + 1)
        { pen := (updatePixel qc s.pen false c w tab
            (mergeAt fBg fFg (Scrolling.rangeAt (offset + i)
              (Scrolling.advance (offset + i) s.it2))).1
            (mergeAt fBg fFg (Scrolling.rangeAt (offset + i)
              (Scrolling.advance (offset + i) s.it2))).2).2
          it2 := Scrolling.advance (offset + i) s.it2
          cont := (updatePixel qc s.pen false c w tab
            (mergeAt fBg fFg (Scrolling.rangeAt (offset + i)
              (Scrolling.advance (offset + i) s.it2))).1
            (mergeAt fBg fFg (Scrolling.rangeAt (offset + i)
              (Scrolling.advance (offset + i) s.it2))).2).1
          applied := s.applied ++
            [(offset + i, Scrolling.rangeAt (offset + i)
              (Scrolling.advance (offset + i) s.it2))] }
      rw [ht, List.map_append] at hmono
      exact (List.pairwise_append.mp hmono).1

theorem scrolling_fragmentLoop_scan (qc : QColorModel) (w tab : Int) (bBg bFg : QRgb)
    (b : QTextBlock) (formats : List FormatRange)
    (hsorted : List.Pairwise (fun r1 r2 => r1.start ≤ r2.start) formats)
    (fs : List QTextFragment) (s : LineState)
    (hs : ∃ pre, formats = pre ++ s.it2 ∧
      (∀ r ∈ pre, ∃ q ∈ s.applied.map Prod.fst, r.start + r.length ≤ q) ∧
      ∀ entry ∈ s.applied, entry.2 = firstContaining formats entry.1)
    (hmono : List.Pairwise (fun p q : Int => p ≤ q)
      ((Scrolling.fragmentLoop qc w tab bBg bFg b fs s).applied.map Prod.fst)) :
    ∃ pre, formats = pre ++ (Scrolling.fragmentLoop qc w tab bBg bFg b fs s).it2 ∧
      (∀ r ∈ pre, ∃ q ∈ (Scrolling.fragmentLoop qc w tab bBg bFg b fs s).applied.map Prod.fst,
        r.start + r.length ≤ q) ∧
      ∀ entry ∈ (Scrolling.fragmentLoop qc w tab bBg bFg b fs s).applied,
        entry.2 = firstContaining formats entry.1 := by
  induction fs generalizing s with
  | nil => simpa [Scrolling.fragmentLoop] using hs
  | cons f fs ih =>
    rw [Scrolling.fragmentLoop] at hmono ⊢
    split at hmono
    · rename_i hcont
      rw [if_pos hcont]
      split at hmono
      · rename_i hinvalid
        rw [if_pos hinvalid]
        exact ih s hs hmono
      · rename_i hvalid
        rw [if_neg hvalid]
        refine ih _ ?_ hmono
        apply scrolling_charLoop_scan qc w tab _ _ _ formats hsorted f.text 0 s hs
        obtain ⟨t, ht⟩ := scrolling_fragmentLoop_applied qc w tab bBg bFg b fs
          (Scrolling.charLoop qc w tab (merge bBg bFg f.charFormat).1
            (merge bBg bFg f.charFormat).2 (f.position - b.position) f.text 0 s)
        rw [ht, List.map_append] at hmono
        exact (List.pairwise_append.mp hmono).1
    · rename_i hcont
      rw [if_neg hcont]
      exact hs

theorem scrolling_sortFormats_sorted (formats : List FormatRange) :
    List.Pairwise (fun r1 r2 => r1.start ≤ r2.start) (Scrolling.sortFormats formats) := by
  have hrel : ∀ r1 r2 : FormatRange, (Scrolling.lessThan r2 r1 = false) ↔ r1.start ≤ r2.start := by
    intro r1 r2
    simp [Scrolling.lessThan]
  haveI : IsTotal FormatRange (fun r1 r2 => Scrolling.lessThan r2 r1 = false) :=
    ⟨fun a b => by
      rcases le_total a.start b.start with h | h
      · exact Or.inl ((hrel a b).mpr h)
      · exact Or.inr ((hrel b a).mpr h)⟩
  haveI : IsTrans FormatRange (fun r1 r2 => Scrolling.lessThan r2 r1 = false) :=
    ⟨fun a b c hab hbc => (hrel a c).mpr (le_trans ((hrel a b).mp hab) ((hrel b c).mp hbc))⟩
  have hs := List.sorted_insertionSort (fun r1 r2 : FormatRange => Scrolling.lessThan r2 r1 = false)
    formats
  exact List.Pairwise.imp (fun {a b} h => (hrel a b).mp h) hs

/-- The cursor scan in `drawText` of the scrolling strategy, which sorts the
ranges of the block itself: with offsets visited in increasing order, every
character gets the first range of the sorted list that contains its offset. -/
theorem scrolling_drawText_scan (qc : QColorModel) (doc : Document) (extra w : Int)
    (b : QTextBlock) (scanLine : ScanLine)
    (hmono : List.Pairwise (fun p q : Int => p ≤ q)
      ((Scrolling.drawText qc doc extra w b scanLine).applied.map Prod.fst)) :
    ∀ entry ∈ (Scrolling.drawText qc doc extra w b scanLine).applied,
      entry.2 = firstContaining (Scrolling.sortFormats b.formats) entry.1 := by
  unfold Scrolling.drawText at hmono ⊢
  obtain ⟨_, _, _, happ⟩ := scrolling_fragmentLoop_scan qc w doc.m_tabSize _ _ b
    (Scrolling.sortFormats b.formats) (scrolling_sortFormats_sorted b.formats) b.fragments
    { pen := ⟨fun x => scanLine (x + extra), 0⟩, it2 := Scrolling.sortFormats b.formats
      cont := true, applied := [] }
    ⟨[], rfl, fun r hr => absurd hr (List.not_mem_nil r),
      fun entry hentry => absurd hentry (List.not_mem_nil entry)⟩ hmono
  exact happ

/-- C27: for every line, every list of format ranges sorted by start (whatever
the lengths) and every writer, if the offsets that the loop over the fragments
of the scrolling strategy visits are in increasing order, then for every
character passed to `updatePixel` the range whose format the cursor scan merges
is the first range of the sorted list whose interval `[start, start + length)`
contains the offset of the character, and the scan merges no range iff no range
of the list contains the offset; the cursor only moves forwards: after every
`advance` and at the end of the line the ranges from the cursor on are a
suffix of the ranges before. -/
theorem C27_cursor_scan (qc : QColorModel) (w tab : Int) (bBg bFg : QRgb) (b : QTextBlock)
    (formats : List FormatRange) (pen : Pen)
    (hsorted : List.Pairwise (fun r1 r2 => r1.start ≤ r2.start) formats)
    (hmono : List.Pairwise (fun p q : Int => p ≤ q)
      ((Scrolling.fragmentLoop qc w tab bBg bFg b b.fragments
        { pen := pen, it2 := formats, cont := true, applied := [] }).applied.map Prod.fst)) :
    (∀ entry ∈ (Scrolling.fragmentLoop qc w tab bBg bFg b b.fragments
        { pen := pen, it2 := formats, cont := true, applied := [] }).applied,
      entry.2 = firstContaining formats entry.1 ∧
      (entry.2 = none ↔
        ∀ r ∈ formats, ¬ (r.start ≤ entry.1 ∧ entry.1 < r.start + r.length))) ∧
    (∃ pre, formats = pre ++ (Scrolling.fragmentLoop qc w tab bBg bFg b b.fragments
        { pen := pen, it2 := formats, cont := true, applied := [] }).it2) ∧
    (∀ (fragPos : Int) (itFormat : List FormatRange),
      ∃ skipped, itFormat = skipped ++ Scrolling.advance fragPos itFormat) := by
  obtain ⟨pre, hsplit, _, happ⟩ := scrolling_fragmentLoop_scan qc w tab bBg bFg b formats hsorted
    b.fragments { pen := pen, it2 := formats, cont := true, applied := [] }
    ⟨[], rfl, fun r hr => absurd hr (List.not_mem_nil r),
      fun entry hentry => absurd hentry (List.not_mem_nil entry)⟩ hmono
  refine ⟨?_, ⟨pre, hsplit⟩, ?_⟩
  · intro entry hentry
    refine ⟨happ entry hentry, ?_⟩
    rw [happ entry hentry]
    unfold firstContaining
    rw [List.find?_eq_none]
    simp
  · intro fragPos itFormat
    obtain ⟨skipped, h, _⟩ := scrolling_advance_suffix fragPos itFormat
    exact ⟨skipped, h⟩

/-- C27 on the line `a b` with a red range on `[0, 1)` and a green range on
`[2, 3)`: the scan visits the offset 2 and merges the green range there, the
first range of the list that contains the offset 2. -/
theorem C27_cursor_scan_witness :
    ((2 : Int), some (⟨2, 1, ⟨none, some green⟩⟩ : FormatRange)) ∈
      (Scrolling.fragmentLoop qcOf 20 4 0xffffffff 0xff000000
        (blockOf ['a', ' ', 'b'] 0 false [])
        (blockOf ['a', ' ', 'b'] 0 false []).fragments
        { pen := ⟨fill 0xffffffff 0, 0⟩
          it2 := [⟨0, 1, ⟨none, some red⟩⟩, ⟨2, 1, ⟨none, some green⟩⟩]
          cont := true, applied := [] }).applied ∧
    some (⟨2, 1, ⟨none, some green⟩⟩ : FormatRange)
      = firstContaining [⟨0, 1, ⟨none, some red⟩⟩, ⟨2, 1, ⟨none, some green⟩⟩] 2 :=
  ⟨by decide,
    ((C27_cursor_scan qcOf 20 4 0xffffffff 0xff000000 (blockOf ['a', ' ', 'b'] 0 false [])
      [⟨0, 1, ⟨none, some red⟩⟩, ⟨2, 1, ⟨none, some green⟩⟩] ⟨fill 0xffffffff 0, 0⟩
      (by decide) (by decide)).1 (2, some ⟨2, 1, ⟨none, some green⟩⟩) (by decide)).1⟩

end Minimap

namespace Minimap

/-! ## Scanline bounds of the scaling strategy -/

/-- C28, as the code has it: with a scale factor below 1 the loop is bounded by
`lineCount()` and not by the height of the image, and the lines after the last
kept one are blended into a scanline past the image. For five visible lines on
a track of two pixels with one pixel per line, `update()` allocates an image of
height 2 and a step of 5/2; the lines 0 and 3 are kept in the rows 0 and 1, and
the line 4 is skipped with `y = 2`: `drawMinimap` takes the scanline 2 and
blends the character of the line into it (the pixel at the first text column,
7, is no longer the background). For 200 lines on a track of 100 pixels the
last line is blended into the scanline 100 of an image of height 100. -/
theorem C28_scanline_past_image :
    (Scaling.update (cfgOf 5000 1 EMinimapStyle.eScaling) (hostOf 5 2 16 0 0 3)
      (MinimapStyleObject.construct EMinimapStyle.eScaling)).m_imageHeight = 2 ∧
    (Scaling.drawMinimapImage qcOf (cfgOf 5000 1 EMinimapStyle.eScaling) (hostOf 5 2 16 0 0 3)
        (Scaling.update (cfgOf 5000 1 EMinimapStyle.eScaling) (hostOf 5 2 16 0 0 3)
          (MinimapStyleObject.construct EMinimapStyle.eScaling))
        (documentOf (List.replicate 5 (blockOf ['x'] 0 false [])))).map
      (fun st => st.log.map (fun ev =>
        (ev.index, ev.updateY, ev.y * (cfgOf 5000 1 EMinimapStyle.eScaling).pixelsPerLine)))
    = some [(0, true, 0), (1, false, 1), (2, false, 1), (3, true, 1), (4, false, 2)] ∧
    (Scaling.drawMinimapImage qcOf (cfgOf 5000 1 EMinimapStyle.eScaling) (hostOf 5 2 16 0 0 3)
        (Scaling.update (cfgOf 5000 1 EMinimapStyle.eScaling) (hostOf 5 2 16 0 0 3)
          (MinimapStyleObject.construct EMinimapStyle.eScaling))
        (documentOf (List.replicate 5 (blockOf ['x'] 0 false [])))).map
      (fun st => (st.image 2 7, (documentOf []).background))
    = some (0xff000000, 0xffffffff) ∧
    (Scaling.update (cfgOf 5000 1 EMinimapStyle.eScaling) (hostOf 200 100 16 0 0 194)
      (MinimapStyleObject.construct EMinimapStyle.eScaling)).m_imageHeight = 100 ∧
    (Scaling.drawMinimapImage qcOf (cfgOf 5000 1 EMinimapStyle.eScaling)
        (hostOf 200 100 16 0 0 194)
        (Scaling.update (cfgOf 5000 1 EMinimapStyle.eScaling) (hostOf 200 100 16 0 0 194)
          (MinimapStyleObject.construct EMinimapStyle.eScaling))
        (documentOf (List.replicate 200 (blockOf ['x'] 0 false [])))).map
      (fun st => (st.log.getLast?.map (fun ev =>
        (ev.index, ev.updateY, ev.y * (cfgOf 5000 1 EMinimapStyle.eScaling).pixelsPerLine)),
        st.image 100 7))
    = some (some (199, false, 100), 0xff000000) := by
  refine ⟨?_, ?_, ?_, ?_, ?_⟩ <;> decide!

end Minimap
